import Mathlib

/-!
# mob: the branch/merge tracking engine

A shallow embedding of `internal/tracking/tracking.go`, `internal/git/git.go`,
`internal/shell/shell.go`, the `update` command of `internal/cli/update.go`, the
`init` command of `internal/cli/init.go`, `internal/config/checklist.go` and the
model of `internal/ui/review.go`, with the functions of `path/filepath` and
`encoding/json` that the tracking store calls.

* Go strings are modelled by Lean strings and Go slices by lists (a nil slice and an
  empty slice are both the empty list).
* A Go `map[string]V` that is not nil is modelled by an association list read with
  `List.lookup`; assignment replaces the value of the first entry with that key or
  adds an entry. `TrackingData` is a document whose `Issues` map is not nil;
  `Document` adds the document whose `Issues` map is nil, which `Load` returns for a
  tracking file that holds `null` for `issues` and on which an assignment panics.
* The tracking file is not under version control: no `git` command changes it.
* Go `int` arithmetic is taken without overflow.
* Subprocesses and the file system are an explicit environment: every call is
  appended to a log and its outcome is read from a `World`, which may answer
  differently each time the same command is issued.
-/

set_option autoImplicit false

namespace Mob

/-! ## Strings (`strings` package functions used by the sources) -/

/-- Go `strings.HasPrefix`. -/
def HasPrefix (s p : String) : Bool :=
  p.data.isPrefixOf s.data

/-- Go `strings.TrimPrefix`: `s` without the leading `p`, or `s` itself when `p` is no prefix. -/
def TrimPrefix (s p : String) : String :=
  if HasPrefix s p then ⟨s.data.drop p.data.length⟩ else s

/-- Go `unicode.IsSpace`: the characters with the Unicode White_Space property. -/
def isSpace (c : Char) : Bool :=
  let n := c.toNat
  (9 ≤ n && n ≤ 13) || n = 32 || n = 0x85 || n = 0xA0 || n = 0x1680 ||
  (0x2000 ≤ n && n ≤ 0x200A) || n = 0x2028 || n = 0x2029 || n = 0x202F ||
  n = 0x205F || n = 0x3000

/-- Go `strings.TrimSpace`: leading and trailing white space removed. -/
def TrimSpace (s : String) : String :=
  ⟨((s.data.dropWhile isSpace).reverse.dropWhile isSpace).reverse⟩

/-- Splitting of a character list at every occurrence of `sep`; `cur` holds the
characters of the current piece in reverse. -/
def splitAux (sep : Char) : List Char → List Char → List String
  | [], cur => [⟨cur.reverse⟩]
  | c :: cs, cur =>
    if c = sep then ⟨cur.reverse⟩ :: splitAux sep cs []
    else splitAux sep cs (c :: cur)

/-- Go `strings.Split(s, sep)` for a separator of one character (the sources only
split at a line feed). -/
def Split (s : String) (sep : Char) : List String :=
  splitAux sep s.data []

/-! ## Tracking store data (`internal/tracking/tracking.go`) -/

/-- The tracking information of one issue. -/
structure IssueTracking where
  ForkPoint : String
  LastMergedCommit : String
  MergedCommits : List String
deriving DecidableEq, Repr

/-- The tracking information of all issues: `Issues map[string]IssueTracking`. -/
structure TrackingData where
  Issues : List (String × IssueTracking)
deriving DecidableEq, Repr

/-- Go map assignment `m[k] = v` on the association-list model. -/
def mapSet {V : Type} (k : String) (v : V) : List (String × V) → List (String × V)
  | [] => [(k, v)]
  | (k', v') :: rest => if k' = k then (k, v) :: rest else (k', v') :: mapSet k v rest

/-- Go function `GetIssueTracking` returns the tracking data for an issue. -/
def TrackingData.GetIssueTracking (t : TrackingData) (issue : String) : IssueTracking :=
  match t.Issues.lookup issue with
  | some tracking => tracking
  | none => { ForkPoint := "", LastMergedCommit := "", MergedCommits := [] }

/-- Go function `UpdateIssueTracking` updates the tracking data for an issue. -/
def TrackingData.UpdateIssueTracking (t : TrackingData) (issue : String) (lastCommit : String)
    (commits : List String) : TrackingData :=
  let tracking := t.GetIssueTracking issue
  let tracking := { tracking with LastMergedCommit := lastCommit }
  let tracking := { tracking with MergedCommits := tracking.MergedCommits ++ commits }
  { Issues := mapSet issue tracking t.Issues }

/-- Go function `SetForkPoint` sets the fork point for an issue. -/
def TrackingData.SetForkPoint (t : TrackingData) (issue : String) (forkPoint : String) :
    TrackingData :=
  let tracking := t.GetIssueTracking issue
  let tracking := { tracking with ForkPoint := forkPoint }
  { Issues := mapSet issue tracking t.Issues }

/-- Go function `GetForkPoint` returns the fork point for an issue. -/
def TrackingData.GetForkPoint (t : TrackingData) (issue : String) : String :=
  (t.GetIssueTracking issue).ForkPoint

/-- Go function `GetUnmergedCommits` returns commits that have not been merged yet. The
`map[string]bool` built by the first loop is a function that is `false` on absent
keys; the second loop appends to `unmerged`. -/
def TrackingData.GetUnmergedCommits (t : TrackingData) (issue : String)
    (allCommits : List String) : List String :=
  let tracking := t.GetIssueTracking issue
  let mergedSet : String → Bool :=
    tracking.MergedCommits.foldl (fun m c => fun k => if k = c then true else m k)
      (fun _ => false)
  allCommits.foldl (fun unmerged c => if !mergedSet c then unmerged ++ [c] else unmerged) []

/-- A value of the Go type `TrackingData`: the `Issues` map is nil, or it is the map
of a `TrackingData`. -/
inductive Document where
  | nilIssues
  | ofData (t : TrackingData)
deriving DecidableEq, Repr

/-- The text of the run-time panic of an assignment `m[k] = v` to a nil map. -/
def nilMapPanic : String := "assignment to entry in nil map"

/-- The entries of the `Issues` map; a nil map is read as a map without entries. -/
def Document.entries : Document → TrackingData
  | .nilIssues => { Issues := [] }
  | .ofData t => t

/-- Go function `GetIssueTracking` on a document whose map may be nil: the look-up in
a nil map finds no entry. -/
def Document.GetIssueTracking (d : Document) (issue : String) : IssueTracking :=
  match d with
  | .nilIssues => { ForkPoint := "", LastMergedCommit := "", MergedCommits := [] }
  | .ofData t => t.GetIssueTracking issue

/-- Go assignment `t.Issues[issue] = tracking`: a panic when the map is nil. -/
def Document.assign (d : Document) (issue : String) (tracking : IssueTracking) :
    Except String Document :=
  match d with
  | .nilIssues => .error nilMapPanic
  | .ofData t => .ok (.ofData { Issues := mapSet issue tracking t.Issues })

/-- Go function `UpdateIssueTracking` on a document whose map may be nil: the updated
document, or the text of the panic. -/
def Document.UpdateIssueTracking (d : Document) (issue : String) (lastCommit : String)
    (commits : List String) : Except String Document :=
  let tracking := d.GetIssueTracking issue
  let tracking := { tracking with LastMergedCommit := lastCommit }
  let tracking := { tracking with MergedCommits := tracking.MergedCommits ++ commits }
  d.assign issue tracking

/-- Go function `SetForkPoint` on a document whose map may be nil: the updated
document, or the text of the panic. -/
def Document.SetForkPoint (d : Document) (issue : String) (forkPoint : String) :
    Except String Document :=
  let tracking := d.GetIssueTracking issue
  let tracking := { tracking with ForkPoint := forkPoint }
  d.assign issue tracking

/-! ## Environment: subprocesses and the tracking file -/

/-- One call that leaves the process: a `git` subprocess started by `shell.Run` or
`shell.Output` with the given argument vector, a read of `.mob/tracking.json` or a
write of it. -/
inductive Event where
  | run (args : List String)
  | output (args : List String)
  | load
  | save (t : TrackingData)
deriving DecidableEq, Repr

/-- The environment: given the calls made so far and the next call, its outcome,
either an error text or the captured standard output (ignored for `run` and for
the file operations). -/
structure World where
  outcome : List Event → Event → Except String String

/-- The content of `.mob/tracking.json`: no file, a file that does not decode (with
the decoder's error text), a file that decodes to the document whose `Issues` map is
nil, or a file that decodes to a document with a map. -/
inductive Store where
  | absent
  | corrupt (err : String)
  | nilIssues
  | doc (t : TrackingData)
deriving DecidableEq, Repr

/-- The document a `Store` decodes to, when it holds one. -/
def Store.ofDocument : Document → Store
  | .nilIssues => .nilIssues
  | .ofData t => .doc t

/-- The state outside the process: the log of calls made and the tracking file. -/
structure Sys where
  log : List Event
  store : Store
deriving DecidableEq, Repr

/-- Go function `Load` loads the tracking data from disk. A failure of `os.Getwd` or of
`os.ReadFile` other than "does not exist" is an error outcome of the world. -/
def LoadDocument (w : World) (s : Sys) : Sys × Except String Document :=
  let s' : Sys := { s with log := s.log ++ [Event.load] }
  match w.outcome s.log Event.load with
  | .error e => (s', .error e)
  | .ok _ =>
    match s.store with
    | .absent => (s', .ok (.ofData { Issues := [] }))
    | .corrupt e => (s', .error e)
    | .nilIssues => (s', .ok .nilIssues)
    | .doc t => (s', .ok (.ofData t))

/-- Go function `Load` as the update command uses it: `LoadDocument` followed by the
entries of the document loaded. The update command only reads the document
(`GetForkPoint`) until the fork point of the issue is known to be stored, and a nil
map is read like a map without entries; its assignment in `UpdateIssueTracking`
comes after that check, when the map has an entry and so is not nil. -/
def Load (w : World) (s : Sys) : Sys × Except String TrackingData :=
  match LoadDocument w s with
  | (s', .error e) => (s', .error e)
  | (s', .ok d) => (s', .ok d.entries)

/-- Go function `Save` saves the tracking data to disk. A failure of `os.Getwd`, `os.MkdirAll`,
`json.MarshalIndent` or `os.WriteFile` is an error outcome of the world and leaves
the file as it was; a successful write replaces the whole content. -/
def TrackingData.Save (w : World) (s : Sys) (t : TrackingData) : Sys × Option String :=
  match w.outcome s.log (Event.save t) with
  | .error e => ({ s with log := s.log ++ [Event.save t] }, some e)
  | .ok _ => ({ log := s.log ++ [Event.save t], store := Store.doc t }, none)

/-! ## Repository adapter (`internal/git/git.go`, `internal/shell/shell.go`) -/

/-- Go function `git.Run` executes a git command; the result is the error, if any. The
command leaves the tracking file as it is: the file is taken not to be under
version control. -/
def Run (w : World) (s : Sys) (args : List String) : Sys × Option String :=
  ({ s with log := s.log ++ [Event.run args] },
    match w.outcome s.log (Event.run args) with
    | .error e => some e
    | .ok _ => none)

/-- Go function `git.Output` executes a git command and returns the trimmed output. -/
def Output (w : World) (s : Sys) (args : List String) : Sys × Except String String :=
  ({ s with log := s.log ++ [Event.output args] },
    match w.outcome s.log (Event.output args) with
    | .error e => .error e
    | .ok out => .ok (TrimSpace out))

/-- Go function `Checkout` switches to the specified branch. -/
def Checkout (w : World) (s : Sys) (branch : String) : Sys × Option String :=
  Run w s ["checkout", branch]

/-- Go function `CheckoutNewBranch` creates and switches to a new branch. -/
def CheckoutNewBranch (w : World) (s : Sys) (branch : String) : Sys × Option String :=
  Run w s ["checkout", "-b", branch]

/-- Go function `CurrentBranch` returns the current branch name. -/
def CurrentBranch (w : World) (s : Sys) : Sys × Except String String :=
  Output w s ["rev-parse", "--abbrev-ref", "HEAD"]

/-- Go function `BranchExists` checks if a branch exists. -/
def BranchExists (w : World) (s : Sys) (branch : String) : Sys × Bool :=
  match Output w s ["rev-parse", "--verify", branch] with
  | (s', .error _) => (s', false)
  | (s', .ok _) => (s', true)

/-- Go function `GetCommitHash` returns the commit hash for a ref. -/
def GetCommitHash (w : World) (s : Sys) (ref : String) : Sys × Except String String :=
  Output w s ["rev-parse", ref]

/-- Go function `GetCommitsBetween` returns commit hashes between two refs. -/
def GetCommitsBetween (w : World) (s : Sys) (base head : String) :
    Sys × Except String (List String) :=
  match Output w s ["log", "--format=%H", base ++ ".." ++ head] with
  | (s', .error e) => (s', .error e)
  | (s', .ok output) =>
    if output = "" then (s', .ok []) else (s', .ok (Split output '\n'))

/-- Go function `CommitSquash` creates a squash commit with a message. -/
def CommitSquash (w : World) (s : Sys) (message : String) : Sys × Option String :=
  Run w s ["commit", "-m", message]

/-- Go function `MergeSquash` merges a branch with squash. -/
def MergeSquash (w : World) (s : Sys) (branch : String) : Sys × Option String :=
  Run w s ["merge", "--squash", "-X", "theirs", branch]

/-- Go function `AbortMerge` aborts an in-progress merge. -/
def AbortMerge (w : World) (s : Sys) : Sys × Option String :=
  Run w s ["merge", "--abort"]

/-- Go function `ResetHard` resets the current branch to a commit, discarding all changes. -/
def ResetHard (w : World) (s : Sys) (commit : String) : Sys × Option String :=
  Run w s ["reset", "--hard", commit]

/-- Go function `PushSetUpstream` pushes the current branch and sets the upstream. -/
def PushSetUpstream (w : World) (s : Sys) (remote branch : String) : Sys × Option String :=
  Run w s ["push", "-u", remote, branch]

/-! ## The update command (`internal/cli/update.go`)

`RunE` is embedded in three parts: `updateCmd.rollback` is the `rollback` closure
(lines 75-92), `updateCmd.mergePhase` is the body from line 94 to the end, and
`updateCmd.RunE` is the body up to line 72 followed by `mergePhase`. The local
variables the later parts read are passed in a `Locals` record. Messages printed
to the terminal are not modelled. -/

/-- The local variables of `RunE` that are live at line 94. -/
structure Locals where
  issue : String
  wipBranch : String
  prBranch : String
  trackingData : TrackingData
  forkPoint : String
  allCommits : List String
  unmergedCommits : List String
  prBranchExisted : Bool
  prBranchOriginalCommit : String
deriving DecidableEq, Repr

/-- The `rollback` closure: every error of its own commands is discarded. -/
def updateCmd.rollback (w : World) (v : Locals) (s : Sys) (errMsg : String) :
    Sys × Option String :=
  let s := (AbortMerge w s).1
  let s := (Checkout w s v.wipBranch).1
  let s :=
    if v.prBranchExisted && v.prBranchOriginalCommit != "" then
      let s := (Checkout w s v.prBranch).1
      let s := (ResetHard w s v.prBranchOriginalCommit).1
      (Checkout w s v.wipBranch).1
    else s
  (s, some (errMsg ++ " (changes rolled back)"))

/-- Lines 109-141 of `RunE`: squash-merge, commit, tracking update and save, push,
return to the wip branch. `allCommits[0]` is in range since line 52 returned for an
empty `allCommits`. -/
def updateCmd.mergeAndPush (w : World) (message : String) (v : Locals) (s : Sys) :
    Sys × Option String :=
  match MergeSquash w s v.wipBranch with
  | (s, some err) => updateCmd.rollback w v s ("error merging wip branch: " ++ err)
  | (s, none) =>
    match CommitSquash w s message with
    | (s, some err) => updateCmd.rollback w v s ("error creating squash commit: " ++ err)
    | (s, none) =>
      let latestCommit := v.allCommits.headD ""
      let trackingData := v.trackingData.UpdateIssueTracking v.issue latestCommit v.unmergedCommits
      match trackingData.Save w s with
      | (s, some err) => updateCmd.rollback w v s ("error saving tracking data: " ++ err)
      | (s, none) =>
        match PushSetUpstream w s "origin" v.prBranch with
        | (s, some err) => updateCmd.rollback w v s ("error pushing to remote: " ++ err)
        | (s, none) =>
          match Checkout w s v.wipBranch with
          | (s, some err) =>
            (s, some ("error switching back to wip branch: " ++ err ++
              " (but merge was successful)"))
          | (s, none) => (s, none)

/-- Lines 94-141 of `RunE`: create or check out the pr branch, then
`mergeAndPush`. -/
def updateCmd.mergePhase (w : World) (message : String) (v : Locals) (s : Sys) :
    Sys × Option String :=
  if v.prBranchExisted then
    match Checkout w s v.prBranch with
    | (s, some err) => updateCmd.rollback w v s ("error checking out pr branch: " ++ err)
    | (s, none) => updateCmd.mergeAndPush w message v s
  else
    match Run w s ["checkout", v.forkPoint] with
    | (s, some err) => updateCmd.rollback w v s ("error checking out fork point: " ++ err)
    | (s, none) =>
      match CheckoutNewBranch w s v.prBranch with
      | (s, some err) => updateCmd.rollback w v s ("error creating pr branch: " ++ err)
      | (s, none) => updateCmd.mergeAndPush w message v s

/-- Lines 18-72 of `RunE`: the checks and queries before the first mutation. The
result is either the value `RunE` returns at once (an error or `nil`) or the local
variables for the rest of the body. -/
def updateCmd.prepare (w : World) (s : Sys) : Sys × (Option String ⊕ Locals) :=
  match CurrentBranch w s with
  | (s, .error err) => (s, .inl (some ("error getting current branch: " ++ err)))
  | (s, .ok currentBranch) =>
    if !HasPrefix currentBranch "wip/" then
      (s, .inl (some "not on a wip branch. Please checkout a wip/<issue> branch first"))
    else
      let issue := TrimPrefix currentBranch "wip/"
      let wipBranch := currentBranch
      let prBranch := "pr/" ++ issue
      match Load w s with
      | (s, .error err) => (s, .inl (some ("error loading tracking data: " ++ err)))
      | (s, .ok trackingData) =>
        let forkPoint := trackingData.GetForkPoint issue
        if forkPoint = "" then
          (s, .inl (some
            "no fork point found for this issue. Was this branch created with 'mob init'?"))
        else
          match GetCommitsBetween w s forkPoint wipBranch with
          | (s, .error err) => (s, .inl (some ("error getting commits: " ++ err)))
          | (s, .ok allCommits) =>
            if allCommits.length = 0 then (s, .inl none)
            else
              let unmergedCommits := trackingData.GetUnmergedCommits issue allCommits
              if unmergedCommits.length = 0 then (s, .inl none)
              else
                let (s, prBranchExisted) := BranchExists w s prBranch
                let (s, prBranchOriginalCommit) :=
                  if prBranchExisted then
                    match GetCommitHash w s prBranch with
                    | (s, .error _) => (s, "")
                    | (s, .ok h) => (s, h)
                  else (s, "")
                (s, .inr
                  { issue := issue, wipBranch := wipBranch, prBranch := prBranch,
                    trackingData := trackingData, forkPoint := forkPoint,
                    allCommits := allCommits, unmergedCommits := unmergedCommits,
                    prBranchExisted := prBranchExisted,
                    prBranchOriginalCommit := prBranchOriginalCommit })

/-- The `RunE` function of `updateCmd`; `message` is the value that
`cmd.Flags().GetString("message")` returns on line 115, the only use of the flag in
the body. The result is the error returned, `none` for `nil`. -/
def updateCmd.RunE (w : World) (message : String) (s : Sys) : Sys × Option String :=
  match updateCmd.prepare w s with
  | (s, .inl result) => (s, result)
  | (s, .inr v) => updateCmd.mergePhase w message v s

/-! ## Vocabulary for runs of the update command -/

/-- The document `RunE` saves in step 7. -/
def updateCmd.newTracking (v : Locals) : TrackingData :=
  v.trackingData.UpdateIssueTracking v.issue (v.allCommits.headD "") v.unmergedCommits

/-- The push call of step 8. -/
def updateCmd.pushEvent (v : Locals) : Event :=
  Event.run ["push", "-u", "origin", v.prBranch]

/-- The calls of steps 4 to 8 in the order `RunE` makes them, each paired with the
text `RunE` puts before the error of that call. -/
def updateCmd.steps (message : String) (v : Locals) : List (String × Event) :=
  (if v.prBranchExisted then
    [("error checking out pr branch: ", Event.run ["checkout", v.prBranch])]
  else
    [("error checking out fork point: ", Event.run ["checkout", v.forkPoint]),
     ("error creating pr branch: ", Event.run ["checkout", "-b", v.prBranch])]) ++
  [("error merging wip branch: ", Event.run ["merge", "--squash", "-X", "theirs", v.wipBranch]),
   ("error creating squash commit: ", Event.run ["commit", "-m", message]),
   ("error saving tracking data: ", Event.save (updateCmd.newTracking v)),
   ("error pushing to remote: ", updateCmd.pushEvent v)]

/-- The calls the rollback closure makes. -/
def updateCmd.rollbackEvents (v : Locals) : List Event :=
  [Event.run ["merge", "--abort"], Event.run ["checkout", v.wipBranch]] ++
  (if v.prBranchExisted && v.prBranchOriginalCommit != "" then
    [Event.run ["checkout", v.prBranch], Event.run ["reset", "--hard", v.prBranchOriginalCommit],
     Event.run ["checkout", v.wipBranch]]
  else [])

/-- The first call of `steps` that the world answers with an error when the calls
are made one after the other starting from the log `hist`: the log before the
failing call, its message prefix, the call and the error text. `none` when every
call succeeds. -/
def firstFailure (w : World) :
    List Event → List (String × Event) → Option (List Event × String × Event × String)
  | _, [] => none
  | hist, (label, ev) :: rest =>
    match w.outcome hist ev with
    | .error e => some (hist, label, ev, e)
    | .ok _ => firstFailure w (hist ++ [ev]) rest

/-- The qualifier the rollback closure appends to the cause. -/
def rolledBackQualifier : String := " (changes rolled back)"

/-- Holds when the message ends with the rollback qualifier. -/
def carriesRolledBack (msg : String) : Prop :=
  rolledBackQualifier.data <:+ msg.data

instance (msg : String) : Decidable (carriesRolledBack msg) :=
  inferInstanceAs (Decidable (rolledBackQualifier.data <:+ msg.data))

/-- A call that changes the repository: every `git` command of the update command
started with `git.Run` (checkout, merge, commit, reset, push). -/
def Event.isMutating : Event → Bool
  | .run _ => true
  | _ => false

/-- A write of the tracking file. -/
def Event.isSave : Event → Bool
  | .save _ => true
  | _ => false

/-- The state `s` is reached from `s0` by read-only calls: the log grows by calls
that neither change the repository nor write the tracking file, and the tracking
file is the same. -/
def ReadOnlyFrom (s0 s : Sys) : Prop :=
  ∃ qs : List Event, s = { log := s0.log ++ qs, store := s0.store } ∧
    ∀ q ∈ qs, q.isMutating = false ∧ q.isSave = false

/-! ## The tracking file at the level of its content

`LoadDocument` and `TrackingData.Save` above describe the tracking file by the
document it decodes to. `Bytes.Load` and `Bytes.Save` embed the same two functions
of `tracking.go` together with their calls to `os`, `path/filepath` and
`encoding/json`: files are contents by path, the failures of the operating system
are read from an `Os` record, and the two functions of `encoding/json` are the
fields of a `Json` record. -/

/-- The functions of `encoding/json` that the tracking store calls, at the type
`TrackingData`: `MarshalIndent(t, "", "  ")`, and `Unmarshal(file, data)` as a
function of the file content and of the value `data` points to before the call. -/
structure Json where
  MarshalIndent : Document → Except String String
  Unmarshal : String → Document → Except String Document

/-- The content of every file, by path; `none` for a path without a file. -/
abbrev Files := String → Option String

/-- The answers of the operating system: the working directory or the error of
`os.Getwd`, and by path the error, if any, with which creating a directory or
writing a file fails and the error, if any, other than "file does not exist" with
which reading fails. A read can fail in this way whether or not a file is at the
path: permission denied, or a parent of the path that is not a directory. -/
structure Os where
  Getwd : Except String String
  readError : String → Option String
  mkdirError : String → Option String
  writeError : String → Option String

/-- The result of `os.ReadFile`: an error for which `os.IsNotExist` holds, another
error, or the content. -/
inductive ReadResult where
  | notExist
  | failed (err : String)
  | content (data : String)
deriving DecidableEq, Repr

/-- Go function `os.ReadFile` on the file system `fs`. -/
def ReadFile (os : Os) (fs : Files) (path : String) : ReadResult :=
  match os.readError path with
  | some err => .failed err
  | none =>
    match fs path with
    | none => .notExist
    | some data => .content data

/-- The constant `trackingDir`. -/
def trackingDir : String := ".mob"

/-- The constant `trackingFile`. -/
def trackingFile : String := "tracking.json"

/-- The elements of a cleaned path: `out` holds the elements kept so far, last
first. Empty elements and `.` are dropped; `..` removes the element before it, is
dropped at the root and is kept at the start of a relative path. -/
def cleanElements (rooted : Bool) : List String → List String → List String
  | out, [] => out.reverse
  | out, c :: cs =>
    if c = "" ∨ c = "." then cleanElements rooted out cs
    else if c = ".." then
      match out with
      | top :: out' =>
        if top = ".." then cleanElements rooted (c :: out) cs
        else cleanElements rooted out' cs
      | [] => if rooted then cleanElements rooted [] cs else cleanElements rooted [c] cs
    else cleanElements rooted (c :: out) cs

/-- Go function `filepath.Clean` with the separator `/`. -/
def filepathClean (path : String) : String :=
  if path = "" then "."
  else
    let rooted : Bool := path.data.head? = some '/'
    let body := "/".intercalate (cleanElements rooted [] (Split path '/'))
    if rooted then "/" ++ body else if body = "" then "." else body

/-- Go function `filepath.Join` with the separator `/`: the elements from the first
one that is not empty on, joined and cleaned. -/
def filepathJoin (elem : List String) : String :=
  match elem.dropWhile (fun e => e = "") with
  | [] => ""
  | rest => filepathClean ("/".intercalate rest)

/-- Go function `filepath.Dir` with the separator `/`: the path up to its last
separator, cleaned. -/
def filepathDir (path : String) : String :=
  filepathClean ⟨(path.data.reverse.dropWhile (fun c => c ≠ '/')).reverse⟩

/-- Go function `getTrackingPath` returns the path to the tracking file. -/
def getTrackingPath (os : Os) : Except String String :=
  match os.Getwd with
  | .error err => .error err
  | .ok cwd => .ok (filepathJoin [cwd, trackingDir, trackingFile])

/-- Go function `Load` loads the tracking data from disk. -/
def Bytes.Load (j : Json) (os : Os) (fs : Files) : Except String Document :=
  match getTrackingPath os with
  | .error err => .error err
  | .ok path =>
    let data : Document := .ofData { Issues := [] }
    match ReadFile os fs path with
    | .notExist => .ok data
    | .failed err => .error err
    | .content file =>
      match j.Unmarshal file data with
      | .error err => .error err
      | .ok data => .ok data

/-- Go function `Save` saves the tracking data to disk: the new file system and the
error, if any. `os.MkdirAll` creates directories, which `Files` does not record; a
failing `os.WriteFile` is taken to leave the file as it was, a successful one
replaces the whole content. -/
def Bytes.Save (j : Json) (os : Os) (fs : Files) (t : Document) : Files × Option String :=
  match getTrackingPath os with
  | .error err => (fs, some err)
  | .ok path =>
    let dir := filepathDir path
    match os.mkdirError dir with
    | some err => (fs, some err)
    | none =>
      match j.MarshalIndent t with
      | .error err => (fs, some err)
      | .ok data =>
        match os.writeError path with
        | some err => (fs, some err)
        | none => (fun p => if p = path then some data else fs p, none)

/-- The abstraction of the tracking file that `LoadDocument` and `TrackingData.Save`
use: the document the content of the file decodes to. -/
def Store.ofFiles (j : Json) (fs : Files) (path : String) : Store :=
  match fs path with
  | none => .absent
  | some data =>
    match j.Unmarshal data (.ofData { Issues := [] }) with
    | .error err => .corrupt err
    | .ok d => Store.ofDocument d

/-! ## `encoding/json` at the type `TrackingData`

`MarshalIndent` and `Unmarshal` describe the two functions of the package that the
tracking store calls, for a value of type `*TrackingData` and with the names that
the struct tags of `tracking.go` give to the fields: `issues`, `fork_point`,
`last_merged_commit` and `merged_commits`. `Unmarshal` reads the whole input as one
JSON value (`parseJson`) and then stores that value into the document
(`decodeTrackingData`); `MarshalIndent` writes the document with the keys of the map
in order and two spaces of indentation.

* A string is a sequence of characters, that is, valid UTF-8.
* A slice that is nil and an empty slice are both the empty list: the list is
  written `[]` (the package writes `null` for a nil slice), and `[]` and `null` are
  both read as the empty list.
* The escapes `\b` and `\f` are written as from Go 1.22 on; earlier versions write
  `\u0008` and `\u000c`, which are read as the same characters.
* The texts of the errors are not those of the package.
* When the name of a member occurs twice in an object, the later value is stored
  over the earlier one. -/

/-- A JSON value as the decoder sees it; the digits of a number are not kept, since
no field of the tracking document is a number. -/
inductive JValue where
  | null
  | bool (b : Bool)
  | number
  | string (s : String)
  | array (elems : List JValue)
  | object (members : List (String × JValue))

/-- The white space of JSON. -/
def isJsonSpace (c : Char) : Bool :=
  c = ' ' || c = '\t' || c = '\r' || c = '\n'

/-- The input without its leading white space. -/
def skipSpace (cs : List Char) : List Char :=
  cs.dropWhile isJsonSpace

/-- The value of a hexadecimal digit. -/
def hexValue (c : Char) : Option Nat :=
  let n := c.toNat
  if 48 ≤ n ∧ n ≤ 57 then some (n - 48)
  else if 97 ≤ n ∧ n ≤ 102 then some (n - 87)
  else if 65 ≤ n ∧ n ≤ 70 then some (n - 55)
  else none

/-- The number written by four hexadecimal digits. -/
def hex4 (a b c d : Char) : Option Nat :=
  match hexValue a, hexValue b, hexValue c, hexValue d with
  | some x, some y, some z, some w => some (((x * 16 + y) * 16 + z) * 16 + w)
  | _, _, _, _ => none

/-- The character of a simple escape `\c`. -/
def simpleEscape (c : Char) : Option Char :=
  if c = '"' then some '"'
  else if c = '\\' then some '\\'
  else if c = '/' then some '/'
  else if c = 'b' then some (Char.ofNat 8)
  else if c = 'f' then some (Char.ofNat 12)
  else if c = 'n' then some '\n'
  else if c = 'r' then some '\r'
  else if c = 't' then some '\t'
  else none

/-- The low surrogate written by a `\u` escape at the start of the input, if there
is one. -/
def peekLowSurrogate (cs : List Char) : Option Nat :=
  match cs with
  | b :: u :: l1 :: l2 :: l3 :: l4 :: _ =>
    if b = '\\' ∧ u = 'u' then
      match hex4 l1 l2 l3 l4 with
      | some rr1 => if 0xDC00 ≤ rr1 ∧ rr1 < 0xE000 then some rr1 else none
      | none => none
    else none
  | _ => none

/-- The rest of a string literal after its opening quote: the string and the input
after the closing quote. `acc` holds the characters read so far, last first, and
`skip` is the number of characters to pass over, which is six after the first
escape of a surrogate pair and zero otherwise. A `\u` escape of a high surrogate
followed by the escape of a low surrogate is the character of the pair; any other
escape of a surrogate is the replacement character U+FFFD. -/
def scanString : List Char → Nat → List Char → Option (String × List Char)
  | [], _, _ => none
  | _ :: rest, skip + 1, acc => scanString rest skip acc
  | c :: rest, 0, acc =>
    if c = '"' then some (⟨acc.reverse⟩, rest)
    else if c = '\\' then
      match rest with
      | [] => none
      | e :: rest1 =>
        if e = 'u' then
          match rest1 with
          | h1 :: h2 :: h3 :: h4 :: rest2 =>
            match hex4 h1 h2 h3 h4 with
            | none => none
            | some rr =>
              if 0xD800 ≤ rr ∧ rr < 0xE000 then
                match (if rr < 0xDC00 then peekLowSurrogate rest2 else none) with
                | some rr1 =>
                  scanString rest2 6
                    (Char.ofNat (0x10000 + (rr - 0xD800) * 0x400 + (rr1 - 0xDC00)) :: acc)
                | none => scanString rest2 0 (Char.ofNat 0xFFFD :: acc)
              else scanString rest2 0 (Char.ofNat rr :: acc)
          | _ => none
        else
          match simpleEscape e with
          | some ch => scanString rest1 0 (ch :: acc)
          | none => none
    else if c.toNat < 0x20 then none
    else scanString rest 0 (c :: acc)

/-- A decimal digit. -/
def isDigit (c : Char) : Bool :=
  48 ≤ c.toNat && c.toNat ≤ 57

/-- The input after a run of at least one digit. -/
def scanDigits1 (cs : List Char) : Option (List Char) :=
  match cs with
  | d :: rest => if isDigit d then some (rest.dropWhile isDigit) else none
  | [] => none

/-- The input after a JSON number: an optional minus sign, `0` or a run of digits
that does not start with `0`, an optional fraction and an optional exponent. -/
def scanNumber (cs : List Char) : Option (List Char) :=
  let cs := match cs with
    | c :: rest => if c = '-' then rest else c :: rest
    | [] => []
  let afterInt : Option (List Char) :=
    match cs with
    | c :: rest => if c = '0' then some rest else scanDigits1 (c :: rest)
    | [] => none
  match afterInt with
  | none => none
  | some cs =>
    let afterFrac : Option (List Char) :=
      match cs with
      | c :: rest => if c = '.' then scanDigits1 rest else some (c :: rest)
      | [] => some []
    match afterFrac with
    | none => none
    | some cs =>
      match cs with
      | c :: rest =>
        if c = 'e' ∨ c = 'E' then
          match rest with
          | s :: rest1 => if s = '+' ∨ s = '-' then scanDigits1 rest1 else scanDigits1 (s :: rest1)
          | [] => none
        else some (c :: rest)
      | [] => some []

/-- The input after the characters `word`, when the input starts with them. -/
def scanWord (word : List Char) (cs : List Char) : Option (List Char) :=
  if word.isPrefixOf cs then some (cs.drop word.length) else none

/-- The greatest nesting depth of arrays and objects that the decoder accepts. -/
def maxNestingDepth : Nat := 10000

mutual

/-- One JSON value at the start of the input, after white space: the value and the
input after it. `fuel` bounds the number of nested calls and `depth` is the number
of arrays and objects the value is nested in. -/
def parseValue : Nat → Nat → List Char → Option (JValue × List Char)
  | 0, _, _ => none
  | fuel + 1, depth, input =>
    match skipSpace input with
    | [] => none
    | c :: rest =>
      if c = '"' then
        match scanString rest 0 [] with
        | some (s, rest) => some (.string s, rest)
        | none => none
      else if c = '[' then
        if maxNestingDepth ≤ depth then none
        else
          match skipSpace rest with
          | [] => none
          | c1 :: rest1 =>
            if c1 = ']' then some (.array [], rest1)
            else parseElements fuel (depth + 1) rest []
      else if c = '{' then
        if maxNestingDepth ≤ depth then none
        else
          match skipSpace rest with
          | [] => none
          | c1 :: rest1 =>
            if c1 = '}' then some (.object [], rest1)
            else parseMembers fuel (depth + 1) rest []
      else if c = 't' then
        match scanWord ['r', 'u', 'e'] rest with
        | some rest => some (.bool true, rest)
        | none => none
      else if c = 'f' then
        match scanWord ['a', 'l', 's', 'e'] rest with
        | some rest => some (.bool false, rest)
        | none => none
      else if c = 'n' then
        match scanWord ['u', 'l', 'l'] rest with
        | some rest => some (.null, rest)
        | none => none
      else
        match scanNumber (c :: rest) with
        | some rest => some (.number, rest)
        | none => none

/-- The elements of an array from the start of one element on; `acc` holds the
elements read so far, last first. -/
def parseElements : Nat → Nat → List Char → List JValue → Option (JValue × List Char)
  | 0, _, _, _ => none
  | fuel + 1, depth, input, acc =>
    match parseValue fuel depth input with
    | none => none
    | some (v, rest) =>
      match skipSpace rest with
      | [] => none
      | c :: rest =>
        if c = ',' then parseElements fuel depth rest (v :: acc)
        else if c = ']' then some (.array (v :: acc).reverse, rest)
        else none

/-- The members of an object from the start of one member name on; `acc` holds the
members read so far, last first. -/
def parseMembers : Nat → Nat → List Char → List (String × JValue) →
    Option (JValue × List Char)
  | 0, _, _, _ => none
  | fuel + 1, depth, input, acc =>
    match skipSpace input with
    | [] => none
    | q :: rest =>
      if q = '"' then
        match scanString rest 0 [] with
        | none => none
        | some (name, rest) =>
          match skipSpace rest with
          | [] => none
          | c :: rest =>
            if c = ':' then
              match parseValue fuel depth rest with
              | none => none
              | some (v, rest) =>
                match skipSpace rest with
                | [] => none
                | c :: rest =>
                  if c = ',' then parseMembers fuel depth rest ((name, v) :: acc)
                  else if c = '}' then some (.object ((name, v) :: acc).reverse, rest)
                  else none
            else none
      else none

end

/-- The JSON value that the whole input is, with white space around it. The bound on
the nested calls is twice the length of the input and two more; a call passes at
least one character of the input before the second call nested in it is made. -/
def parseJson (input : List Char) : Option JValue :=
  match parseValue (2 * input.length + 2) 0 input with
  | none => none
  | some (v, rest) => if skipSpace rest = [] then some v else none

/-- The folding of a character under which the decoder compares the name of an
object member with the name of a struct field: letters of either case are one
character, and so are `k` and the Kelvin sign, `s` and the long s. -/
def foldChar (c : Char) : Char :=
  if 65 ≤ c.toNat ∧ c.toNat ≤ 90 then Char.ofNat (c.toNat + 32)
  else if c.toNat = 0x212A then 'k'
  else if c.toNat = 0x17F then 's'
  else c

/-- Whether the member name `key` selects the struct field with the JSON name
`name`. -/
def fieldIs (key name : String) : Bool :=
  key.data.map foldChar = name.data.map foldChar

/-- The text of every error of `Unmarshal` for input that is not JSON. -/
def syntaxError : String := "invalid JSON"

/-- The text of every error of `Unmarshal` for a JSON value of another kind than
the Go value it is decoded into. -/
def typeError : String := "json: cannot unmarshal value into Go value"

/-- The elements of a JSON array decoded into a `[]string`: `null` leaves the zero
value of the element. -/
def decodeStrings : List JValue → Except String (List String)
  | [] => .ok []
  | v :: rest =>
    match decodeStrings rest with
    | .error err => .error err
    | .ok l =>
      match v with
      | .string s => .ok (s :: l)
      | .null => .ok ("" :: l)
      | _ => .error typeError

/-- A JSON value decoded into a field of type `string` that holds `old`. -/
def decodeString (v : JValue) (old : String) : Except String String :=
  match v with
  | .string s => .ok s
  | .null => .ok old
  | _ => .error typeError

/-- The members of a JSON object decoded into an `IssueTracking` in the order of the
input; members whose name selects no field are passed over. -/
def decodeIssueTracking : List (String × JValue) → IssueTracking → Except String IssueTracking
  | [], e => .ok e
  | (name, v) :: rest, e =>
    if fieldIs name "fork_point" then
      match decodeString v e.ForkPoint with
      | .ok s => decodeIssueTracking rest { e with ForkPoint := s }
      | .error err => .error err
    else if fieldIs name "last_merged_commit" then
      match decodeString v e.LastMergedCommit with
      | .ok s => decodeIssueTracking rest { e with LastMergedCommit := s }
      | .error err => .error err
    else if fieldIs name "merged_commits" then
      match v with
      | .array elems =>
        match decodeStrings elems with
        | .ok l => decodeIssueTracking rest { e with MergedCommits := l }
        | .error err => .error err
      | .null => decodeIssueTracking rest { e with MergedCommits := [] }
      | _ => .error typeError
    else decodeIssueTracking rest e

/-- The members of a JSON object decoded into a `map[string]IssueTracking`: every
member is decoded into a zero `IssueTracking` and assigned to its name. -/
def decodeIssues : List (String × JValue) → List (String × IssueTracking) →
    Except String (List (String × IssueTracking))
  | [], m => .ok m
  | (name, v) :: rest, m =>
    let zero : IssueTracking := { ForkPoint := "", LastMergedCommit := "", MergedCommits := [] }
    match v with
    | .object members =>
      match decodeIssueTracking members zero with
      | .ok e => decodeIssues rest (mapSet name e m)
      | .error err => .error err
    | .null => decodeIssues rest (mapSet name zero m)
    | _ => .error typeError

/-- The members of a JSON object decoded into a `TrackingData`: `null` for `issues`
makes the map nil, an object is decoded into the map there is, or into a new one
when the map is nil. -/
def decodeTrackingData : List (String × JValue) → Document → Except String Document
  | [], d => .ok d
  | (name, v) :: rest, d =>
    if fieldIs name "issues" then
      match v with
      | .null => decodeTrackingData rest .nilIssues
      | .object members =>
        match decodeIssues members d.entries.Issues with
        | .ok m => decodeTrackingData rest (.ofData { Issues := m })
        | .error err => .error err
      | _ => .error typeError
    else decodeTrackingData rest d

/-- Go function `json.Unmarshal(file, data)` for `data` of type `*TrackingData`: the
value `data` points to after the call, or an error. The texts of the errors are not
those of the library. -/
def Unmarshal (file : String) (data : Document) : Except String Document :=
  match parseJson file.data with
  | none => .error syntaxError
  | some v =>
    match v with
    | .null => .ok data
    | .object members => decodeTrackingData members data
    | _ => .error typeError

/-- A hexadecimal digit in lower case. -/
def hexDigit (n : Nat) : Char :=
  if n < 10 then Char.ofNat (48 + n) else Char.ofNat (87 + n)

/-- The encoding of one character of a string, with the escaping of HTML that
`Marshal` applies: the quote and the backslash are escaped by a backslash, the
control characters by their letter or by `\u00` and two digits, and so are `<`, `>`
and `&`; the line and paragraph separators are written `\u2028` and `\u2029`. -/
def escapeChar (c : Char) : List Char :=
  if c = '"' then ['\\', '"']
  else if c = '\\' then ['\\', '\\']
  else if c.toNat = 8 then ['\\', 'b']
  else if c.toNat = 12 then ['\\', 'f']
  else if c = '\n' then ['\\', 'n']
  else if c = '\r' then ['\\', 'r']
  else if c = '\t' then ['\\', 't']
  else if c.toNat < 0x20 ∨ c = '<' ∨ c = '>' ∨ c = '&' then
    ['\\', 'u', '0', '0', hexDigit (c.toNat / 16), hexDigit (c.toNat % 16)]
  else if c.toNat = 0x2028 then ['\\', 'u', '2', '0', '2', '8']
  else if c.toNat = 0x2029 then ['\\', 'u', '2', '0', '2', '9']
  else [c]

/-- The characters of a string between its quotes. -/
def escape : List Char → List Char
  | [] => []
  | c :: cs => escapeChar c ++ escape cs

/-- A string as a JSON string literal. -/
def quote (s : String) : List Char :=
  '"' :: escape s.data ++ ['"']

/-- The indentation of nesting level `n`: two spaces for each level. -/
def indent (n : Nat) : List Char :=
  List.replicate (2 * n) ' '

/-- The elements of an array that is not empty, each on a line of its own, and the
closing bracket at level `n`. -/
def encodeElements (n : Nat) : List String → List Char
  | [] => '\n' :: indent n ++ [']']
  | [s] => '\n' :: indent (n + 1) ++ quote s ++ '\n' :: indent n ++ [']']
  | s :: rest => '\n' :: indent (n + 1) ++ quote s ++ ',' :: encodeElements n rest

/-- A `[]string` as an indented JSON array whose closing bracket is at level `n`. -/
def encodeStrings (n : Nat) (l : List String) : List Char :=
  match l with
  | [] => ['[', ']']
  | _ => '[' :: encodeElements n l

/-- An `IssueTracking` as an indented JSON object whose closing brace is at level
`n`. -/
def encodeIssueTracking (n : Nat) (e : IssueTracking) : List Char :=
  '{' :: '\n' :: indent (n + 1) ++ quote "fork_point" ++ ':' :: ' ' :: quote e.ForkPoint ++
  ',' :: '\n' :: indent (n + 1) ++ quote "last_merged_commit" ++ ':' :: ' ' ::
    quote e.LastMergedCommit ++
  ',' :: '\n' :: indent (n + 1) ++ quote "merged_commits" ++ ':' :: ' ' ::
    encodeStrings (n + 1) e.MergedCommits ++
  '\n' :: indent n ++ ['}']

/-- The members of an object of issues that is not empty and the closing brace at
level `n`. -/
def encodeMembers (n : Nat) : List (String × IssueTracking) → List Char
  | [] => '\n' :: indent n ++ ['}']
  | [(k, e)] =>
    '\n' :: indent (n + 1) ++ quote k ++ ':' :: ' ' :: encodeIssueTracking (n + 1) e ++
    '\n' :: indent n ++ ['}']
  | (k, e) :: rest =>
    '\n' :: indent (n + 1) ++ quote k ++ ':' :: ' ' :: encodeIssueTracking (n + 1) e ++
    ',' :: encodeMembers n rest

/-- The order of the keys of a map in the output of `Marshal`: that of their bytes,
which for strings of characters is that of their code points. -/
def keyLe (a b : List Char) : Bool :=
  match a, b with
  | [], _ => true
  | _ :: _, [] => false
  | x :: xs, y :: ys => x.toNat < y.toNat || (x.toNat = y.toNat && keyLe xs ys)

/-- The keys of a map in the order of the output. -/
def sortedKeys (m : List (String × IssueTracking)) : List String :=
  List.insertionSort (fun a b => keyLe a.data b.data = true) (m.map Prod.fst).dedup

/-- The entries of a map in the order of the output: every key once, with the value
that a look-up of the key finds. -/
def sortedEntries (m : List (String × IssueTracking)) : List (String × IssueTracking) :=
  (sortedKeys m).filterMap (fun k => (m.lookup k).map (fun e => (k, e)))

/-- The object of a map of issues with the entries `es` in this order; the closing
brace is at level `n`. -/
def encodeEntries (n : Nat) (es : List (String × IssueTracking)) : List Char :=
  match es with
  | [] => ['{', '}']
  | entries => '{' :: encodeMembers n entries

/-- A `map[string]IssueTracking` that is not nil as an indented JSON object whose
closing brace is at level `n`. -/
def encodeIssues (n : Nat) (m : List (String × IssueTracking)) : List Char :=
  encodeEntries n (sortedEntries m)

/-- Go function `json.MarshalIndent(t, "", "  ")` for `t` of type `*TrackingData`. It
returns no error for a value of this type. -/
def MarshalIndent (t : Document) : String :=
  ⟨'{' :: '\n' :: indent 1 ++ quote "issues" ++ ':' :: ' ' ::
    (match t with
     | .nilIssues => ['n', 'u', 'l', 'l']
     | .ofData d => encodeIssues 1 d.Issues) ++ ['\n', '}']⟩

/-- The package `encoding/json` as the tracking store uses it. -/
def encodingJson : Json :=
  { MarshalIndent := fun t => .ok (MarshalIndent t), Unmarshal := Unmarshal }

/-- The JSON value of an `IssueTracking`. -/
def issueTrackingValue (e : IssueTracking) : JValue :=
  .object [("fork_point", .string e.ForkPoint),
           ("last_merged_commit", .string e.LastMergedCommit),
           ("merged_commits", .array (e.MergedCommits.map JValue.string))]

/-- The JSON value of a map of issues whose entries are `es`. -/
def issuesValue (es : List (String × IssueTracking)) : JValue :=
  .object (es.map (fun p => (p.1, issueTrackingValue p.2)))

/-- A number of nested calls that suffices to parse the members `es`. -/
def needMembers : List (String × IssueTracking) → Nat
  | [] => 0
  | p :: es => p.2.MergedCommits.length + 7 + needMembers es

/-- The JSON value that `MarshalIndent` writes for a document. -/
def documentValue (t : Document) : JValue :=
  .object [("issues",
    match t with
    | .nilIssues => .null
    | .ofData d => issuesValue (sortedEntries d.Issues))]

/-- The document that `Unmarshal` builds from the output of `MarshalIndent`: the
entries of the map are those of the document, every key once, in the order of the
output. -/
def Document.inOutputOrder : Document → Document
  | .nilIssues => .nilIssues
  | .ofData d => .ofData { Issues := sortedEntries d.Issues }

/-! ## The init command (`internal/cli/init.go`)

The process ends through `errors.ExitOnError` when a step fails: the result of
`initCmd.Run` is the state reached and the text written to the standard error
before `os.Exit(1)`, or `none` when `Run` returns normally; when `SetForkPoint`
panics the text is that of the panic. The `gh` subprocess of
`github.GetAssignedIssues` and the form of `ui.ShowForm` are parameters. -/

/-- Go function `strings.ReplaceAll(s, old, new)` for `old` and `new` of one
character (the sources only replace a space by a hyphen). -/
def ReplaceAll (s : String) (old new : Char) : String :=
  ⟨s.data.map (fun c => if c = old then new else c)⟩

/-- A GitHub issue. -/
structure Issue where
  Number : Int
  Title : String
deriving DecidableEq, Repr

/-- The collaborators of the issue selection: the result of
`github.GetAssignedIssues` and, for the options and the title shown, the result of
`ui.ShowForm`. -/
structure IssueSelector where
  GetAssignedIssues : Except String (List Issue)
  ShowForm : List (String × Int) → String → Except String Int

/-- Go function `buildOptions` converts issues to options: the label and the value
of each. -/
def buildOptions (issues : List Issue) : List (String × Int) :=
  issues.map (fun issue => ("#" ++ toString issue.Number ++ " - " ++ issue.Title, issue.Number))

/-- Go function `selectIssue` displays a menu to select an issue and returns the
selected issue number. -/
def selectIssue (sel : IssueSelector) (issues : List Issue) : Except String Int :=
  if issues.length = 0 then .error "no issues assigned to you"
  else
    let options := buildOptions issues
    sel.ShowForm options "Select an issue to work on"

/-- Go function `git.Pull` fetches and merges the latest changes. -/
def Pull (w : World) (s : Sys) : Sys × Option String :=
  Run w s ["pull"]

/-- The `Run` function of `initCmd`; `args` are the positional arguments (at most
one, by `cobra.MaximumNArgs(1)`) and `baseBranch` is the value of the `base-branch`
flag. -/
def initCmd.Run (w : World) (sel : IssueSelector) (args : List String) (baseBranch : String)
    (s : Sys) : Sys × Option String :=
  let chosen : Except String String :=
    if args.length = 0 then
      match sel.GetAssignedIssues with
      | .error err => .error ("Error fetching issues: " ++ err ++ "\n")
      | .ok issues =>
        match selectIssue sel issues with
        | .error err => .error ("Error selecting issue: " ++ err ++ "\n")
        | .ok issueNumber => .ok (toString issueNumber)
    else .ok (args.headD "")
  match chosen with
  | .error exit => (s, some exit)
  | .ok work =>
    let work := ReplaceAll work ' ' '-'
    let branchName := "wip/" ++ work
    let based : Sys × Option String :=
      if baseBranch ≠ "" then
        match Checkout w s baseBranch with
        | (s, some err) =>
          (s, some ("Error checking out base branch '" ++ baseBranch ++ "': " ++ err ++ "\n"))
        | (s, none) =>
          match Pull w s with
          | (s, some err) => (s, some ("Error pulling latest updates: " ++ err ++ "\n"))
          | (s, none) => (s, none)
      else (s, none)
    match based with
    | (s, some exit) => (s, some exit)
    | (s, none) =>
      match GetCommitHash w s "HEAD" with
      | (s, .error err) => (s, some ("Error getting current commit: " ++ err ++ "\n"))
      | (s, .ok forkPoint) =>
        match CheckoutNewBranch w s branchName with
        | (s, some err) =>
          (s, some ("Error creating branch '" ++ branchName ++ "': " ++ err ++ "\n"))
        | (s, none) =>
          match LoadDocument w s with
          | (s, .error err) => (s, some ("Error loading tracking data: " ++ err ++ "\n"))
          | (s, .ok trackingData) =>
            match trackingData.SetForkPoint work forkPoint with
            | .error panic => (s, some ("panic: " ++ panic))
            | .ok trackingData =>
              match trackingData.entries.Save w s with
              | (s, some err) => (s, some ("Error saving tracking data: " ++ err ++ "\n"))
              | (s, none) => (s, none)

/-! ## The review checklist (`internal/config/checklist.go`)

The two functions of `gopkg.in/yaml.v3` are parameters; files and the operating
system are as for the tracking file. -/

/-- A single checklist item. -/
structure config.ChecklistItem where
  ID : String
  Description : String
deriving DecidableEq, Repr

/-- The review checklist configuration. -/
structure config.Checklist where
  Items : List config.ChecklistItem
deriving DecidableEq, Repr

/-- The functions of `yaml.v3` that the checklist store calls, at the type
`Checklist`; `Unmarshal` decodes into the zero value. -/
structure Yaml where
  Marshal : config.Checklist → Except String String
  Unmarshal : String → Except String config.Checklist

/-- The constant `configDir`. -/
def config.configDir : String := ".mob"

/-- The constant `checklistFile`. -/
def config.checklistFile : String := "checklist.yaml"

/-- Go function `getChecklistPath` returns the path to the checklist file. -/
def config.getChecklistPath (os : Os) : Except String String :=
  match os.Getwd with
  | .error err => .error err
  | .ok cwd => .ok (filepathJoin [cwd, config.configDir, config.checklistFile])

/-- Go function `LoadChecklist` loads the checklist from the yaml file. -/
def config.LoadChecklist (y : Yaml) (os : Os) (fs : Files) : Except String config.Checklist :=
  match config.getChecklistPath os with
  | .error err => .error err
  | .ok path =>
    match ReadFile os fs path with
    | .notExist =>
      .ok { Items := [
        { ID := "tests", Description := "All tests pass" },
        { ID := "review", Description := "Code has been self-reviewed" },
        { ID := "docs", Description := "Documentation updated if needed" },
        { ID := "no-debug", Description := "No debug code left behind" }] }
    | .failed err => .error err
    | .content data =>
      match y.Unmarshal data with
      | .error err => .error err
      | .ok checklist => .ok checklist

/-- Go function `SaveChecklist` saves the checklist to the yaml file: the new file
system and the error, if any. -/
def config.SaveChecklist (y : Yaml) (os : Os) (fs : Files) (checklist : config.Checklist) :
    Files × Option String :=
  match config.getChecklistPath os with
  | .error err => (fs, some err)
  | .ok path =>
    let dir := filepathDir path
    match os.mkdirError dir with
    | some err => (fs, some err)
    | none =>
      match y.Marshal checklist with
      | .error err => (fs, some err)
      | .ok data =>
        match os.writeError path with
        | some err => (fs, some err)
        | none => (fun p => if p = path then some data else fs p, none)

/-- Go function `CreateDefaultChecklist` creates a default checklist file. -/
def config.CreateDefaultChecklist (y : Yaml) (os : Os) (fs : Files) : Files × Option String :=
  let checklist : config.Checklist :=
    { Items := [
      { ID := "tests", Description := "All tests pass" },
      { ID := "review", Description := "Code has been self-reviewed" },
      { ID := "docs", Description := "Documentation updated if needed" },
      { ID := "no-debug", Description := "No debug code left behind" },
      { ID := "lint", Description := "No lint errors" }] }
  config.SaveChecklist y os fs checklist

/-! ## The review model (`internal/ui/review.go`)

The Bubble Tea messages are the three kinds `Update` distinguishes and a fourth for
every other message. The viewport of the `bubbles` library, the styles of
`lipgloss` and the conversion `int(float64(width) * SidePanelWidthRatio)` are
parameters; `View` and the rendering functions are not embedded. -/

/-- A code improvement suggestion (`llm.Recommendation`). -/
structure Recommendation where
  Title : String
  Description : String
  Severity : String
deriving DecidableEq, Repr

/-- An item in the review checklist. -/
structure ui.ChecklistItem where
  Description : String
deriving DecidableEq, Repr

/-- A `tea.Msg`: the result of loading recommendations with its error, if any, a
`tea.WindowSizeMsg`, a `tea.KeyMsg` given by its `String()`, or another message. -/
inductive Msg where
  | recommendationsMsg (recommendations : List Recommendation) (err : Option String)
  | WindowSizeMsg (Width Height : Int)
  | KeyMsg (key : String)
  | other (id : Nat)
deriving DecidableEq, Repr

/-- A `tea.Cmd`: `nil`, `tea.Quit`, or a command returned by the viewport. -/
inductive Cmd where
  | nil
  | Quit
  | viewport (id : Nat)
deriving DecidableEq, Repr

/-- The parts of the libraries the review model uses, for a type `V` of viewports:
the zero value, `viewport.New`, `SetContent`, the assignments of `Width` and
`Height`, `Update`, and the side panel width computed in floating point. -/
structure UiLib (V : Type) where
  zero : V
  New : Int → Int → V
  SetContent : V → String → V
  setWidth : V → Int → V
  setHeight : V → Int → V
  Update : V → Msg → V × Cmd
  scaleWidth : Int → Int

/-- The `Render` functions of the styles that `highlightDiff` uses. -/
structure DiffStyles where
  StyleDiffHeader : String → String
  StyleDiffHunk : String → String
  StyleDiffAdded : String → String
  StyleDiffRemoved : String → String
  StyleDiffMeta : String → String
  StyleDiffContext : String → String

/-- The constant `HeaderHeight`. -/
def HeaderHeight : Int := 4

/-- The constant `FooterHeight`. -/
def FooterHeight : Int := 3

/-- The constant `MinSidePanelWidth`. -/
def MinSidePanelWidth : Int := 30

/-- The constant `MaxSidePanelWidth`. -/
def MaxSidePanelWidth : Int := 50

/-- The Bubble Tea model for the review UI; `checked` is the `map[int]bool`, a
function that is `false` on absent keys. -/
structure ReviewModel (V : Type) where
  diff : String
  rawDiff : String
  diffStat : String
  checklistItems : List ui.ChecklistItem
  checked : Int → Bool
  cursor : Int
  recsCursor : Int
  viewport : V
  focusedPanel : String
  ready : Bool
  width : Int
  height : Int
  allChecked : Bool
  issue : String
  sidebarWidth : Int
  recommendations : List Recommendation
  loadingRecs : Bool
  recsError : String
  showModal : Bool
  modalContent : String
  modalTitle : String

/-- Go function `highlightDiff` applies syntax highlighting to git diff output. -/
def highlightDiff (st : DiffStyles) (diff : String) : String :=
  let lines := Split diff '\n'
  lines.foldl (fun result line =>
    let rendered :=
      if HasPrefix line "+++" || HasPrefix line "---" then st.StyleDiffHeader line
      else if HasPrefix line "@@" then st.StyleDiffHunk line
      else if HasPrefix line "+" then st.StyleDiffAdded line
      else if HasPrefix line "-" then st.StyleDiffRemoved line
      else if HasPrefix line "diff --git" then st.StyleDiffMeta line
      else if HasPrefix line "index " || HasPrefix line "new file" ||
          HasPrefix line "deleted file" then st.StyleDiffMeta line
      else st.StyleDiffContext line
    result ++ rendered ++ "\n") ""

/-- Go function `NewReviewModel` creates a new review model; the fields it does not
name have their zero values. -/
def NewReviewModel {V : Type} (lib : UiLib V) (st : DiffStyles) (diff diffStat issue : String)
    (items : List ui.ChecklistItem) : ReviewModel V :=
  { diff := highlightDiff st diff
    rawDiff := diff
    diffStat := diffStat
    checklistItems := items
    checked := fun _ => false
    cursor := 0
    recsCursor := 0
    viewport := lib.zero
    focusedPanel := "checklist"
    ready := false
    width := 0
    height := 0
    allChecked := false
    issue := issue
    sidebarWidth := 0
    recommendations := []
    loadingRecs := true
    recsError := ""
    showModal := false
    modalContent := ""
    modalTitle := "" }

/-- Go function `areAllChecked`: the loop over the indices of `checklistItems` that
returns `false` at the first unchecked one. -/
def ReviewModel.areAllChecked {V : Type} (m : ReviewModel V) : Bool :=
  (List.range m.checklistItems.length).all (fun i => m.checked (i : Int))

/-- The statement `m.checked[m.cursor] = !m.checked[m.cursor]` followed by
`m.allChecked = m.areAllChecked()`, which `Update` runs for the keys enter and
space in the checklist panel. -/
def ReviewModel.toggle {V : Type} (m : ReviewModel V) : ReviewModel V :=
  let m := { m with checked := fun k => if k = m.cursor then !m.checked m.cursor else m.checked k }
  { m with allChecked := m.areAllChecked }

/-- Go function `Update` implements `tea.Model`. The sizes and cursor positions are
integers without a bound, where the Go `int` wraps around. -/
def ReviewModel.Update {V : Type} (lib : UiLib V) (m : ReviewModel V) (msg : Msg) :
    ReviewModel V × Cmd :=
  match msg with
  | .recommendationsMsg recommendations err =>
    let m := { m with loadingRecs := false }
    match err with
    | some e => ({ m with recsError := e }, .nil)
    | none => ({ m with recommendations := recommendations }, .nil)
  | .WindowSizeMsg Width Height =>
    let m := { m with width := Width, height := Height }
    let m := { m with sidebarWidth := lib.scaleWidth Width }
    let m := if m.sidebarWidth < MinSidePanelWidth then
      { m with sidebarWidth := MinSidePanelWidth } else m
    let m := if m.sidebarWidth > MaxSidePanelWidth then
      { m with sidebarWidth := MaxSidePanelWidth } else m
    let diffWidth := Width - m.sidebarWidth - 5
    let verticalMargin := HeaderHeight + FooterHeight
    if !m.ready then
      let vp := lib.New diffWidth (Height - verticalMargin - 2)
      let vp := lib.SetContent vp m.diff
      ({ m with viewport := vp, ready := true }, .nil)
    else
      let vp := lib.setWidth m.viewport diffWidth
      let vp := lib.setHeight vp (Height - verticalMargin - 2)
      let vp := lib.SetContent vp m.diff
      ({ m with viewport := vp }, .nil)
  | .KeyMsg key =>
    if m.showModal then
      if key = "enter" ∨ key = "esc" ∨ key = "q" then ({ m with showModal := false }, .nil)
      else (m, .nil)
    else if key = "ctrl+c" then (m, .Quit)
    else if key = "q" then
      if m.focusedPanel ≠ "recommendations" then (m, .Quit) else (m, .nil)
    else if key = "tab" then
      if m.focusedPanel = "checklist" then ({ m with focusedPanel := "diff" }, .nil)
      else if m.focusedPanel = "diff" then ({ m with focusedPanel := "recommendations" }, .nil)
      else if m.focusedPanel = "recommendations" then
        ({ m with focusedPanel := "checklist" }, .nil)
      else (m, .nil)
    else if key = "up" ∨ key = "k" then
      if m.focusedPanel = "checklist" then
        if m.cursor > 0 then ({ m with cursor := m.cursor - 1 }, .nil) else (m, .nil)
      else if m.focusedPanel = "recommendations" then
        if m.recsCursor > 0 then ({ m with recsCursor := m.recsCursor - 1 }, .nil) else (m, .nil)
      else if m.focusedPanel = "diff" then
        let (vp, cmd) := lib.Update m.viewport msg
        ({ m with viewport := vp }, cmd)
      else (m, .nil)
    else if key = "down" ∨ key = "j" then
      if m.focusedPanel = "checklist" then
        if m.cursor < (m.checklistItems.length : Int) - 1 then
          ({ m with cursor := m.cursor + 1 }, .nil)
        else (m, .nil)
      else if m.focusedPanel = "recommendations" then
        if m.recsCursor < (m.recommendations.length : Int) - 1 then
          ({ m with recsCursor := m.recsCursor + 1 }, .nil)
        else (m, .nil)
      else if m.focusedPanel = "diff" then
        let (vp, cmd) := lib.Update m.viewport msg
        ({ m with viewport := vp }, cmd)
      else (m, .nil)
    else if key = "enter" then
      if m.focusedPanel = "checklist" then (m.toggle, .nil)
      else if m.focusedPanel = "recommendations" then
        if m.recommendations.length > 0 ∧ m.recsCursor < (m.recommendations.length : Int) then
          match m.recommendations.get? m.recsCursor.toNat with
          | some rec =>
            ({ m with modalTitle := rec.Title,
                      modalContent := "Severity: " ++ rec.Severity ++ "\n\n" ++ rec.Description,
                      showModal := true }, .nil)
          | none => (m, .nil)
        else (m, .nil)
      else (m, .nil)
    else if key = " " then
      if m.focusedPanel = "checklist" then (m.toggle, .nil) else (m, .nil)
    else if key = "pgup" ∨ key = "pgdown" ∨ key = "home" ∨ key = "end" then
      if m.focusedPanel = "diff" then
        let (vp, cmd) := lib.Update m.viewport msg
        ({ m with viewport := vp }, cmd)
      else (m, .nil)
    else (m, .nil)
  | .other _ => (m, .nil)

/-- Go function `IsReviewComplete` returns true if all items are checked. -/
def ReviewModel.IsReviewComplete {V : Type} (m : ReviewModel V) : Bool :=
  m.allChecked

/-- The model after the messages `msgs` have been passed to `Update` one after the
other, starting from `m`. -/
def ReviewModel.run {V : Type} (lib : UiLib V) (m : ReviewModel V) (msgs : List Msg) :
    ReviewModel V :=
  msgs.foldl (fun m msg => (ReviewModel.Update lib m msg).1) m

/-- The result `r` of a call of `Update` on `m` either is `m` with the item at the
cursor toggled, or has the checklist, the checked items and `allChecked` of `m`. -/
def ReviewModel.StepOf {V : Type} (m : ReviewModel V) (r : ReviewModel V × Cmd) : Prop :=
  r.1 = m.toggle ∨
  (r.1.checked = m.checked ∧ r.1.allChecked = m.allChecked ∧
    r.1.checklistItems = m.checklistItems)

/-- The flag `allChecked` agrees with the checklist: it is set only when every item
is checked, and for a checklist with at least one item it is set exactly then. -/
def ReviewModel.FlagAgrees {V : Type} (m : ReviewModel V) : Prop :=
  (m.allChecked = true → m.areAllChecked = true) ∧
  (m.checklistItems ≠ [] → m.allChecked = m.areAllChecked)

/-- The standard output of a command that prints the strings of `L` one per line,
each followed by a line feed. -/
def printedLines (L : List String) : String :=
  L.foldr (fun h acc => h ++ "\n" ++ acc) ""

/-- The characters of the strings of `L` with a line feed between consecutive
ones. -/
def joinLines : List String → List Char
  | [] => []
  | [h] => h.data
  | h :: t => h.data ++ '\n' :: joinLines t

/-- A commit hash as a string: not empty and without white space. -/
def IsHash (h : String) : Prop :=
  h ≠ "" ∧ ∀ c ∈ h.data, isSpace c = false

/-! ## Concrete environments

Worlds that answer from a fixed table, and the documents and states used to
evaluate the update command on concrete runs. -/

/-- The world that answers a call with its entry in `table`, whatever was called
before, and with success and empty output when the call has no entry. -/
def scriptedWorld (table : List (Event × Except String String)) : World :=
  { outcome := fun _ ev =>
      match table.lookup ev with
      | some r => r
      | none => .ok "" }

/-- A document in which issue `7` has fork point `f0` and nothing merged. -/
def demoDoc : TrackingData :=
  { Issues := [("7", { ForkPoint := "f0", LastMergedCommit := "", MergedCommits := [] })] }

/-- A document in which issue `7` has the commits `c3`, `c2`, `c1` merged. -/
def mergedDoc : TrackingData :=
  { Issues := [("7", { ForkPoint := "f0", LastMergedCommit := "c3",
                       MergedCommits := ["c3", "c2", "c1"] })] }

/-- A document that differs from `mergedDoc` in the fork point and the last merged
commit of issue `7` only. -/
def otherFieldsDoc : TrackingData :=
  { Issues := [("7", { ForkPoint := "other", LastMergedCommit := "c1",
                       MergedCommits := ["c3", "c2", "c1"] })] }

/-- The start of a run: nothing called yet, the tracking file holds `demoDoc`. -/
def demoStart : Sys := { log := [], store := Store.doc demoDoc }

/-- The answers to the queries of a run on branch `wip/7` with commits `c3`, `c2`,
`c1` since the fork point. -/
def demoQueries : List (Event × Except String String) :=
  [(Event.output ["rev-parse", "--abbrev-ref", "HEAD"], .ok "wip/7\n"),
   (Event.output ["log", "--format=%H", "f0..wip/7"], .ok "c3\nc2\nc1\n")]

/-- The branch `pr/7` does not exist: `rev-parse --verify pr/7` fails. -/
def noPrBranch : List (Event × Except String String) :=
  [(Event.output ["rev-parse", "--verify", "pr/7"], .error "exit status 128")]

/-- The branch `pr/7` exists at commit `p0`. -/
def prBranchAtP0 : List (Event × Except String String) :=
  [(Event.output ["rev-parse", "--verify", "pr/7"], .ok "p0\n"),
   (Event.output ["rev-parse", "pr/7"], .ok "p0\n")]

/-- The branch `pr/7` exists at commit `p0`, which `rev-parse --verify pr/7` prints,
but the subprocess `git rev-parse pr/7` started right after it fails. -/
def prBranchHashUnknown : List (Event × Except String String) :=
  [(Event.output ["rev-parse", "--verify", "pr/7"], .ok "p0\n"),
   (Event.output ["rev-parse", "pr/7"], .error "exit status 128")]

/-- A first update of issue `7`: the branch `pr/7` does not exist and every command
succeeds. -/
def firstUpdateWorld : World :=
  scriptedWorld (demoQueries ++ noPrBranch)

/-- The branch `pr/7` exists at `p0`, the subprocess that asks for its commit
identifier fails, and checking the branch out fails. -/
def checkoutFailsWorld : World :=
  scriptedWorld (demoQueries ++ prBranchHashUnknown ++
    [(Event.run ["checkout", "pr/7"], .error "exit status 1")])

/-- The branch `pr/7` exists at `p0`; everything succeeds up to the push, which
fails. -/
def pushFailsWorld : World :=
  scriptedWorld (demoQueries ++ prBranchAtP0 ++
    [(Event.run ["push", "-u", "origin", "pr/7"], .error "exit status 1")])

/-- The branch `pr/7` exists at `p0`; the squash commit fails. -/
def commitFailsWorld : World :=
  scriptedWorld (demoQueries ++ prBranchAtP0 ++
    [(Event.run ["commit", "-m", "msg"], .error "exit status 1")])

/-- The branch `pr/7` exists at `p0`, the subprocess that asks for its commit
identifier fails, and the squash commit fails. -/
def commitFailsHashUnknownWorld : World :=
  scriptedWorld (demoQueries ++ prBranchHashUnknown ++
    [(Event.run ["commit", "-m", "msg"], .error "exit status 1")])

/-- The branch `pr/7` exists at `p0`; the squash-merge fails and so does every
command of the rollback. -/
def rollbackFailsWorld : World :=
  { outcome := fun hist ev =>
      if Event.run ["merge", "--squash", "-X", "theirs", "wip/7"] ∈ hist then
        .error "exit status 1"
      else
        (scriptedWorld (demoQueries ++ prBranchAtP0 ++
          [(Event.run ["merge", "--squash", "-X", "theirs", "wip/7"],
            .error "exit status 2")])).outcome hist ev }

/-- The branch `pr/7` does not exist; every step succeeds and the last checkout of
`wip/7` fails. -/
def lastCheckoutFailsWorld : World :=
  scriptedWorld (demoQueries ++ noPrBranch ++
    [(Event.run ["checkout", "wip/7"], .error "exit status 1")])

/-- A later run on `wip/7` with the new commit `c4`; the branch `pr/7` exists. -/
def secondUpdateWorld : World :=
  scriptedWorld
    ([(Event.output ["rev-parse", "--abbrev-ref", "HEAD"], .ok "wip/7\n"),
      (Event.output ["log", "--format=%H", "f0..wip/7"], .ok "c4\nc3\nc2\nc1\n")] ++
     prBranchAtP0)

/-- The log after the queries of a run in which `pr/7` does not exist. -/
def queriesNoPr : List Event :=
  [Event.output ["rev-parse", "--abbrev-ref", "HEAD"], Event.load,
   Event.output ["log", "--format=%H", "f0..wip/7"],
   Event.output ["rev-parse", "--verify", "pr/7"]]

/-- The log after the queries of a run in which `pr/7` exists. -/
def queriesWithPr : List Event :=
  queriesNoPr ++ [Event.output ["rev-parse", "pr/7"]]

/-- The local variables of a run on `wip/7` with commits `c3`, `c2`, `c1`, nothing
merged, and the given state of `pr/7`. -/
def demoLocals (existed : Bool) (original : String) : Locals :=
  { issue := "7", wipBranch := "wip/7", prBranch := "pr/7", trackingData := demoDoc,
    forkPoint := "f0", allCommits := ["c3", "c2", "c1"],
    unmergedCommits := ["c3", "c2", "c1"], prBranchExisted := existed,
    prBranchOriginalCommit := original }

/-- The current branch is `main`. -/
def notWipWorld : World :=
  scriptedWorld [(Event.output ["rev-parse", "--abbrev-ref", "HEAD"], .ok "main\n")]

/-- The current branch is `wip/9`, an issue without an entry in `demoDoc`. -/
def noForkPointWorld : World :=
  scriptedWorld [(Event.output ["rev-parse", "--abbrev-ref", "HEAD"], .ok "wip/9\n")]

/-- A first update of issue `7` in which `git commit -m ""` fails, as git does for
an empty message. -/
def emptyMessageWorld : World :=
  scriptedWorld (demoQueries ++ noPrBranch ++
    [(Event.run ["commit", "-m", ""], .error "exit status 1")])

/-- An operating system with the working directory `/repo` in which nothing fails. -/
def demoOs : Os :=
  { Getwd := .ok "/repo", readError := fun _ => none, mkdirError := fun _ => none,
    writeError := fun _ => none }

/-- The text that `MarshalIndent` writes for `demoDoc`. -/
def demoDocText : String :=
  "\x7b\n  \"issues\": \x7b\n    \"7\": \x7b\n      \"fork_point\": \"f0\",\n" ++
  "      \"last_merged_commit\": \"\",\n      \"merged_commits\": []\n    \x7d\n  \x7d\n\x7d"

/-- The text that `MarshalIndent` writes for `mergedDoc`. -/
def mergedDocText : String :=
  "\x7b\n  \"issues\": \x7b\n    \"7\": \x7b\n      \"fork_point\": \"f0\",\n" ++
  "      \"last_merged_commit\": \"c3\",\n      \"merged_commits\": [\n" ++
  "        \"c3\",\n        \"c2\",\n        \"c1\"\n      ]\n    \x7d\n  \x7d\n\x7d"

/-- A file system whose tracking file holds the encoding of `mergedDoc`. -/
def demoFiles : Files :=
  fun p => if p = "/repo/.mob/tracking.json" then some mergedDocText else none

/-- A file system whose tracking file holds `null` for `issues`. -/
def nullIssuesFiles : Files :=
  fun p => if p = "/repo/.mob/tracking.json" then some "\x7b\"issues\": null\x7d" else none

/-- An operating system with the working directory `/repo` in which reading the
tracking file fails because `/repo/.mob` is not a directory. -/
def notDirOs : Os :=
  { Getwd := .ok "/repo",
    readError := fun p =>
      if p = "/repo/.mob/tracking.json" then
        some "open /repo/.mob/tracking.json: not a directory"
      else none,
    mkdirError := fun _ => none, writeError := fun _ => none }

/-- A file system in which `/repo/.mob` is a regular file: there is no tracking
file. -/
def notDirFiles : Files :=
  fun p => if p = "/repo/.mob" then some "" else none

/-- A file system whose tracking file holds text that does not decode. -/
def brokenFiles : Files :=
  fun p => if p = "/repo/.mob/tracking.json" then some "not json" else none

/-- An issue selector that is never consulted with success: fetching fails. -/
def noIssues : IssueSelector :=
  { GetAssignedIssues := .error "gh: not found", ShowForm := fun _ _ => .error "no form" }

/-- The repository at commit `f0` in which every command succeeds. -/
def initWorld : World :=
  scriptedWorld [(Event.output ["rev-parse", "HEAD"], .ok "f0\n")]

/-- The document `initCmd.Run` saves for the work argument `task` followed by a
no-break space on top of `demoDoc`. -/
def spaceDoc : TrackingData :=
  { Issues := [("7", { ForkPoint := "f0", LastMergedCommit := "", MergedCommits := [] }),
               ("task\u00a0", { ForkPoint := "f0", LastMergedCommit := "",
                                MergedCommits := [] })] }

/-- The current branch is `wip/task` followed by a no-break space: `git` prints the
name and a line feed. -/
def spaceWorld : World :=
  scriptedWorld
    [(Event.output ["rev-parse", "--abbrev-ref", "HEAD"], .ok "wip/task\u00a0\n")]

/-- A document in which the issue `task` has the fork point `e0`. -/
def taskDoc : TrackingData :=
  { Issues := [("task", { ForkPoint := "e0", LastMergedCommit := "", MergedCommits := [] })] }

/-- The document `initCmd.Run` saves for the work argument `task` followed by a
no-break space on top of `taskDoc`. -/
def taskSpaceDoc : TrackingData :=
  { Issues := [("task", { ForkPoint := "e0", LastMergedCommit := "", MergedCommits := [] }),
               ("task\u00a0", { ForkPoint := "f0", LastMergedCommit := "",
                                MergedCommits := [] })] }

/-- The current branch is `wip/task` followed by a no-break space; the branch
`wip/task` has the commit `c1` since `e0`, the branch `pr/task` does not exist and
every command succeeds. -/
def taskSpaceWorld : World :=
  scriptedWorld
    [(Event.output ["rev-parse", "--abbrev-ref", "HEAD"], .ok "wip/task\u00a0\n"),
     (Event.output ["log", "--format=%H", "e0..wip/task"], .ok "c1\n"),
     (Event.output ["rev-parse", "--verify", "pr/task"], .error "exit status 128")]

/-- The checklist `LoadChecklist` returns when there is no checklist file. -/
def fallbackChecklist : config.Checklist :=
  { Items := [{ ID := "tests", Description := "All tests pass" },
              { ID := "review", Description := "Code has been self-reviewed" },
              { ID := "docs", Description := "Documentation updated if needed" },
              { ID := "no-debug", Description := "No debug code left behind" }] }

/-- The checklist `CreateDefaultChecklist` passes to `SaveChecklist`. -/
def createdChecklist : config.Checklist :=
  { Items := [{ ID := "tests", Description := "All tests pass" },
              { ID := "review", Description := "Code has been self-reviewed" },
              { ID := "docs", Description := "Documentation updated if needed" },
              { ID := "no-debug", Description := "No debug code left behind" },
              { ID := "lint", Description := "No lint errors" }] }

/-! ## Lemmas on the tracking store -/

theorem mergedSet_foldl (M : List String) (m0 : String → Bool) (k : String) :
    (M.foldl (fun m c => fun k => if k = c then true else m k) m0) k
      = (decide (k ∈ M) || m0 k) := by
  induction M generalizing m0 with
  | nil => simp
  | cons a M ih =>
    simp only [List.foldl_cons, ih, List.mem_cons]
    by_cases h : k = a <;> by_cases h2 : k ∈ M <;> simp [h, h2]

theorem unmerged_foldl (p : String → Bool) (A acc : List String) :
    A.foldl (fun unmerged c => if !p c then unmerged ++ [c] else unmerged) acc
      = acc ++ A.filter (fun c => !p c) := by
  induction A generalizing acc with
  | nil => simp
  | cons a A ih =>
    simp only [List.foldl_cons, ih, List.filter_cons]
    cases p a <;> simp

theorem GetUnmergedCommits_eq_filter (t : TrackingData) (issue : String) (A : List String) :
    t.GetUnmergedCommits issue A
      = A.filter (fun c => decide (c ∉ (t.GetIssueTracking issue).MergedCommits)) := by
  unfold TrackingData.GetUnmergedCommits
  simp only [unmerged_foldl, List.nil_append]
  apply List.filter_congr
  intro c _
  rw [mergedSet_foldl]
  simp

theorem lookup_mapSet_self {V : Type} (k : String) (v : V) (l : List (String × V)) :
    (mapSet k v l).lookup k = some v := by
  induction l with
  | nil => simp [mapSet, List.lookup]
  | cons p rest ih =>
    obtain ⟨k', v'⟩ := p
    unfold mapSet
    by_cases h : k' = k
    · simp [h, List.lookup]
    · have h' : (k == k') = false := by simpa using fun e => h e.symm
      simp [h, List.lookup, h', ih]

theorem lookup_mapSet_other {V : Type} (k j : String) (v : V) (l : List (String × V))
    (hj : j ≠ k) : (mapSet k v l).lookup j = l.lookup j := by
  induction l with
  | nil =>
    have h' : (j == k) = false := by simpa using hj
    simp [mapSet, List.lookup, h']
  | cons p rest ih =>
    obtain ⟨k', v'⟩ := p
    unfold mapSet
    by_cases h : k' = k
    · subst h
      have h' : (j == k') = false := by simpa using hj
      simp [List.lookup, h']
    · simp only [h, if_false, List.lookup]
      cases hjk : (j == k') <;> simp [ih]

/-! ## Lemmas on the update command -/

theorem rollback_eq (w : World) (v : Locals) (s : Sys) (errMsg : String) :
    updateCmd.rollback w v s errMsg
      = ({ log := s.log ++ updateCmd.rollbackEvents v, store := s.store },
         some (errMsg ++ rolledBackQualifier)) := by
  unfold updateCmd.rollback updateCmd.rollbackEvents rolledBackQualifier
  cases h : (v.prBranchExisted && v.prBranchOriginalCommit != "") <;>
    simp [h, AbortMerge, Checkout, ResetHard, Run]

theorem mergeAndPush_fail (w : World) (message : String) (v : Locals) (s : Sys)
    (hist : List Event) (label : String) (ev : Event) (e : String)
    (h : firstFailure w s.log ((updateCmd.steps message v).drop
          (if v.prBranchExisted then 1 else 2)) = some (hist, label, ev, e)) :
    updateCmd.mergeAndPush w message v s
      = ({ log := hist ++ [ev] ++ updateCmd.rollbackEvents v,
           store := if ev = updateCmd.pushEvent v then Store.doc (updateCmd.newTracking v)
                    else s.store },
         some (label ++ e ++ rolledBackQualifier)) := by
  have hd : (updateCmd.steps message v).drop (if v.prBranchExisted then 1 else 2)
      = [("error merging wip branch: ",
            Event.run ["merge", "--squash", "-X", "theirs", v.wipBranch]),
         ("error creating squash commit: ", Event.run ["commit", "-m", message]),
         ("error saving tracking data: ", Event.save (updateCmd.newTracking v)),
         ("error pushing to remote: ", updateCmd.pushEvent v)] := by
    unfold updateCmd.steps
    cases v.prBranchExisted <;> simp
  rw [hd] at h
  unfold updateCmd.mergeAndPush
  simp only [firstFailure] at h
  cases h1 : w.outcome s.log (Event.run ["merge", "--squash", "-X", "theirs", v.wipBranch]) with
  | error e1 =>
    simp only [h1, Option.some.injEq, Prod.mk.injEq] at h
    obtain ⟨rfl, rfl, rfl, rfl⟩ := h
    simp [MergeSquash, Run, h1, rollback_eq, updateCmd.pushEvent]
  | ok o1 =>
    simp only [h1] at h
    cases h2 : w.outcome (s.log ++ [Event.run ["merge", "--squash", "-X", "theirs", v.wipBranch]])
        (Event.run ["commit", "-m", message]) with
    | error e2 =>
      simp only [h2, Option.some.injEq, Prod.mk.injEq] at h
      obtain ⟨rfl, rfl, rfl, rfl⟩ := h
      simp [MergeSquash, CommitSquash, Run, h1, h2, rollback_eq, updateCmd.pushEvent]
    | ok o2 =>
      simp only [h2] at h
      cases h3 : w.outcome
          (s.log ++ [Event.run ["merge", "--squash", "-X", "theirs", v.wipBranch]] ++
            [Event.run ["commit", "-m", message]])
          (Event.save (updateCmd.newTracking v)) with
      | error e3 =>
        simp only [h3, Option.some.injEq, Prod.mk.injEq] at h
        obtain ⟨rfl, rfl, rfl, rfl⟩ := h
        simp [MergeSquash, CommitSquash, TrackingData.Save, Run, h1, h2, h3, rollback_eq,
          updateCmd.pushEvent, updateCmd.newTracking] at h3 ⊢
        simp [h3]
      | ok o3 =>
        simp only [h3] at h
        cases h4 : w.outcome
            (s.log ++ [Event.run ["merge", "--squash", "-X", "theirs", v.wipBranch]] ++
              [Event.run ["commit", "-m", message]] ++ [Event.save (updateCmd.newTracking v)])
            (updateCmd.pushEvent v) with
        | error e4 =>
          simp only [h4, Option.some.injEq, Prod.mk.injEq] at h
          obtain ⟨rfl, rfl, rfl, rfl⟩ := h
          simp [MergeSquash, CommitSquash, TrackingData.Save, PushSetUpstream, Run, h1, h2,
            rollback_eq, updateCmd.pushEvent, updateCmd.newTracking] at h3 h4 ⊢
          simp [h3, h4]
        | ok o4 =>
          simp only [List.append_assoc, List.cons_append, List.nil_append] at h4
          simp [h4] at h

theorem steps_drop (message : String) (v : Locals) :
    (updateCmd.steps message v).drop (if v.prBranchExisted then 1 else 2)
      = [("error merging wip branch: ",
            Event.run ["merge", "--squash", "-X", "theirs", v.wipBranch]),
         ("error creating squash commit: ", Event.run ["commit", "-m", message]),
         ("error saving tracking data: ", Event.save (updateCmd.newTracking v)),
         ("error pushing to remote: ", updateCmd.pushEvent v)] := by
  unfold updateCmd.steps
  cases v.prBranchExisted <;> simp

theorem mergeAndPush_ok (w : World) (message : String) (v : Locals) (s : Sys)
    (h : firstFailure w s.log ((updateCmd.steps message v).drop
          (if v.prBranchExisted then 1 else 2)) = none) :
    updateCmd.mergeAndPush w message v s
      = ({ log := s.log ++ [Event.run ["merge", "--squash", "-X", "theirs", v.wipBranch],
                    Event.run ["commit", "-m", message], Event.save (updateCmd.newTracking v),
                    updateCmd.pushEvent v, Event.run ["checkout", v.wipBranch]],
           store := Store.doc (updateCmd.newTracking v) },
         match w.outcome
            (s.log ++ [Event.run ["merge", "--squash", "-X", "theirs", v.wipBranch],
                    Event.run ["commit", "-m", message], Event.save (updateCmd.newTracking v),
                    updateCmd.pushEvent v]) (Event.run ["checkout", v.wipBranch]) with
         | .error err =>
           some ("error switching back to wip branch: " ++ err ++ " (but merge was successful)")
         | .ok _ => none) := by
  rw [steps_drop] at h
  unfold updateCmd.mergeAndPush
  simp only [firstFailure] at h
  cases h1 : w.outcome s.log (Event.run ["merge", "--squash", "-X", "theirs", v.wipBranch]) with
  | error e1 =>
    simp only [List.append_assoc, List.cons_append, List.nil_append] at h1 h
    simp [h1] at h
  | ok o1 =>
    simp only [h1] at h
    cases h2 : w.outcome (s.log ++ [Event.run ["merge", "--squash", "-X", "theirs", v.wipBranch]])
        (Event.run ["commit", "-m", message]) with
    | error e2 =>
      simp only [List.append_assoc, List.cons_append, List.nil_append] at h2 h
      simp [h2] at h
    | ok o2 =>
      simp only [h2] at h
      cases h3 : w.outcome
          (s.log ++ [Event.run ["merge", "--squash", "-X", "theirs", v.wipBranch]] ++
            [Event.run ["commit", "-m", message]])
          (Event.save (updateCmd.newTracking v)) with
      | error e3 =>
        simp only [List.append_assoc, List.cons_append, List.nil_append] at h3 h
        simp [h3] at h
      | ok o3 =>
        simp only [h3] at h
        cases h4 : w.outcome
            (s.log ++ [Event.run ["merge", "--squash", "-X", "theirs", v.wipBranch]] ++
              [Event.run ["commit", "-m", message]] ++ [Event.save (updateCmd.newTracking v)])
            (updateCmd.pushEvent v) with
        | error e4 =>
          simp only [List.append_assoc, List.cons_append, List.nil_append] at h4
          simp [h4] at h
        | ok o4 =>
          cases h5 : w.outcome
            (s.log ++ [Event.run ["merge", "--squash", "-X", "theirs", v.wipBranch],
                    Event.run ["commit", "-m", message], Event.save (updateCmd.newTracking v),
                    updateCmd.pushEvent v]) (Event.run ["checkout", v.wipBranch]) <;>
          simp [MergeSquash, CommitSquash, TrackingData.Save, PushSetUpstream, Checkout, Run, h1,
            h2, updateCmd.pushEvent, updateCmd.newTracking] at h3 h4 h5 ⊢ <;>
          simp [h3, h4, h5]

theorem mergePhase_fail (w : World) (message : String) (v : Locals) (s : Sys)
    (hist : List Event) (label : String) (ev : Event) (e : String)
    (h : firstFailure w s.log (updateCmd.steps message v) = some (hist, label, ev, e)) :
    updateCmd.mergePhase w message v s
      = ({ log := hist ++ [ev] ++ updateCmd.rollbackEvents v,
           store := if ev = updateCmd.pushEvent v then Store.doc (updateCmd.newTracking v)
                    else s.store },
         some (label ++ e ++ rolledBackQualifier)) := by
  have hd := steps_drop message v
  unfold updateCmd.mergePhase
  cases hE : v.prBranchExisted
  · simp only [hE, Bool.false_eq_true, if_false] at hd ⊢
    have hs : updateCmd.steps message v
        = ("error checking out fork point: ", Event.run ["checkout", v.forkPoint]) ::
          ("error creating pr branch: ", Event.run ["checkout", "-b", v.prBranch]) ::
          (updateCmd.steps message v).drop 2 := by
      unfold updateCmd.steps; simp [hE]
    rw [hs] at h
    simp only [firstFailure] at h
    cases h1 : w.outcome s.log (Event.run ["checkout", v.forkPoint]) with
    | error e1 =>
      simp only [h1, Option.some.injEq, Prod.mk.injEq] at h
      obtain ⟨rfl, rfl, rfl, rfl⟩ := h
      simp [Run, h1, rollback_eq, updateCmd.pushEvent]
    | ok o1 =>
      simp only [h1] at h
      cases h2 : w.outcome (s.log ++ [Event.run ["checkout", v.forkPoint]])
          (Event.run ["checkout", "-b", v.prBranch]) with
      | error e2 =>
        simp only [h2, Option.some.injEq, Prod.mk.injEq] at h
        obtain ⟨rfl, rfl, rfl, rfl⟩ := h
        simp [Run, CheckoutNewBranch, h1, h2, rollback_eq, updateCmd.pushEvent]
      | ok o2 =>
        simp only [h2] at h
        have := mergeAndPush_fail w message v
          { log := s.log ++ [Event.run ["checkout", v.forkPoint]] ++
              [Event.run ["checkout", "-b", v.prBranch]], store := s.store }
          hist label ev e (by simpa [hE] using h)
        simp only [List.append_assoc, List.cons_append, List.nil_append] at this
        simpa [Run, CheckoutNewBranch, h1, h2] using this
  · simp only [hE, if_true] at hd ⊢
    have hs : updateCmd.steps message v
        = ("error checking out pr branch: ", Event.run ["checkout", v.prBranch]) ::
          (updateCmd.steps message v).drop 1 := by
      unfold updateCmd.steps; simp [hE]
    rw [hs] at h
    simp only [firstFailure] at h
    cases h1 : w.outcome s.log (Event.run ["checkout", v.prBranch]) with
    | error e1 =>
      simp only [h1, Option.some.injEq, Prod.mk.injEq] at h
      obtain ⟨rfl, rfl, rfl, rfl⟩ := h
      simp [Run, Checkout, h1, rollback_eq, updateCmd.pushEvent]
    | ok o1 =>
      simp only [h1] at h
      have := mergeAndPush_fail w message v
        { log := s.log ++ [Event.run ["checkout", v.prBranch]], store := s.store }
        hist label ev e (by simpa [hE] using h)
      simp only [List.append_assoc, List.cons_append, List.nil_append] at this
      simpa [Run, Checkout, h1] using this

theorem mergePhase_ok (w : World) (message : String) (v : Locals) (s : Sys)
    (h : firstFailure w s.log (updateCmd.steps message v) = none) :
    updateCmd.mergePhase w message v s
      = ({ log := s.log ++ (updateCmd.steps message v).map Prod.snd ++
                    [Event.run ["checkout", v.wipBranch]],
           store := Store.doc (updateCmd.newTracking v) },
         match w.outcome (s.log ++ (updateCmd.steps message v).map Prod.snd)
            (Event.run ["checkout", v.wipBranch]) with
         | .error err =>
           some ("error switching back to wip branch: " ++ err ++ " (but merge was successful)")
         | .ok _ => none) := by
  have hd := steps_drop message v
  unfold updateCmd.mergePhase
  cases hE : v.prBranchExisted
  · simp only [hE, Bool.false_eq_true, if_false] at hd ⊢
    have hs : updateCmd.steps message v
        = ("error checking out fork point: ", Event.run ["checkout", v.forkPoint]) ::
          ("error creating pr branch: ", Event.run ["checkout", "-b", v.prBranch]) ::
          (updateCmd.steps message v).drop 2 := by
      unfold updateCmd.steps; simp [hE]
    rw [hs] at h
    simp only [firstFailure] at h
    cases h1 : w.outcome s.log (Event.run ["checkout", v.forkPoint]) with
    | error e1 => simp [h1] at h
    | ok o1 =>
      simp only [h1] at h
      cases h2 : w.outcome (s.log ++ [Event.run ["checkout", v.forkPoint]])
          (Event.run ["checkout", "-b", v.prBranch]) with
      | error e2 => simp [h2] at h
      | ok o2 =>
        simp only [h2] at h
        have := mergeAndPush_ok w message v
          { log := s.log ++ [Event.run ["checkout", v.forkPoint]] ++
              [Event.run ["checkout", "-b", v.prBranch]], store := s.store }
          (by simpa [hE] using h)
        rw [hs, hd]
        simp only [List.append_assoc, List.cons_append, List.nil_append, List.map_cons,
          List.map_nil] at this ⊢
        simpa [Run, CheckoutNewBranch, h1, h2] using this
  · simp only [hE, if_true] at hd ⊢
    have hs : updateCmd.steps message v
        = ("error checking out pr branch: ", Event.run ["checkout", v.prBranch]) ::
          (updateCmd.steps message v).drop 1 := by
      unfold updateCmd.steps; simp [hE]
    rw [hs] at h
    simp only [firstFailure] at h
    cases h1 : w.outcome s.log (Event.run ["checkout", v.prBranch]) with
    | error e1 => simp [h1] at h
    | ok o1 =>
      simp only [h1] at h
      have := mergeAndPush_ok w message v
        { log := s.log ++ [Event.run ["checkout", v.prBranch]], store := s.store }
        (by simpa [hE] using h)
      rw [hs, hd]
      simp only [List.append_assoc, List.cons_append, List.nil_append, List.map_cons,
        List.map_nil] at this ⊢
      simpa [Run, Checkout, h1] using this

theorem Output_fst (w : World) (s : Sys) (args : List String) :
    (Output w s args).1 = { log := s.log ++ [Event.output args], store := s.store } := rfl

theorem Load_eq (w : World) (s : Sys) :
    Load w s =
      match w.outcome s.log Event.load with
      | .error e => ({ s with log := s.log ++ [Event.load] }, .error e)
      | .ok _ =>
        match s.store with
        | .absent => ({ s with log := s.log ++ [Event.load] }, .ok { Issues := [] })
        | .corrupt e => ({ s with log := s.log ++ [Event.load] }, .error e)
        | .nilIssues => ({ s with log := s.log ++ [Event.load] }, .ok { Issues := [] })
        | .doc t => ({ s with log := s.log ++ [Event.load] }, .ok t) := by
  unfold Load LoadDocument
  cases w.outcome s.log Event.load with
  | error e => rfl
  | ok o => cases s.store <;> rfl

theorem Load_fst (w : World) (s : Sys) :
    (Load w s).1 = { log := s.log ++ [Event.load], store := s.store } := by
  rw [Load_eq]
  cases w.outcome s.log Event.load with
  | error e => rfl
  | ok o => cases s.store <;> rfl

theorem GetCommitsBetween_fst (w : World) (s : Sys) (base head : String) :
    (GetCommitsBetween w s base head).1
      = { log := s.log ++ [Event.output ["log", "--format=%H", base ++ ".." ++ head]],
          store := s.store } := by
  unfold GetCommitsBetween Output
  cases w.outcome s.log (Event.output ["log", "--format=%H", base ++ ".." ++ head]) with
  | error e => rfl
  | ok o =>
    simp only []
    split <;> rfl

theorem BranchExists_fst (w : World) (s : Sys) (branch : String) :
    (BranchExists w s branch).1
      = { log := s.log ++ [Event.output ["rev-parse", "--verify", branch]], store := s.store } := by
  unfold BranchExists Output
  cases w.outcome s.log (Event.output ["rev-parse", "--verify", branch]) <;> rfl

theorem ReadOnlyFrom.refl (s : Sys) : ReadOnlyFrom s s :=
  ⟨[], by simp, by simp⟩

theorem ReadOnlyFrom.step {s0 s : Sys} (h : ReadOnlyFrom s0 s) (q : Event)
    (hq : q.isMutating = false ∧ q.isSave = false) :
    ReadOnlyFrom s0 { log := s.log ++ [q], store := s.store } := by
  obtain ⟨qs, rfl, hqs⟩ := h
  refine ⟨qs ++ [q], by simp, ?_⟩
  intro x hx
  rcases List.mem_append.mp hx with hx | hx
  · exact hqs x hx
  · simp only [List.mem_singleton] at hx
    subst hx
    exact hq

theorem prepare_frame (w : World) (s0 : Sys) :
    ReadOnlyFrom s0 (updateCmd.prepare w s0).1 := by
  unfold updateCmd.prepare
  have f1 : ReadOnlyFrom s0 (CurrentBranch w s0).1 :=
    (ReadOnlyFrom.refl s0).step _ ⟨rfl, rfl⟩
  rcases h1 : CurrentBranch w s0 with ⟨s1, e1 | cur⟩
  · simpa [h1] using f1
  rw [h1] at f1
  simp only []
  split
  · exact f1
  have f2 : ReadOnlyFrom s0 (Load w s1).1 := by
    rw [Load_fst]; exact f1.step _ ⟨rfl, rfl⟩
  rcases h2 : Load w s1 with ⟨s2, e2 | t⟩
  · simpa [h2] using f2
  rw [h2] at f2
  simp only []
  split
  · exact f2
  have f3 : ReadOnlyFrom s0
      (GetCommitsBetween w s2 (t.GetForkPoint (TrimPrefix cur "wip/")) cur).1 := by
    rw [GetCommitsBetween_fst]; exact f2.step _ ⟨rfl, rfl⟩
  rcases h3 : GetCommitsBetween w s2 (t.GetForkPoint (TrimPrefix cur "wip/")) cur
    with ⟨s3, e3 | all⟩
  · simpa [h3] using f3
  rw [h3] at f3
  simp only []
  split
  · exact f3
  split
  · exact f3
  have f4 : ReadOnlyFrom s0 (BranchExists w s3 ("pr/" ++ TrimPrefix cur "wip/")).1 := by
    rw [BranchExists_fst]; exact f3.step _ ⟨rfl, rfl⟩
  rcases h4 : BranchExists w s3 ("pr/" ++ TrimPrefix cur "wip/") with ⟨s4, ex⟩
  rw [h4] at f4
  simp only []
  cases ex
  · simpa using f4
  · have f5 : ReadOnlyFrom s0 (GetCommitHash w s4 ("pr/" ++ TrimPrefix cur "wip/")).1 :=
      f4.step _ ⟨rfl, rfl⟩
    rcases h5 : GetCommitHash w s4 ("pr/" ++ TrimPrefix cur "wip/") with ⟨s5, e5 | hsh⟩ <;>
      simpa [h5] using f5

theorem eq_append_TrimPrefix (s p : String) (h : HasPrefix s p = true) :
    s = p ++ TrimPrefix s p := by
  unfold TrimPrefix
  rw [if_pos h]
  unfold HasPrefix at h
  obtain ⟨t, ht⟩ := List.isPrefixOf_iff_prefix.mp h
  apply String.ext
  simp [String.data_append, ← ht]

theorem Load_ok_store (w : World) (s s' : Sys) (t : TrackingData) (issue : String)
    (h : Load w s = (s', .ok t)) (hf : t.GetForkPoint issue ≠ "") : s.store = Store.doc t := by
  rw [Load_eq] at h
  cases ho : w.outcome s.log Event.load with
  | error e => simp [ho] at h
  | ok o =>
    simp only [ho] at h
    cases hs : s.store with
    | absent =>
      simp only [hs, Prod.mk.injEq, Except.ok.injEq] at h
      obtain ⟨-, rfl⟩ := h
      exact absurd rfl hf
    | corrupt e => simp [hs] at h
    | nilIssues =>
      simp only [hs, Prod.mk.injEq, Except.ok.injEq] at h
      obtain ⟨-, rfl⟩ := h
      exact absurd rfl hf
    | doc t' =>
      simp only [hs, Prod.mk.injEq, Except.ok.injEq] at h
      rw [h.2]

theorem prepare_inr (w : World) (s0 s : Sys) (v : Locals)
    (h : updateCmd.prepare w s0 = (s, .inr v)) :
    ∃ sa sb sc : Sys,
      CurrentBranch w s0 = (sa, .ok v.wipBranch) ∧
      HasPrefix v.wipBranch "wip/" = true ∧
      v.issue = TrimPrefix v.wipBranch "wip/" ∧
      v.prBranch = "pr/" ++ v.issue ∧
      Load w sa = (sb, .ok v.trackingData) ∧
      v.forkPoint = v.trackingData.GetForkPoint v.issue ∧
      v.forkPoint ≠ "" ∧
      GetCommitsBetween w sb v.forkPoint v.wipBranch = (sc, .ok v.allCommits) ∧
      v.allCommits ≠ [] ∧
      v.unmergedCommits = v.trackingData.GetUnmergedCommits v.issue v.allCommits ∧
      v.unmergedCommits ≠ [] ∧
      v.prBranchExisted = (BranchExists w sc v.prBranch).2 ∧
      (v.prBranchExisted = false → v.prBranchOriginalCommit = "") := by
  unfold updateCmd.prepare at h
  rcases h1 : CurrentBranch w s0 with ⟨s1, e1 | cur⟩
  · simp [h1] at h
  simp only [h1] at h
  split at h
  · simp at h
  rename_i hp
  rcases h2 : Load w s1 with ⟨s2, e2 | t⟩
  · simp [h2] at h
  simp only [h2] at h
  split at h
  · simp at h
  rename_i hf
  rcases h3 : GetCommitsBetween w s2 (t.GetForkPoint (TrimPrefix cur "wip/")) cur
    with ⟨s3, e3 | all⟩
  · simp [h3] at h
  simp only [h3] at h
  split at h
  · simp at h
  rename_i ha
  split at h
  · simp at h
  rename_i hu
  rcases h4 : BranchExists w s3 ("pr/" ++ TrimPrefix cur "wip/") with ⟨s4, ex⟩
  simp only [h4] at h
  have hp' : HasPrefix cur "wip/" = true := by simpa using hp
  have ha' : all ≠ [] := by simpa using ha
  have hu' : t.GetUnmergedCommits (TrimPrefix cur "wip/") all ≠ [] := by simpa using hu
  cases ex
  · simp only [Bool.false_eq_true, if_false, Prod.mk.injEq, Sum.inr.injEq] at h
    obtain ⟨-, rfl⟩ := h
    exact ⟨s1, s2, s3, rfl, hp', rfl, rfl, h2, rfl, hf, h3, ha', rfl, hu', by simp [h4],
      fun _ => rfl⟩
  · rcases h5 : GetCommitHash w s4 ("pr/" ++ TrimPrefix cur "wip/") with ⟨s5, e5 | hsh⟩ <;>
    · simp only [h5, if_true, Prod.mk.injEq, Sum.inr.injEq] at h
      obtain ⟨-, rfl⟩ := h
      exact ⟨s1, s2, s3, rfl, hp', rfl, rfl, h2, rfl, hf, h3, ha', rfl, hu', by simp [h4],
        fun hc => by simp at hc⟩

theorem prepare_inr_store (w : World) (s0 s : Sys) (v : Locals)
    (h : updateCmd.prepare w s0 = (s, .inr v)) :
    s0.store = Store.doc v.trackingData ∧ s.store = s0.store := by
  obtain ⟨sa, sb, sc, h1, -, -, -, h2, hf, hne, -⟩ := prepare_inr w s0 s v h
  have hs : sa.store = s0.store := by
    have := congrArg Prod.fst h1
    simp only [CurrentBranch, Output_fst] at this
    rw [← this]
  have hfr := prepare_frame w s0
  rw [h] at hfr
  obtain ⟨qs, rfl, -⟩ := hfr
  refine ⟨?_, rfl⟩
  rw [← hs]
  exact Load_ok_store w sa sb v.trackingData v.issue h2 (by rw [← hf]; exact hne)

theorem prepare_noop (w : World) (s0 sa sb sc : Sys) (cur : String) (t : TrackingData)
    (all : List String)
    (h1 : CurrentBranch w s0 = (sa, .ok cur)) (hp : HasPrefix cur "wip/" = true)
    (h2 : Load w sa = (sb, .ok t)) (hf : t.GetForkPoint (TrimPrefix cur "wip/") ≠ "")
    (h3 : GetCommitsBetween w sb (t.GetForkPoint (TrimPrefix cur "wip/")) cur = (sc, .ok all))
    (hempty : t.GetUnmergedCommits (TrimPrefix cur "wip/") all = []) :
    updateCmd.prepare w s0 = (sc, .inl none) := by
  unfold updateCmd.prepare
  simp only [h1, hp, h2, h3, hf, hempty, List.length_nil]
  simp

theorem prepare_delta (w : World) (s0 sa sb sc : Sys) (cur : String) (t : TrackingData)
    (all : List String)
    (h1 : CurrentBranch w s0 = (sa, .ok cur)) (hp : HasPrefix cur "wip/" = true)
    (h2 : Load w sa = (sb, .ok t)) (hf : t.GetForkPoint (TrimPrefix cur "wip/") ≠ "")
    (h3 : GetCommitsBetween w sb (t.GetForkPoint (TrimPrefix cur "wip/")) cur = (sc, .ok all))
    (hne : t.GetUnmergedCommits (TrimPrefix cur "wip/") all ≠ []) :
    ∃ (s : Sys) (v : Locals), updateCmd.prepare w s0 = (s, .inr v) ∧
      v.wipBranch = cur ∧ v.trackingData = t ∧ v.allCommits = all ∧
      v.unmergedCommits = t.GetUnmergedCommits (TrimPrefix cur "wip/") all := by
  have hall : all ≠ [] := by
    intro h
    subst h
    exact hne (by simp [TrackingData.GetUnmergedCommits])
  unfold updateCmd.prepare
  simp only [h1, hp, h2, h3, hf]
  simp only [Bool.not_true, Bool.false_eq_true, if_false, List.length_eq_zero, hall, hne]
  rcases h4 : BranchExists w sc ("pr/" ++ TrimPrefix cur "wip/") with ⟨s4, ex⟩
  cases ex
  · exact ⟨_, _, rfl, rfl, rfl, rfl, rfl⟩
  · rcases h5 : GetCommitHash w s4 ("pr/" ++ TrimPrefix cur "wip/") with ⟨s5, e5 | hsh⟩ <;>
    · simp only [if_true]
      exact ⟨_, _, rfl, rfl, rfl, rfl, rfl⟩

theorem GetIssueTracking_UpdateIssueTracking_self (t : TrackingData) (issue c : String)
    (cs : List String) :
    (t.UpdateIssueTracking issue c cs).GetIssueTracking issue
      = { ForkPoint := (t.GetIssueTracking issue).ForkPoint,
          LastMergedCommit := c,
          MergedCommits := (t.GetIssueTracking issue).MergedCommits ++ cs } := by
  simp [TrackingData.UpdateIssueTracking, TrackingData.GetIssueTracking, lookup_mapSet_self]

theorem lookup_UpdateIssueTracking_other (t : TrackingData) (issue c j : String)
    (cs : List String) (hj : j ≠ issue) :
    (t.UpdateIssueTracking issue c cs).Issues.lookup j = t.Issues.lookup j := by
  simp [TrackingData.UpdateIssueTracking, lookup_mapSet_other _ _ _ _ hj]

theorem RunE_of_prepare_inr (w : World) (message : String) (s0 s : Sys) (v : Locals)
    (h : updateCmd.prepare w s0 = (s, .inr v)) :
    updateCmd.RunE w message s0 = updateCmd.mergePhase w message v s := by
  unfold updateCmd.RunE
  rw [h]

theorem RunE_of_prepare_inl (w : World) (message : String) (s0 s : Sys) (r : Option String)
    (h : updateCmd.prepare w s0 = (s, .inl r)) :
    updateCmd.RunE w message s0 = (s, r) := by
  unfold updateCmd.RunE
  rw [h]

theorem Load_ok_doc (w : World) (s s' : Sys) (t d : TrackingData)
    (h : Load w s = (s', .ok t)) (hs : s.store = Store.doc d) : t = d := by
  rw [Load_eq] at h
  cases ho : w.outcome s.log Event.load with
  | error e => simp [ho] at h
  | ok o =>
    simp only [ho, hs, Prod.mk.injEq, Except.ok.injEq] at h
    exact h.2.symm

theorem delta_after_update (t : TrackingData) (issue : String) (A N : List String)
    (hN : ∀ c ∈ N, c ∉ (t.GetIssueTracking issue).MergedCommits ∧ c ∉ A) :
    (t.UpdateIssueTracking issue (A.headD "") (t.GetUnmergedCommits issue A)).GetUnmergedCommits
      issue (N ++ A) = N := by
  rw [GetUnmergedCommits_eq_filter, GetIssueTracking_UpdateIssueTracking_self,
    GetUnmergedCommits_eq_filter, List.filter_append]
  have h1 : N.filter (fun c => decide (c ∉ (t.GetIssueTracking issue).MergedCommits ++
      A.filter (fun c => decide (c ∉ (t.GetIssueTracking issue).MergedCommits)))) = N := by
    apply List.filter_eq_self.mpr
    intro c hc
    have := hN c hc
    simp [this.1, this.2]
  have h2 : A.filter (fun c => decide (c ∉ (t.GetIssueTracking issue).MergedCommits ++
      A.filter (fun c => decide (c ∉ (t.GetIssueTracking issue).MergedCommits)))) = [] := by
    apply List.filter_eq_nil_iff.mpr
    intro c hc
    by_cases hm : c ∈ (t.GetIssueTracking issue).MergedCommits <;> simp [hm, hc]
  simp only [h1, h2, List.append_nil]

theorem firstFailure_some (w : World) (steps : List (String × Event)) (h0 hist : List Event)
    (label : String) (ev : Event) (e : String)
    (h : firstFailure w h0 steps = some (hist, label, ev, e)) :
    (label, ev) ∈ steps ∧ w.outcome hist ev = .error e ∧ h0 <+: hist := by
  induction steps generalizing h0 with
  | nil => simp [firstFailure] at h
  | cons p rest ih =>
    obtain ⟨l, x⟩ := p
    simp only [firstFailure] at h
    cases ho : w.outcome h0 x with
    | error e1 =>
      simp only [ho, Option.some.injEq, Prod.mk.injEq] at h
      obtain ⟨rfl, rfl, rfl, rfl⟩ := h
      exact ⟨List.mem_cons_self _ _, ho, List.prefix_refl _⟩
    | ok o =>
      simp only [ho] at h
      obtain ⟨h1, h2, h3⟩ := ih (h0 ++ [x]) h
      exact ⟨List.mem_cons_of_mem _ h1, h2, (List.prefix_append h0 [x]).trans h3⟩

theorem not_carriesRolledBack_partial (pre : String) :
    ¬ carriesRolledBack (pre ++ " (but merge was successful)") := by
  unfold carriesRolledBack rolledBackQualifier
  intro h
  rw [String.data_append] at h
  have h2 : " (but merge was successful)".data <:+
      pre.data ++ " (but merge was successful)".data := List.suffix_append _ _
  have h3 := List.suffix_of_suffix_length_le h h2 (by decide)
  revert h3
  decide

/-! ## The claims -/

/-- C1: for every tracking document, issue and commit list, `GetUnmergedCommits`
returns `allCommits` with exactly the elements removed that occur in the issue's
`mergedCommits`, in the original order; for an issue without an entry it returns
`allCommits` unchanged. -/
theorem C1_GetUnmergedCommits_removes_merged (t : TrackingData) (issue : String)
    (allCommits : List String) :
    t.GetUnmergedCommits issue allCommits
        = allCommits.filter (fun c => decide (c ∉ (t.GetIssueTracking issue).MergedCommits)) ∧
    (t.Issues.lookup issue = none → t.GetUnmergedCommits issue allCommits = allCommits) := by
  refine ⟨GetUnmergedCommits_eq_filter t issue allCommits, ?_⟩
  intro h
  rw [GetUnmergedCommits_eq_filter]
  simp [TrackingData.GetIssueTracking, h]

/-- Witness of C1 on a document without an entry for issue `9`. -/
theorem C1_GetUnmergedCommits_removes_merged_witness :
    demoDoc.Issues.lookup "9" = none ∧ demoDoc.GetUnmergedCommits "9" ["b", "a"] = ["b", "a"] :=
  ⟨by decide, (C1_GetUnmergedCommits_removes_merged demoDoc "9" ["b", "a"]).2 (by decide)⟩

/-- C2: in every update run in which the calls of steps 4 to 8 all succeed, the
tracking file held the loaded document before the run and holds at the end a
document in which the issue has `lastMergedCommit` equal to the first element of
`allCommits`, `mergedCommits` equal to the previous sequence followed by the
unmerged delta, the previous `forkPoint`, and in which every other issue has the
entry it had. -/
theorem C2_successful_update_persists_tracking (w : World) (message : String) (s0 s : Sys)
    (v : Locals) (hprep : updateCmd.prepare w s0 = (s, .inr v))
    (hok : firstFailure w s.log (updateCmd.steps message v) = none) :
    s0.store = Store.doc v.trackingData ∧
    v.unmergedCommits = v.trackingData.GetUnmergedCommits v.issue v.allCommits ∧
    ∃ (latest : String) (rest : List String) (t' : TrackingData),
      v.allCommits = latest :: rest ∧
      (updateCmd.RunE w message s0).1.store = Store.doc t' ∧
      t'.GetIssueTracking v.issue
        = { ForkPoint := (v.trackingData.GetIssueTracking v.issue).ForkPoint,
            LastMergedCommit := latest,
            MergedCommits := (v.trackingData.GetIssueTracking v.issue).MergedCommits ++
              v.unmergedCommits } ∧
      ∀ j : String, j ≠ v.issue → t'.Issues.lookup j = v.trackingData.Issues.lookup j := by
  obtain ⟨sa, sb, sc, -, -, -, -, -, -, -, -, hall, hun, -⟩ := prepare_inr w s0 s v hprep
  refine ⟨(prepare_inr_store w s0 s v hprep).1, hun, ?_⟩
  obtain ⟨latest, rest, hlr⟩ := List.exists_cons_of_ne_nil hall
  refine ⟨latest, rest, updateCmd.newTracking v, hlr, ?_, ?_, ?_⟩
  · rw [RunE_of_prepare_inr w message s0 s v hprep, mergePhase_ok w message v s hok]
  · unfold updateCmd.newTracking
    rw [GetIssueTracking_UpdateIssueTracking_self, hlr]
    rfl
  · intro j hj
    exact lookup_UpdateIssueTracking_other _ _ _ _ _ hj

/-- Witness of C2: the first update of issue `7` with commits `c3`, `c2`, `c1` and
nothing merged; afterwards `mergedCommits` is `c3`, `c2`, `c1` and
`lastMergedCommit` is `c3`. -/
theorem C2_successful_update_persists_tracking_witness :
    (updateCmd.RunE (scriptedWorld (demoQueries ++ noPrBranch)) "msg" demoStart).1.store
        = Store.doc mergedDoc ∧
    demoStart.store = Store.doc demoDoc ∧
    ["c3", "c2", "c1"] = demoDoc.GetUnmergedCommits "7" ["c3", "c2", "c1"] ∧
    ∃ (latest : String) (rest : List String) (t' : TrackingData),
      ["c3", "c2", "c1"] = latest :: rest ∧
      (updateCmd.RunE (scriptedWorld (demoQueries ++ noPrBranch)) "msg" demoStart).1.store
        = Store.doc t' ∧
      t'.GetIssueTracking "7"
        = { ForkPoint := (demoDoc.GetIssueTracking "7").ForkPoint,
            LastMergedCommit := latest,
            MergedCommits := (demoDoc.GetIssueTracking "7").MergedCommits ++
              ["c3", "c2", "c1"] } ∧
      ∀ j : String, j ≠ "7" → t'.Issues.lookup j = demoDoc.Issues.lookup j :=
  ⟨by decide,
   C2_successful_update_persists_tracking (scriptedWorld (demoQueries ++ noPrBranch)) "msg"
    demoStart
    { log := [Event.output ["rev-parse", "--abbrev-ref", "HEAD"], Event.load,
              Event.output ["log", "--format=%H", "f0..wip/7"],
              Event.output ["rev-parse", "--verify", "pr/7"]],
      store := Store.doc demoDoc }
    { issue := "7", wipBranch := "wip/7", prBranch := "pr/7", trackingData := demoDoc,
      forkPoint := "f0", allCommits := ["c3", "c2", "c1"],
      unmergedCommits := ["c3", "c2", "c1"], prBranchExisted := false,
      prBranchOriginalCommit := "" }
    (by decide) (by decide)⟩

/-- C3: after an update run over the commit range `allCommits` in which steps 4 to 8
succeeded, consider any later run on the same branch whose tracking file is the one
the first run left and whose commit range is `N ++ allCommits`, where no commit of
`N` was merged before the first run or belongs to `allCommits`. The delta of the
later run is exactly `N`: for non-empty `N` the run goes on with `unmergedCommits`
equal to `N`, and for empty `N` it returns `nil` after read-only calls, leaving the
tracking file as it was. -/
theorem C3_update_incremental_idempotent (w : World) (message : String) (s0 s : Sys)
    (v : Locals) (hprep : updateCmd.prepare w s0 = (s, .inr v))
    (hok : firstFailure w s.log (updateCmd.steps message v) = none)
    (w2 : World) (message2 : String) (s1 sa sb sc : Sys) (t2 : TrackingData)
    (N : List String)
    (hstore : s1.store = (updateCmd.RunE w message s0).1.store)
    (hcur : CurrentBranch w2 s1 = (sa, .ok v.wipBranch))
    (hload : Load w2 sa = (sb, .ok t2))
    (hlog : GetCommitsBetween w2 sb v.forkPoint v.wipBranch = (sc, .ok (N ++ v.allCommits)))
    (hnew : ∀ c ∈ N,
      c ∉ (v.trackingData.GetIssueTracking v.issue).MergedCommits ∧ c ∉ v.allCommits) :
    t2.GetUnmergedCommits v.issue (N ++ v.allCommits) = N ∧
    (N = [] → updateCmd.RunE w2 message2 s1 = (sc, none) ∧ ReadOnlyFrom s1 sc) ∧
    (N ≠ [] → ∃ (s' : Sys) (v2 : Locals), updateCmd.prepare w2 s1 = (s', .inr v2) ∧
      v2.allCommits = N ++ v.allCommits ∧ v2.unmergedCommits = N) := by
  obtain ⟨_, _, _, -, hp, hissue, -, -, hfork, hforkne, -, -, hun, -⟩ :=
    prepare_inr w s0 s v hprep
  have hsa : sa.store = s1.store := by
    have := congrArg Prod.fst hcur
    simp only [CurrentBranch, Output_fst] at this
    rw [← this]
  have ht2 : t2 = updateCmd.newTracking v := by
    apply Load_ok_doc w2 sa sb t2 _ hload
    rw [hsa, hstore, RunE_of_prepare_inr w message s0 s v hprep, mergePhase_ok w message v s hok]
  have hdelta : t2.GetUnmergedCommits v.issue (N ++ v.allCommits) = N := by
    rw [ht2, updateCmd.newTracking, hun]
    exact delta_after_update v.trackingData v.issue v.allCommits N hnew
  have hfp : t2.GetForkPoint (TrimPrefix v.wipBranch "wip/") = v.forkPoint := by
    rw [← hissue, ht2, hfork]
    simp [TrackingData.GetForkPoint, updateCmd.newTracking,
      GetIssueTracking_UpdateIssueTracking_self]
  have hf2 : t2.GetForkPoint (TrimPrefix v.wipBranch "wip/") ≠ "" := by
    rw [hfp]; exact hforkne
  have hlog2 : GetCommitsBetween w2 sb (t2.GetForkPoint (TrimPrefix v.wipBranch "wip/"))
      v.wipBranch = (sc, .ok (N ++ v.allCommits)) := by
    rw [hfp]; exact hlog
  rw [hissue] at hdelta
  refine ⟨by rw [hissue]; exact hdelta, ?_, ?_⟩
  · intro hN
    have hpre := prepare_noop w2 s1 sa sb sc v.wipBranch t2 (N ++ v.allCommits) hcur hp hload
      hf2 hlog2 (by rw [hdelta]; exact hN)
    refine ⟨RunE_of_prepare_inl w2 message2 s1 sc none hpre, ?_⟩
    have hfr := prepare_frame w2 s1
    rw [hpre] at hfr
    exact hfr
  · intro hN
    obtain ⟨s', v2, h1, -, -, h4, h5⟩ :=
      prepare_delta w2 s1 sa sb sc v.wipBranch t2 (N ++ v.allCommits) hcur hp hload hf2 hlog2
        (by rw [hdelta]; exact hN)
    exact ⟨s', v2, h1, h4, by rw [h5, hdelta]⟩

/-- Witness of C3: after the first update of issue `7` over `c3`, `c2`, `c1`, a run
whose range is `c4`, `c3`, `c2`, `c1` has the delta `c4`. -/
theorem C3_update_incremental_idempotent_witness :
    updateCmd.prepare firstUpdateWorld demoStart
        = ({ log := queriesNoPr, store := Store.doc demoDoc }, .inr (demoLocals false "")) ∧
    (updateCmd.RunE firstUpdateWorld "msg" demoStart).1.store = Store.doc mergedDoc ∧
    mergedDoc.GetUnmergedCommits "7" (["c4"] ++ ["c3", "c2", "c1"]) = ["c4"] ∧
    (["c4"] = [] →
      updateCmd.RunE secondUpdateWorld "again" { log := [], store := Store.doc mergedDoc }
        = ({ log := [Event.output ["rev-parse", "--abbrev-ref", "HEAD"], Event.load,
               Event.output ["log", "--format=%H", "f0..wip/7"]],
             store := Store.doc mergedDoc }, none) ∧
      ReadOnlyFrom { log := [], store := Store.doc mergedDoc }
        { log := [Event.output ["rev-parse", "--abbrev-ref", "HEAD"], Event.load,
               Event.output ["log", "--format=%H", "f0..wip/7"]],
          store := Store.doc mergedDoc }) ∧
    (["c4"] ≠ [] → ∃ (s' : Sys) (v2 : Locals),
      updateCmd.prepare secondUpdateWorld { log := [], store := Store.doc mergedDoc }
        = (s', .inr v2) ∧
      v2.allCommits = ["c4"] ++ ["c3", "c2", "c1"] ∧ v2.unmergedCommits = ["c4"]) :=
  ⟨by decide, by decide,
   C3_update_incremental_idempotent firstUpdateWorld "msg" demoStart
    { log := queriesNoPr, store := Store.doc demoDoc } (demoLocals false "")
    (by decide) (by decide)
    secondUpdateWorld "again" { log := [], store := Store.doc mergedDoc }
    { log := [Event.output ["rev-parse", "--abbrev-ref", "HEAD"]], store := Store.doc mergedDoc }
    { log := [Event.output ["rev-parse", "--abbrev-ref", "HEAD"], Event.load],
      store := Store.doc mergedDoc }
    { log := [Event.output ["rev-parse", "--abbrev-ref", "HEAD"], Event.load,
              Event.output ["log", "--format=%H", "f0..wip/7"]],
      store := Store.doc mergedDoc }
    mergedDoc ["c4"] (by decide) rfl rfl rfl (by decide)⟩

/-- C4, the code at a failing input: the branch `pr/7` exists before the update at
commit `p0` (`BranchExists` answers true), the subprocess `git rev-parse pr/7` fails,
and the checkout of `pr/7` in step 4 fails. The commands issued after the failing
step are only the merge-abort and the checkout of `wip/7`: `pr/7` is neither checked
out nor reset, for any commit, although the error returned says that the changes
were rolled back. -/
theorem C4_rollback_skips_reset :
    updateCmd.prepare checkoutFailsWorld demoStart
      = ({ log := queriesWithPr, store := Store.doc demoDoc }, .inr (demoLocals true "")) ∧
    (BranchExists checkoutFailsWorld
      { log := [Event.output ["rev-parse", "--abbrev-ref", "HEAD"], Event.load,
                Event.output ["log", "--format=%H", "f0..wip/7"]],
        store := Store.doc demoDoc } "pr/7").2 = true ∧
    firstFailure checkoutFailsWorld queriesWithPr (updateCmd.steps "msg" (demoLocals true ""))
      = some (queriesWithPr, "error checking out pr branch: ", Event.run ["checkout", "pr/7"],
          "exit status 1") ∧
    (updateCmd.RunE checkoutFailsWorld "msg" demoStart).1.log
      = queriesWithPr ++ [Event.run ["checkout", "pr/7"]] ++
          [Event.run ["merge", "--abort"], Event.run ["checkout", "wip/7"]] ∧
    (∀ c : String, (updateCmd.RunE checkoutFailsWorld "msg" demoStart).1.log
      ≠ queriesWithPr ++ [Event.run ["checkout", "pr/7"]] ++
          [Event.run ["merge", "--abort"], Event.run ["checkout", "wip/7"],
           Event.run ["checkout", "pr/7"], Event.run ["reset", "--hard", c],
           Event.run ["checkout", "wip/7"]]) ∧
    (updateCmd.RunE checkoutFailsWorld "msg" demoStart).2
      = some "error checking out pr branch: exit status 1 (changes rolled back)" := by
  have hlog : (updateCmd.RunE checkoutFailsWorld "msg" demoStart).1.log
      = queriesWithPr ++ [Event.run ["checkout", "pr/7"]] ++
          [Event.run ["merge", "--abort"], Event.run ["checkout", "wip/7"]] := by decide
  refine ⟨by decide, by decide, by decide, hlog, ?_, by decide⟩
  intro c h
  rw [hlog] at h
  have := congrArg List.length h
  simp [queriesWithPr, queriesNoPr] at this

/-- The calls of the rollback: in every update run in which a call of steps 4 to 8
fails, the calls issued after the failing call are the merge-abort, the checkout of
the working branch and, if and only if the target branch existed before the update
and `prBranchOriginalCommit` is not empty, the checkout of the target branch, the
hard reset to that identifier and the checkout of the working branch again. -/
theorem rollback_calls_after_failure (w : World) (message : String) (s0 s : Sys) (v : Locals)
    (hist : List Event) (label : String) (ev : Event) (e : String)
    (hprep : updateCmd.prepare w s0 = (s, .inr v))
    (hfail : firstFailure w s.log (updateCmd.steps message v) = some (hist, label, ev, e)) :
    (label, ev) ∈ updateCmd.steps message v ∧ w.outcome hist ev = .error e ∧
    (updateCmd.RunE w message s0).1.log
      = hist ++ [ev] ++
          [Event.run ["merge", "--abort"], Event.run ["checkout", v.wipBranch]] ++
          (if v.prBranchExisted = true ∧ v.prBranchOriginalCommit ≠ "" then
            [Event.run ["checkout", v.prBranch],
             Event.run ["reset", "--hard", v.prBranchOriginalCommit],
             Event.run ["checkout", v.wipBranch]]
          else []) := by
  obtain ⟨h1, h2, -⟩ := firstFailure_some w _ _ _ _ _ _ hfail
  refine ⟨h1, h2, ?_⟩
  rw [RunE_of_prepare_inr w message s0 s v hprep, mergePhase_fail w message v s _ _ _ _ hfail]
  simp only [updateCmd.rollbackEvents, List.append_assoc]
  by_cases hx : v.prBranchExisted = true <;> by_cases hc : v.prBranchOriginalCommit = "" <;>
    simp [hx, hc]

/-- An instance of `rollback_calls_after_failure`: the squash commit fails with
`pr/7` at `p0`; the rollback issues all five commands. -/
theorem rollback_calls_after_failure_example :
    (updateCmd.RunE commitFailsWorld "msg" demoStart).1.log
      = (queriesWithPr ++ [Event.run ["checkout", "pr/7"],
            Event.run ["merge", "--squash", "-X", "theirs", "wip/7"]]) ++
          [Event.run ["commit", "-m", "msg"]] ++
          [Event.run ["merge", "--abort"], Event.run ["checkout", "wip/7"]] ++
          (if (demoLocals true "p0").prBranchExisted = true ∧
              (demoLocals true "p0").prBranchOriginalCommit ≠ "" then
            [Event.run ["checkout", "pr/7"], Event.run ["reset", "--hard", "p0"],
             Event.run ["checkout", "wip/7"]]
          else []) :=
  (rollback_calls_after_failure commitFailsWorld "msg" demoStart
    { log := queriesWithPr, store := Store.doc demoDoc } (demoLocals true "p0")
    (queriesWithPr ++ [Event.run ["checkout", "pr/7"],
      Event.run ["merge", "--squash", "-X", "theirs", "wip/7"]])
    "error creating squash commit: " (Event.run ["commit", "-m", "msg"]) "exit status 1"
    (by decide) (by decide)).2.2

/-- C5, the code at a failing input: the push fails after the tracking file was
saved. `RunE` returns an error that carries the rollback qualifier, and the tracking
file holds the updated document, not the one it held before the run. -/
theorem C5_tracking_kept_after_push_failure :
    updateCmd.RunE pushFailsWorld "msg" demoStart
      = ({ log := queriesWithPr ++
             [Event.run ["checkout", "pr/7"],
              Event.run ["merge", "--squash", "-X", "theirs", "wip/7"],
              Event.run ["commit", "-m", "msg"], Event.save mergedDoc,
              Event.run ["push", "-u", "origin", "pr/7"],
              Event.run ["merge", "--abort"], Event.run ["checkout", "wip/7"],
              Event.run ["checkout", "pr/7"], Event.run ["reset", "--hard", "p0"],
              Event.run ["checkout", "wip/7"]],
           store := Store.doc mergedDoc },
         some "error pushing to remote: exit status 1 (changes rolled back)") ∧
    carriesRolledBack "error pushing to remote: exit status 1 (changes rolled back)" ∧
    demoStart.store = Store.doc demoDoc ∧
    Store.doc mergedDoc ≠ Store.doc demoDoc := by
  decide

/-- A failing commit when the commit identifier of the target branch was obtained:
in every update run in which `prBranchExisted` is true and `prBranchOriginalCommit`
is the non-empty identifier `P`, the checkout of the target branch and the
squash-merge succeed and the squash commit fails, the calls after the queries are the checkout of the
target branch, the merge, the commit, then the merge-abort, the checkout of the
working branch, the checkout of the target branch, its hard reset to `P` and the
checkout of the working branch, which is the last call. The queries are read-only
and no call writes the tracking file. -/
theorem commit_failure_resets_to_obtained_commit (w : World) (message : String) (s0 s : Sys) (v : Locals)
    (P o1 o2 e : String)
    (hprep : updateCmd.prepare w s0 = (s, .inr v))
    (hexisted : v.prBranchExisted = true) (hP : v.prBranchOriginalCommit = P) (hPne : P ≠ "")
    (hcheckout : w.outcome s.log (Event.run ["checkout", v.prBranch]) = .ok o1)
    (hmerge : w.outcome (s.log ++ [Event.run ["checkout", v.prBranch]])
      (Event.run ["merge", "--squash", "-X", "theirs", v.wipBranch]) = .ok o2)
    (hcommit : w.outcome
      (s.log ++ [Event.run ["checkout", v.prBranch],
        Event.run ["merge", "--squash", "-X", "theirs", v.wipBranch]])
      (Event.run ["commit", "-m", message]) = .error e) :
    updateCmd.RunE w message s0
      = ({ log := s.log ++
             [Event.run ["checkout", v.prBranch],
              Event.run ["merge", "--squash", "-X", "theirs", v.wipBranch],
              Event.run ["commit", "-m", message],
              Event.run ["merge", "--abort"], Event.run ["checkout", v.wipBranch],
              Event.run ["checkout", v.prBranch], Event.run ["reset", "--hard", P],
              Event.run ["checkout", v.wipBranch]],
           store := s0.store },
         some ("error creating squash commit: " ++ e ++ " (changes rolled back)")) ∧
    ReadOnlyFrom s0 s ∧
    (updateCmd.RunE w message s0).1.log.getLast? = some (Event.run ["checkout", v.wipBranch]) ∧
    Event.run ["merge", "--abort"] ∈ (updateCmd.RunE w message s0).1.log ∧
    ∀ ev ∈ (updateCmd.RunE w message s0).1.log, ev ∉ s0.log → ev.isSave = false := by
  have hfail : firstFailure w s.log (updateCmd.steps message v)
      = some (s.log ++ [Event.run ["checkout", v.prBranch],
          Event.run ["merge", "--squash", "-X", "theirs", v.wipBranch]],
        "error creating squash commit: ", Event.run ["commit", "-m", message], e) := by
    simp [updateCmd.steps, firstFailure, hexisted, hcheckout, hmerge, hcommit]
  have hro : ReadOnlyFrom s0 s := by
    have := prepare_frame w s0
    rw [hprep] at this
    exact this
  have hrun : updateCmd.RunE w message s0
      = ({ log := s.log ++
             [Event.run ["checkout", v.prBranch],
              Event.run ["merge", "--squash", "-X", "theirs", v.wipBranch],
              Event.run ["commit", "-m", message],
              Event.run ["merge", "--abort"], Event.run ["checkout", v.wipBranch],
              Event.run ["checkout", v.prBranch], Event.run ["reset", "--hard", P],
              Event.run ["checkout", v.wipBranch]],
           store := s0.store },
         some ("error creating squash commit: " ++ e ++ " (changes rolled back)")) := by
    rw [RunE_of_prepare_inr w message s0 s v hprep, mergePhase_fail w message v s _ _ _ _ hfail]
    simp [updateCmd.rollbackEvents, updateCmd.pushEvent, hexisted, hPne, hP,
      (prepare_inr_store w s0 s v hprep).2, rolledBackQualifier]
  refine ⟨hrun, hro, ?_, ?_, ?_⟩
  · rw [hrun]; simp [List.getLast?_append]
  · rw [hrun]; simp
  · rw [hrun]
    obtain ⟨qs, rfl, hqs⟩ := hro
    intro ev hev hnot
    simp only [List.append_assoc, List.mem_append, List.mem_cons, List.mem_singleton,
      List.mem_nil_iff, or_false] at hev
    rcases hev with h | h | h | h | h | h | h | h | h | h
    · exact absurd h hnot
    · exact (hqs ev h).2
    all_goals subst h; rfl

/-- An instance of `commit_failure_resets_to_obtained_commit`: the squash commit
fails with `pr/7` at `p0`. -/
theorem commit_failure_resets_to_obtained_commit_example :
    updateCmd.RunE commitFailsWorld "msg" demoStart
      = ({ log := queriesWithPr ++
             [Event.run ["checkout", "pr/7"],
              Event.run ["merge", "--squash", "-X", "theirs", "wip/7"],
              Event.run ["commit", "-m", "msg"],
              Event.run ["merge", "--abort"], Event.run ["checkout", "wip/7"],
              Event.run ["checkout", "pr/7"], Event.run ["reset", "--hard", "p0"],
              Event.run ["checkout", "wip/7"]],
           store := Store.doc demoDoc },
         some ("error creating squash commit: " ++ "exit status 1" ++
          " (changes rolled back)")) :=
  (commit_failure_resets_to_obtained_commit commitFailsWorld "msg" demoStart
    { log := queriesWithPr, store := Store.doc demoDoc } (demoLocals true "p0")
    "p0" "" "" "exit status 1"
    (by decide) rfl rfl (by decide) rfl rfl rfl).1

/-- C6, the code at a failing input: the branch `pr/7` exists before the update at
commit `p0`, which `rev-parse --verify pr/7` prints, the subprocess
`git rev-parse pr/7` fails, the checkout of `pr/7` and the squash-merge succeed and
the squash commit fails. The run aborts the merge and ends on the checkout of
`wip/7`, no call writes the tracking file, and the error returned carries the
rollback qualifier, but no call of the run is a hard reset: `pr/7` is not reset to
`p0`. -/
theorem C6_commit_failure_without_reset :
    commitFailsHashUnknownWorld.outcome
        [Event.output ["rev-parse", "--abbrev-ref", "HEAD"], Event.load,
         Event.output ["log", "--format=%H", "f0..wip/7"]]
        (Event.output ["rev-parse", "--verify", "pr/7"]) = .ok "p0\n" ∧
    updateCmd.RunE commitFailsHashUnknownWorld "msg" demoStart
      = ({ log := queriesWithPr ++
             [Event.run ["checkout", "pr/7"],
              Event.run ["merge", "--squash", "-X", "theirs", "wip/7"],
              Event.run ["commit", "-m", "msg"],
              Event.run ["merge", "--abort"], Event.run ["checkout", "wip/7"]],
           store := Store.doc demoDoc },
         some "error creating squash commit: exit status 1 (changes rolled back)") ∧
    (∀ c : String, Event.run ["reset", "--hard", c]
      ∉ (updateCmd.RunE commitFailsHashUnknownWorld "msg" demoStart).1.log) ∧
    carriesRolledBack "error creating squash commit: exit status 1 (changes rolled back)" := by
  have hrun : updateCmd.RunE commitFailsHashUnknownWorld "msg" demoStart
      = ({ log := queriesWithPr ++
             [Event.run ["checkout", "pr/7"],
              Event.run ["merge", "--squash", "-X", "theirs", "wip/7"],
              Event.run ["commit", "-m", "msg"],
              Event.run ["merge", "--abort"], Event.run ["checkout", "wip/7"]],
           store := Store.doc demoDoc },
         some "error creating squash commit: exit status 1 (changes rolled back)") := by
    decide
  refine ⟨rfl, hrun, ?_, by decide⟩
  intro c hc
  rw [hrun] at hc
  simp [queriesWithPr, queriesNoPr] at hc

/-- C7: in every update run in which the calls of steps 4 to 8 all succeed and the
final checkout of the working branch fails, the calls after the read-only queries
are those of steps 4 to 8 followed by that checkout; no merge-abort and no hard
reset is among the calls of the run, the push is, the tracking file holds the
updated document, and the error returned names the failed checkout and does not
end with the rollback qualifier. -/
theorem C7_final_checkout_failure_keeps_update (w : World) (message : String) (s0 s : Sys)
    (v : Locals) (e : String)
    (hprep : updateCmd.prepare w s0 = (s, .inr v))
    (hok : firstFailure w s.log (updateCmd.steps message v) = none)
    (hlast : w.outcome (s.log ++ (updateCmd.steps message v).map Prod.snd)
      (Event.run ["checkout", v.wipBranch]) = .error e) :
    updateCmd.RunE w message s0
      = ({ log := s.log ++ (updateCmd.steps message v).map Prod.snd ++
                    [Event.run ["checkout", v.wipBranch]],
           store := Store.doc
             (v.trackingData.UpdateIssueTracking v.issue (v.allCommits.headD "")
               v.unmergedCommits) },
         some ("error switching back to wip branch: " ++ e ++ " (but merge was successful)")) ∧
    ¬ carriesRolledBack
      ("error switching back to wip branch: " ++ e ++ " (but merge was successful)") ∧
    Event.run ["push", "-u", "origin", v.prBranch] ∈ (updateCmd.RunE w message s0).1.log ∧
    ReadOnlyFrom s0 s ∧
    ∀ ev ∈ (updateCmd.RunE w message s0).1.log, ev ∉ s0.log →
      ev ≠ Event.run ["merge", "--abort"] ∧ ∀ c : String, ev ≠ Event.run ["reset", "--hard", c] := by
  have hro : ReadOnlyFrom s0 s := by
    have := prepare_frame w s0
    rw [hprep] at this
    exact this
  have hrun : updateCmd.RunE w message s0
      = ({ log := s.log ++ (updateCmd.steps message v).map Prod.snd ++
                    [Event.run ["checkout", v.wipBranch]],
           store := Store.doc
             (v.trackingData.UpdateIssueTracking v.issue (v.allCommits.headD "")
               v.unmergedCommits) },
         some ("error switching back to wip branch: " ++ e ++
          " (but merge was successful)")) := by
    rw [RunE_of_prepare_inr w message s0 s v hprep, mergePhase_ok w message v s hok, hlast]
    rfl
  refine ⟨hrun, ?_, ?_, hro, ?_⟩
  · exact not_carriesRolledBack_partial _
  · rw [hrun]
    simp [updateCmd.steps, updateCmd.pushEvent]
  · rw [hrun]
    obtain ⟨qs, rfl, hqs⟩ := hro
    intro ev hev hnot
    simp only [List.append_assoc, List.mem_append, List.mem_singleton] at hev
    rcases hev with h | h | h | h
    · exact absurd h hnot
    · have := (hqs ev h).1
      refine ⟨?_, ?_⟩
      · rintro rfl; simp [Event.isMutating] at this
      · rintro c rfl; simp [Event.isMutating] at this
    · unfold updateCmd.steps updateCmd.pushEvent at h
      cases hx : v.prBranchExisted
      · simp [hx] at h
        rcases h with h | h | h | h | h | h <;> subst h <;> simp
      · simp [hx] at h
        rcases h with h | h | h | h | h <;> subst h <;> simp
    · subst h; simp

/-- Witness of C7: every step of the first update of issue `7` succeeds and the
last checkout of `wip/7` fails. -/
theorem C7_final_checkout_failure_keeps_update_witness :
    updateCmd.RunE lastCheckoutFailsWorld "msg" demoStart
      = ({ log := queriesNoPr ++ (updateCmd.steps "msg" (demoLocals false "")).map Prod.snd ++
                    [Event.run ["checkout", "wip/7"]],
           store := Store.doc
             (demoDoc.UpdateIssueTracking "7" (["c3", "c2", "c1"].headD "")
               ["c3", "c2", "c1"]) },
         some ("error switching back to wip branch: " ++ "exit status 1" ++
          " (but merge was successful)")) :=
  (C7_final_checkout_failure_keeps_update lastCheckoutFailsWorld "msg" demoStart
    { log := queriesNoPr, store := Store.doc demoDoc } (demoLocals false "") "exit status 1"
    (by decide) (by decide) rfl).1

/-- C8: in every update run in which a call of steps 4 to 8 fails, whatever the
world answers to the calls of the rollback, `RunE` returns the error whose message
is the text of the failing step followed by the error of the failing call and by
the rollback qualifier, and the log ends with all the calls of the rollback. -/
theorem C8_rollback_reports_original_cause (w : World) (message : String) (s0 s : Sys)
    (v : Locals) (hist : List Event) (label : String) (ev : Event) (e : String)
    (hprep : updateCmd.prepare w s0 = (s, .inr v))
    (hfail : firstFailure w s.log (updateCmd.steps message v) = some (hist, label, ev, e)) :
    (updateCmd.RunE w message s0).2 = some (label ++ e ++ " (changes rolled back)") ∧
    carriesRolledBack (label ++ e ++ " (changes rolled back)") ∧
    updateCmd.rollbackEvents v <:+ (updateCmd.RunE w message s0).1.log ∧
    Event.run ["merge", "--abort"] ∈ updateCmd.rollbackEvents v ∧
    Event.run ["checkout", v.wipBranch] ∈ updateCmd.rollbackEvents v ∧
    (v.prBranchExisted = true → v.prBranchOriginalCommit ≠ "" →
      [Event.run ["checkout", v.prBranch],
       Event.run ["reset", "--hard", v.prBranchOriginalCommit],
       Event.run ["checkout", v.wipBranch]] <:+ updateCmd.rollbackEvents v) := by
  rw [RunE_of_prepare_inr w message s0 s v hprep, mergePhase_fail w message v s _ _ _ _ hfail]
  refine ⟨rfl, ?_, List.suffix_append _ _, ?_, ?_, ?_⟩
  · unfold carriesRolledBack rolledBackQualifier
    rw [String.data_append]
    exact List.suffix_append _ _
  · simp [updateCmd.rollbackEvents]
  · simp [updateCmd.rollbackEvents]
  · intro hx hc
    simp only [updateCmd.rollbackEvents, hx, hc, Bool.true_and, bne_iff_ne, ne_eq,
      not_false_eq_true, if_true]
    exact List.suffix_append _ _

/-- Witness of C8: the squash-merge fails and every command of the rollback fails
too; the error returned is the one of the merge. -/
theorem C8_rollback_reports_original_cause_witness :
    updateCmd.RunE rollbackFailsWorld "msg" demoStart
      = ({ log := queriesWithPr ++
            [Event.run ["checkout", "pr/7"],
             Event.run ["merge", "--squash", "-X", "theirs", "wip/7"],
             Event.run ["merge", "--abort"], Event.run ["checkout", "wip/7"],
             Event.run ["checkout", "pr/7"], Event.run ["reset", "--hard", "p0"],
             Event.run ["checkout", "wip/7"]],
           store := Store.doc demoDoc },
          some "error merging wip branch: exit status 2 (changes rolled back)") ∧
    (updateCmd.RunE rollbackFailsWorld "msg" demoStart).2
      = some ("error merging wip branch: " ++ "exit status 2" ++ " (changes rolled back)") :=
  ⟨by decide,
   (C8_rollback_reports_original_cause rollbackFailsWorld "msg" demoStart
    { log := queriesWithPr, store := Store.doc demoDoc } (demoLocals true "p0")
    (queriesWithPr ++ [Event.run ["checkout", "pr/7"]]) "error merging wip branch: "
    (Event.run ["merge", "--squash", "-X", "theirs", "wip/7"]) "exit status 2"
    (by decide) (by decide)).1⟩

/-- C9: in every update run with a non-empty delta in which every call succeeds,
the calls after the read-only queries are, in this order: the checkout of
`pr/<issue>` when it exists, otherwise the checkout of the recorded fork point
followed by `checkout -b pr/<issue>`; then `merge --squash -X theirs wip/<issue>`,
`commit -m <message>`, the save of the updated tracking document,
`push -u origin pr/<issue>` and `checkout wip/<issue>`; and `RunE` returns `nil`. -/
theorem C9_successful_update_command_order (w : World) (message : String) (s0 s : Sys)
    (v : Locals) (o : String)
    (hprep : updateCmd.prepare w s0 = (s, .inr v))
    (hok : firstFailure w s.log (updateCmd.steps message v) = none)
    (hlast : w.outcome (s.log ++ (updateCmd.steps message v).map Prod.snd)
      (Event.run ["checkout", v.wipBranch]) = .ok o) :
    updateCmd.RunE w message s0
      = ({ log := s.log ++
            (if v.prBranchExisted = true then [Event.run ["checkout", "pr/" ++ v.issue]]
             else [Event.run ["checkout", v.trackingData.GetForkPoint v.issue],
                   Event.run ["checkout", "-b", "pr/" ++ v.issue]]) ++
            [Event.run ["merge", "--squash", "-X", "theirs", "wip/" ++ v.issue],
             Event.run ["commit", "-m", message],
             Event.save (v.trackingData.UpdateIssueTracking v.issue (v.allCommits.headD "")
               v.unmergedCommits),
             Event.run ["push", "-u", "origin", "pr/" ++ v.issue],
             Event.run ["checkout", "wip/" ++ v.issue]],
           store := Store.doc (v.trackingData.UpdateIssueTracking v.issue
             (v.allCommits.headD "") v.unmergedCommits) },
         none) ∧
    ReadOnlyFrom s0 s ∧
    v.unmergedCommits ≠ [] ∧
    (∃ sc : Sys, v.prBranchExisted = (BranchExists w sc ("pr/" ++ v.issue)).2) := by
  obtain ⟨sa, sb, sc, -, hp, hissue, hpr, -, hfork, -, -, -, -, hne, hex, -⟩ :=
    prepare_inr w s0 s v hprep
  have hwip : v.wipBranch = "wip/" ++ v.issue := by
    rw [hissue]; exact eq_append_TrimPrefix _ _ hp
  have hro : ReadOnlyFrom s0 s := by
    have := prepare_frame w s0
    rw [hprep] at this
    exact this
  refine ⟨?_, hro, hne, ⟨sc, by rw [← hpr]; exact hex⟩⟩
  rw [RunE_of_prepare_inr w message s0 s v hprep, mergePhase_ok w message v s hok, hlast]
  rw [← hwip, ← hpr, ← hfork]
  cases hx : v.prBranchExisted <;>
    simp [updateCmd.steps, updateCmd.pushEvent, updateCmd.newTracking, hx]

/-- Witness of C9: the first update of issue `7`, in which `pr/7` is created at the
fork point `f0`. -/
theorem C9_successful_update_command_order_witness :
    updateCmd.RunE firstUpdateWorld "msg" demoStart
      = ({ log := queriesNoPr ++
            [Event.run ["checkout", "f0"], Event.run ["checkout", "-b", "pr/7"],
             Event.run ["merge", "--squash", "-X", "theirs", "wip/7"],
             Event.run ["commit", "-m", "msg"], Event.save mergedDoc,
             Event.run ["push", "-u", "origin", "pr/7"], Event.run ["checkout", "wip/7"]],
           store := Store.doc mergedDoc },
         none) ∧
    ReadOnlyFrom demoStart { log := queriesNoPr, store := Store.doc demoDoc } :=
  ⟨by decide,
   (C9_successful_update_command_order firstUpdateWorld "msg" demoStart
    { log := queriesNoPr, store := Store.doc demoDoc } (demoLocals false "") ""
    (by decide) (by decide) rfl).2.1⟩

/-- C10: in every update run on a working branch with a recorded fork point in which
every commit of `allCommits` is already in the issue's `mergedCommits` (in
particular when `allCommits` is empty), `RunE` returns `nil` after exactly three
calls, all of them read-only (the branch query, the read of the tracking file and
the log query), and the tracking file is unchanged. -/
theorem C10_empty_delta_is_noop (w : World) (message : String) (s0 sa sb sc : Sys)
    (cur : String) (t : TrackingData) (allCommits : List String)
    (hcur : CurrentBranch w s0 = (sa, .ok cur)) (hwip : HasPrefix cur "wip/" = true)
    (hload : Load w sa = (sb, .ok t))
    (hfork : t.GetForkPoint (TrimPrefix cur "wip/") ≠ "")
    (hlog : GetCommitsBetween w sb (t.GetForkPoint (TrimPrefix cur "wip/")) cur
      = (sc, .ok allCommits))
    (hmerged : ∀ c ∈ allCommits,
      c ∈ (t.GetIssueTracking (TrimPrefix cur "wip/")).MergedCommits) :
    updateCmd.RunE w message s0 = (sc, none) ∧
    sc.store = s0.store ∧
    sc.log = s0.log ++ [Event.output ["rev-parse", "--abbrev-ref", "HEAD"], Event.load,
      Event.output ["log", "--format=%H", t.GetForkPoint (TrimPrefix cur "wip/") ++ ".." ++ cur]] ∧
    ∀ ev ∈ sc.log, ev ∉ s0.log → ev.isMutating = false ∧ ev.isSave = false := by
  have hempty : t.GetUnmergedCommits (TrimPrefix cur "wip/") allCommits = [] := by
    rw [GetUnmergedCommits_eq_filter]
    apply List.filter_eq_nil_iff.mpr
    intro c hc
    simp [hmerged c hc]
  have hpre := prepare_noop w s0 sa sb sc cur t allCommits hcur hwip hload hfork hlog hempty
  have e1 : sa = ⟨s0.log ++ [Event.output ["rev-parse", "--abbrev-ref", "HEAD"]],
      s0.store⟩ := by
    have := congrArg Prod.fst hcur
    simp only [CurrentBranch, Output_fst] at this
    exact this.symm
  have e2 : sb = ⟨sa.log ++ [Event.load], sa.store⟩ := by
    have := congrArg Prod.fst hload
    rw [Load_fst] at this
    exact this.symm
  have e3 : sc = ⟨sb.log ++ [Event.output ["log", "--format=%H",
      t.GetForkPoint (TrimPrefix cur "wip/") ++ ".." ++ cur]], sb.store⟩ := by
    have := congrArg Prod.fst hlog
    rw [GetCommitsBetween_fst] at this
    exact this.symm
  refine ⟨RunE_of_prepare_inl w message s0 sc none hpre, ?_, ?_, ?_⟩
  · rw [e3, e2, e1]
  · rw [e3, e2, e1]; simp
  · intro ev hev hnot
    rw [e3, e2, e1] at hev
    simp only [List.append_assoc, List.mem_append, List.mem_singleton, List.mem_cons,
      List.mem_nil_iff, or_false] at hev
    rcases hev with h | h | h | h
    · exact absurd h hnot
    · subst h; exact ⟨rfl, rfl⟩
    · subst h; exact ⟨rfl, rfl⟩
    · subst h; exact ⟨rfl, rfl⟩

/-- Witness of C10: a run on `wip/7` whose commits `c3`, `c2`, `c1` are all merged
already. -/
theorem C10_empty_delta_is_noop_witness :
    updateCmd.RunE firstUpdateWorld "msg" { log := [], store := Store.doc mergedDoc }
      = ({ log := [Event.output ["rev-parse", "--abbrev-ref", "HEAD"], Event.load,
                   Event.output ["log", "--format=%H", "f0..wip/7"]],
           store := Store.doc mergedDoc }, none) :=
  (C10_empty_delta_is_noop firstUpdateWorld "msg" { log := [], store := Store.doc mergedDoc }
    { log := [Event.output ["rev-parse", "--abbrev-ref", "HEAD"]], store := Store.doc mergedDoc }
    { log := [Event.output ["rev-parse", "--abbrev-ref", "HEAD"], Event.load],
      store := Store.doc mergedDoc }
    { log := [Event.output ["rev-parse", "--abbrev-ref", "HEAD"], Event.load,
              Event.output ["log", "--format=%H", "f0..wip/7"]],
      store := Store.doc mergedDoc }
    "wip/7" mergedDoc ["c3", "c2", "c1"]
    rfl (by decide) rfl (by decide) rfl (by decide)).1

/-! ## Further lemmas on the tracking store -/

theorem GetIssueTracking_SetForkPoint_self (t : TrackingData) (issue c : String) :
    (t.SetForkPoint issue c).GetIssueTracking issue
      = { ForkPoint := c,
          LastMergedCommit := (t.GetIssueTracking issue).LastMergedCommit,
          MergedCommits := (t.GetIssueTracking issue).MergedCommits } := by
  simp [TrackingData.SetForkPoint, TrackingData.GetIssueTracking, lookup_mapSet_self]

theorem lookup_SetForkPoint_other (t : TrackingData) (issue c j : String) (hj : j ≠ issue) :
    (t.SetForkPoint issue c).Issues.lookup j = t.Issues.lookup j := by
  simp [TrackingData.SetForkPoint, lookup_mapSet_other _ _ _ _ hj]

theorem GetIssueTracking_of_lookup_none (t : TrackingData) (issue : String)
    (h : t.Issues.lookup issue = none) :
    t.GetIssueTracking issue = { ForkPoint := "", LastMergedCommit := "", MergedCommits := [] } := by
  simp [TrackingData.GetIssueTracking, h]

theorem GetUnmergedCommits_congr (t1 t2 : TrackingData) (i1 i2 : String) (A : List String)
    (h : ∀ x, x ∈ (t1.GetIssueTracking i1).MergedCommits ↔
      x ∈ (t2.GetIssueTracking i2).MergedCommits) :
    t1.GetUnmergedCommits i1 A = t2.GetUnmergedCommits i2 A := by
  rw [GetUnmergedCommits_eq_filter, GetUnmergedCommits_eq_filter]
  apply List.filter_congr
  intro x _
  simp [h x]

theorem GetUnmergedCommits_disjoint (t : TrackingData) (issue : String) (A : List String) :
    ∀ x ∈ t.GetUnmergedCommits issue A, x ∉ (t.GetIssueTracking issue).MergedCommits := by
  intro x hx
  rw [GetUnmergedCommits_eq_filter, List.mem_filter] at hx
  simpa using hx.2

/-! ## The claims on the tracking store -/

/-- C13: for every tracking document, issue, commit and commit lists `cs` and `A`,
calling `UpdateIssueTracking(i, c, cs)` twice gives the issue the same set of merged
commits as calling it once, and `GetUnmergedCommits(i, A)` returns the same list on
both documents. -/
theorem C13_UpdateIssueTracking_twice_same_set (d : TrackingData) (i c : String)
    (cs A : List String) :
    (∀ x : String,
      x ∈ (((d.UpdateIssueTracking i c cs).UpdateIssueTracking i c cs).GetIssueTracking
            i).MergedCommits ↔
      x ∈ ((d.UpdateIssueTracking i c cs).GetIssueTracking i).MergedCommits) ∧
    ((d.UpdateIssueTracking i c cs).UpdateIssueTracking i c cs).GetUnmergedCommits i A
      = (d.UpdateIssueTracking i c cs).GetUnmergedCommits i A := by
  have hset : ∀ x : String,
      x ∈ (((d.UpdateIssueTracking i c cs).UpdateIssueTracking i c cs).GetIssueTracking
            i).MergedCommits ↔
      x ∈ ((d.UpdateIssueTracking i c cs).GetIssueTracking i).MergedCommits := by
    intro x
    simp only [GetIssueTracking_UpdateIssueTracking_self, List.mem_append]
    tauto
  exact ⟨hset, GetUnmergedCommits_congr _ _ _ _ _ hset⟩

/-- C14, counterexample: issue `7` has the merged commits `c3`, `c2`, `c1` without
repetition; after `UpdateIssueTracking("7", "c3", ["c3"])` the sequence is `c3`, `c2`,
`c1`, `c3`, in which `c3` is repeated. -/
theorem C14_duplicate_appended_counterexample :
    (mergedDoc.GetIssueTracking "7").MergedCommits.Nodup ∧
    ((mergedDoc.UpdateIssueTracking "7" "c3" ["c3"]).GetIssueTracking "7").MergedCommits
      = ["c3", "c2", "c1", "c3"] ∧
    ¬ ((mergedDoc.UpdateIssueTracking "7" "c3" ["c3"]).GetIssueTracking "7").MergedCommits.Nodup := by
  decide

/-- C14, amended: for every tracking document in which the issue's `mergedCommits`
has no repeated element and every commit list `cs` that has no repeated element and
shares no element with that sequence, after `UpdateIssueTracking(i, c, cs)` the
issue's `mergedCommits` is the old sequence followed by `cs` and has no repeated
element. This is the case for the call of the update command, which passes
`GetUnmergedCommits(i, A)`, whenever `A` has no repeated element. -/
theorem C14_no_duplicates_for_disjoint_commits (d : TrackingData) (i c : String)
    (cs : List String)
    (hM : (d.GetIssueTracking i).MergedCommits.Nodup) (hcs : cs.Nodup)
    (hdisj : ∀ x ∈ cs, x ∉ (d.GetIssueTracking i).MergedCommits) :
    ((d.UpdateIssueTracking i c cs).GetIssueTracking i).MergedCommits
      = (d.GetIssueTracking i).MergedCommits ++ cs ∧
    ((d.UpdateIssueTracking i c cs).GetIssueTracking i).MergedCommits.Nodup ∧
    ∀ A : List String, A.Nodup →
      ((d.UpdateIssueTracking i c (d.GetUnmergedCommits i A)).GetIssueTracking
        i).MergedCommits.Nodup := by
  refine ⟨by rw [GetIssueTracking_UpdateIssueTracking_self], ?_, ?_⟩
  · rw [GetIssueTracking_UpdateIssueTracking_self]
    exact List.Nodup.append hM hcs (fun x hx hx' => hdisj x hx' hx)
  · intro A hA
    rw [GetIssueTracking_UpdateIssueTracking_self]
    refine List.Nodup.append hM ?_ (fun x hx hx' => GetUnmergedCommits_disjoint d i A x hx' hx)
    rw [GetUnmergedCommits_eq_filter]
    exact hA.filter _

/-- Witness of C14 (amended): `c4` is appended to the merged commits `c3`, `c2`, `c1`. -/
theorem C14_no_duplicates_for_disjoint_commits_witness :
    ((mergedDoc.UpdateIssueTracking "7" "c4" ["c4"]).GetIssueTracking "7").MergedCommits
      = (mergedDoc.GetIssueTracking "7").MergedCommits ++ ["c4"] ∧
    ((mergedDoc.UpdateIssueTracking "7" "c4" ["c4"]).GetIssueTracking "7").MergedCommits.Nodup :=
  have h := C14_no_duplicates_for_disjoint_commits mergedDoc "7" "c4" ["c4"]
    (by decide) (by decide) (by decide)
  ⟨h.1, h.2.1⟩

/-- The effect of `UpdateIssueTracking` on a document whose map is not nil: for every
such document, issue, commit `c` and commit list `cs`, after
`UpdateIssueTracking(i, c, cs)` the issue has an entry whose `lastMergedCommit` is `c`,
whose `mergedCommits` is the previous sequence followed by `cs` and whose `forkPoint`
is the previous one (the sequence is `cs` and the fork point empty if the issue had no
entry), and every other issue has the entry, or the absence of an entry, it had. -/
theorem UpdateIssueTracking_effect (d : TrackingData) (i c : String) (cs : List String) :
    (d.UpdateIssueTracking i c cs).Issues.lookup i
      = some { ForkPoint := (d.GetIssueTracking i).ForkPoint,
               LastMergedCommit := c,
               MergedCommits := (d.GetIssueTracking i).MergedCommits ++ cs } ∧
    (d.Issues.lookup i = none →
      (d.UpdateIssueTracking i c cs).Issues.lookup i
        = some { ForkPoint := "", LastMergedCommit := c, MergedCommits := cs }) ∧
    (∀ e : IssueTracking, d.Issues.lookup i = some e →
      (d.UpdateIssueTracking i c cs).Issues.lookup i
        = some { ForkPoint := e.ForkPoint, LastMergedCommit := c,
                 MergedCommits := e.MergedCommits ++ cs }) ∧
    ∀ j : String, j ≠ i → (d.UpdateIssueTracking i c cs).Issues.lookup j = d.Issues.lookup j := by
  have h1 : (d.UpdateIssueTracking i c cs).Issues.lookup i
      = some { ForkPoint := (d.GetIssueTracking i).ForkPoint,
               LastMergedCommit := c,
               MergedCommits := (d.GetIssueTracking i).MergedCommits ++ cs } := by
    simp [TrackingData.UpdateIssueTracking, lookup_mapSet_self]
  refine ⟨h1, ?_, ?_, fun j hj => lookup_UpdateIssueTracking_other d i c j cs hj⟩
  · intro hn
    rw [h1, GetIssueTracking_of_lookup_none d i hn]
    simp
  · intro e he
    rw [h1]
    simp [TrackingData.GetIssueTracking, he]

/-- Instances of `UpdateIssueTracking_effect` on an issue without an entry and on an
issue with one. -/
theorem UpdateIssueTracking_effect_example :
    (demoDoc.UpdateIssueTracking "9" "a" ["a"]).Issues.lookup "9"
      = some { ForkPoint := "", LastMergedCommit := "a", MergedCommits := ["a"] } ∧
    (mergedDoc.UpdateIssueTracking "7" "c4" ["c4"]).Issues.lookup "7"
      = some { ForkPoint := "f0", LastMergedCommit := "c4",
               MergedCommits := ["c3", "c2", "c1"] ++ ["c4"] } :=
  ⟨(UpdateIssueTracking_effect demoDoc "9" "a" ["a"]).2.1 (by decide),
   (UpdateIssueTracking_effect mergedDoc "7" "c4" ["c4"]).2.2.1
    { ForkPoint := "f0", LastMergedCommit := "c3", MergedCommits := ["c3", "c2", "c1"] }
    (by decide)⟩

/-- The effect of `SetForkPoint` on a document whose map is not nil: for every such
document, issue and commit `c`, after `SetForkPoint(i, c)` `GetForkPoint(i)` is `c`, the issue's `lastMergedCommit` and `mergedCommits` are those
from before (empty if the issue had no entry), and every other issue has the entry, or
the absence of an entry, it had. -/
theorem SetForkPoint_effect (d : TrackingData) (i c : String) :
    (d.SetForkPoint i c).GetForkPoint i = c ∧
    ((d.SetForkPoint i c).GetIssueTracking i).LastMergedCommit
      = (d.GetIssueTracking i).LastMergedCommit ∧
    ((d.SetForkPoint i c).GetIssueTracking i).MergedCommits
      = (d.GetIssueTracking i).MergedCommits ∧
    (d.Issues.lookup i = none →
      (d.SetForkPoint i c).Issues.lookup i
        = some { ForkPoint := c, LastMergedCommit := "", MergedCommits := [] }) ∧
    ∀ j : String, j ≠ i → (d.SetForkPoint i c).Issues.lookup j = d.Issues.lookup j := by
  refine ⟨?_, ?_, ?_, ?_, fun j hj => lookup_SetForkPoint_other d i c j hj⟩
  · simp [TrackingData.GetForkPoint, GetIssueTracking_SetForkPoint_self]
  · rw [GetIssueTracking_SetForkPoint_self]
  · rw [GetIssueTracking_SetForkPoint_self]
  · intro hn
    simp [TrackingData.SetForkPoint, lookup_mapSet_self, GetIssueTracking_of_lookup_none d i hn]

/-- Instances of `SetForkPoint_effect`: the fork point of issue `9`, which has no
entry, is set, and the fork point of issue `7` is overwritten. -/
theorem SetForkPoint_effect_example :
    (demoDoc.SetForkPoint "9" "f1").Issues.lookup "9"
      = some { ForkPoint := "f1", LastMergedCommit := "", MergedCommits := [] } ∧
    (mergedDoc.SetForkPoint "7" "f1").GetForkPoint "7" = "f1" :=
  ⟨(SetForkPoint_effect demoDoc "9" "f1").2.2.2.1 (by decide),
   (SetForkPoint_effect mergedDoc "7" "f1").1⟩

theorem Document_UpdateIssueTracking_ofData (t : TrackingData) (i c : String)
    (cs : List String) :
    Document.UpdateIssueTracking (.ofData t) i c cs
      = .ok (.ofData (t.UpdateIssueTracking i c cs)) := rfl

theorem Document_SetForkPoint_ofData (t : TrackingData) (i c : String) :
    Document.SetForkPoint (.ofData t) i c = .ok (.ofData (t.SetForkPoint i c)) := rfl

/-- C15, the code at a failing input: the document whose `Issues` map is nil, which
is the zero value of the type and the document that `Unmarshal` makes of the one
`Load` starts from when the tracking file holds `null` for `issues`. Reading the
entry of issue `7` gives the default
entry, and `UpdateIssueTracking("7", "c3", [c3, c2, c1])` panics at the assignment;
it yields no document, for any issue, commit and commit list. -/
theorem C15_UpdateIssueTracking_nil_map_panics :
    Unmarshal "\x7b\"issues\": null\x7d" (.ofData { Issues := [] }) = .ok Document.nilIssues ∧
    Document.nilIssues.GetIssueTracking "7"
      = { ForkPoint := "", LastMergedCommit := "", MergedCommits := [] } ∧
    Document.UpdateIssueTracking Document.nilIssues "7" "c3" ["c3", "c2", "c1"]
      = .error "assignment to entry in nil map" ∧
    ∀ (i c : String) (cs : List String),
      Document.UpdateIssueTracking Document.nilIssues i c cs = .error nilMapPanic :=
  ⟨rfl, rfl, rfl, fun _ _ _ => rfl⟩

/-- C16, the code at a failing input: the tracking file holds `null` for `issues`, so
`Load` returns the document whose `Issues` map is nil. `SetForkPoint("9", "f0")`
panics at the assignment and yields no document, and `mob init 9` ends in that panic
after it has created the branch `wip/9`: no fork point is stored, and
`GetForkPoint("9")` on the document is still empty. -/
theorem C16_SetForkPoint_nil_map_panics :
    Bytes.Load encodingJson demoOs nullIssuesFiles = .ok Document.nilIssues ∧
    Store.ofFiles encodingJson nullIssuesFiles "/repo/.mob/tracking.json" = Store.nilIssues ∧
    Document.SetForkPoint Document.nilIssues "9" "f0"
      = .error "assignment to entry in nil map" ∧
    (∀ i c : String, Document.SetForkPoint Document.nilIssues i c = .error nilMapPanic) ∧
    (LoadDocument initWorld
      { log := [Event.output ["rev-parse", "HEAD"], Event.run ["checkout", "-b", "wip/9"]],
        store := Store.nilIssues }).2 = .ok Document.nilIssues ∧
    initCmd.Run initWorld noIssues ["9"] "" { log := [], store := Store.nilIssues }
      = ({ log := [Event.output ["rev-parse", "HEAD"],
                   Event.run ["checkout", "-b", "wip/9"], Event.load],
           store := Store.nilIssues },
         some "panic: assignment to entry in nil map") ∧
    (Document.nilIssues.GetIssueTracking "9").ForkPoint = "" :=
  ⟨rfl, rfl, rfl, fun _ _ => rfl, rfl, by decide, rfl⟩

/-- C17: for every tracking document and issue, `GetForkPoint(i)` is the `forkPoint`
of the issue's entry when the document has one, and the empty string when it has
none. -/
theorem C17_GetForkPoint_stored_or_empty (d : TrackingData) (i : String) :
    (∀ e : IssueTracking, d.Issues.lookup i = some e → d.GetForkPoint i = e.ForkPoint) ∧
    (d.Issues.lookup i = none → d.GetForkPoint i = "") := by
  constructor
  · intro e he
    simp [TrackingData.GetForkPoint, TrackingData.GetIssueTracking, he]
  · intro hn
    simp [TrackingData.GetForkPoint, TrackingData.GetIssueTracking, hn]

/-- Witness of C17: issue `7` has the fork point `f0`, issue `9` has no entry. -/
theorem C17_GetForkPoint_stored_or_empty_witness :
    demoDoc.GetForkPoint "7" = "f0" ∧ demoDoc.GetForkPoint "9" = "" :=
  ⟨(C17_GetForkPoint_stored_or_empty demoDoc "7").1
    { ForkPoint := "f0", LastMergedCommit := "", MergedCommits := [] } (by decide),
   (C17_GetForkPoint_stored_or_empty demoDoc "9").2 (by decide)⟩

/-- C20: for every issue and commit list `A`, two tracking documents whose entries
for the issue have the same `mergedCommits` give the same `GetUnmergedCommits(i, A)`,
whatever their `lastMergedCommit` and `forkPoint` are. -/
theorem C20_delta_depends_on_mergedCommits_only (d1 d2 : TrackingData) (i : String)
    (A : List String)
    (h : (d1.GetIssueTracking i).MergedCommits = (d2.GetIssueTracking i).MergedCommits) :
    d1.GetUnmergedCommits i A = d2.GetUnmergedCommits i A :=
  GetUnmergedCommits_congr d1 d2 i i A (fun x => by rw [h])

/-- Witness of C20: two documents that differ in the fork point and the last merged
commit of issue `7`. -/
theorem C20_delta_depends_on_mergedCommits_only_witness :
    mergedDoc.GetUnmergedCommits "7" ["c4", "c3"]
      = otherFieldsDoc.GetUnmergedCommits "7" ["c4", "c3"] :=
  C20_delta_depends_on_mergedCommits_only mergedDoc otherFieldsDoc "7" ["c4", "c3"] (by decide)

/-! ## The claims on the checks of the update command -/

theorem RunE_readOnly_of_prepare_inl (w : World) (message : String) (s0 s : Sys)
    (r : Option String) (h : updateCmd.prepare w s0 = (s, .inl r)) :
    updateCmd.RunE w message s0 = (s, r) ∧ ReadOnlyFrom s0 s := by
  refine ⟨RunE_of_prepare_inl w message s0 s r h, ?_⟩
  have := prepare_frame w s0
  rw [h] at this
  exact this

/-- C11: in every update run in which the current branch name does not start with
`wip/`, or in which it does and the loaded tracking document has no fork point (the
empty string) for the issue, `RunE` returns an error, the message for the branch in
the first case and the message for the fork point in the second, and the state it
leaves is reached by read-only calls: no call changes the repository, none writes
the tracking file, and the tracking file is unchanged. -/
theorem C11_usage_errors_issue_no_mutation (w : World) (message : String) (s0 sa : Sys)
    (cur : String) (hcur : CurrentBranch w s0 = (sa, .ok cur))
    (hbad : HasPrefix cur "wip/" = false ∨
      ∃ (sb : Sys) (t : TrackingData), Load w sa = (sb, .ok t) ∧
        t.GetForkPoint (TrimPrefix cur "wip/") = "") :
    (updateCmd.RunE w message s0).2
      = some (if HasPrefix cur "wip/" = true then
          "no fork point found for this issue. Was this branch created with 'mob init'?"
        else "not on a wip branch. Please checkout a wip/<issue> branch first") ∧
    ReadOnlyFrom s0 (updateCmd.RunE w message s0).1 ∧
    (updateCmd.RunE w message s0).1.store = s0.store ∧
    ∀ ev ∈ (updateCmd.RunE w message s0).1.log, ev ∉ s0.log →
      ev.isMutating = false ∧ ev.isSave = false := by
  have key : ∃ s : Sys, updateCmd.prepare w s0
      = (s, .inl (some (if HasPrefix cur "wip/" = true then
          "no fork point found for this issue. Was this branch created with 'mob init'?"
        else "not on a wip branch. Please checkout a wip/<issue> branch first"))) := by
    cases hp : HasPrefix cur "wip/" with
    | false =>
      refine ⟨sa, ?_⟩
      unfold updateCmd.prepare
      simp [hcur, hp]
    | true =>
      rcases hbad with h | ⟨sb, t, hl, hf⟩
      · rw [hp] at h; exact absurd h (by decide)
      · refine ⟨sb, ?_⟩
        unfold updateCmd.prepare
        simp [hcur, hp, hl, hf]
  obtain ⟨s, hs⟩ := key
  obtain ⟨hrun, hro⟩ := RunE_readOnly_of_prepare_inl w message s0 s _ hs
  rw [hrun]
  refine ⟨rfl, hro, ?_, ?_⟩
  · obtain ⟨qs, rfl, -⟩ := hro
    rfl
  · obtain ⟨qs, rfl, hqs⟩ := hro
    intro ev hev hnot
    rcases List.mem_append.mp hev with h | h
    · exact absurd h hnot
    · exact hqs ev h

/-- Witness of C11: a run on the branch `main`, and a run on `wip/9`, an issue
without a fork point. -/
theorem C11_usage_errors_issue_no_mutation_witness :
    updateCmd.RunE notWipWorld "msg" demoStart
      = ({ log := [Event.output ["rev-parse", "--abbrev-ref", "HEAD"]],
           store := Store.doc demoDoc },
         some "not on a wip branch. Please checkout a wip/<issue> branch first") ∧
    updateCmd.RunE noForkPointWorld "msg" demoStart
      = ({ log := [Event.output ["rev-parse", "--abbrev-ref", "HEAD"], Event.load],
           store := Store.doc demoDoc },
         some "no fork point found for this issue. Was this branch created with 'mob init'?") ∧
    ReadOnlyFrom demoStart (updateCmd.RunE notWipWorld "msg" demoStart).1 ∧
    ReadOnlyFrom demoStart (updateCmd.RunE noForkPointWorld "msg" demoStart).1 :=
  ⟨by decide, by decide,
   (C11_usage_errors_issue_no_mutation notWipWorld "msg" demoStart
    { log := [Event.output ["rev-parse", "--abbrev-ref", "HEAD"]], store := Store.doc demoDoc }
    "main" rfl (Or.inl (by decide))).2.1,
   (C11_usage_errors_issue_no_mutation noForkPointWorld "msg" demoStart
    { log := [Event.output ["rev-parse", "--abbrev-ref", "HEAD"]], store := Store.doc demoDoc }
    "wip/9" rfl
    (Or.inr ⟨{ log := [Event.output ["rev-parse", "--abbrev-ref", "HEAD"], Event.load],
               store := Store.doc demoDoc }, demoDoc, rfl, by decide⟩)).2.1⟩

/-- C12, the code at a failing input: `mob update -m ""`, a first update of issue `7`
in which every command but the commit succeeds. `RunE` runs with the empty message,
checks out the fork point, creates `pr/7`, squash-merges and runs
`git commit -m ""`; when that fails the rollback is issued and the error returned is
a rolled-back failure of the commit step, not a usage error. The run has started
six `git` commands through `git.Run`. -/
theorem C12_empty_message_reaches_commit :
    updateCmd.RunE emptyMessageWorld "" demoStart
      = ({ log := queriesNoPr ++
            [Event.run ["checkout", "f0"], Event.run ["checkout", "-b", "pr/7"],
             Event.run ["merge", "--squash", "-X", "theirs", "wip/7"],
             Event.run ["commit", "-m", ""],
             Event.run ["merge", "--abort"], Event.run ["checkout", "wip/7"]],
           store := Store.doc demoDoc },
         some "error creating squash commit: exit status 1 (changes rolled back)") ∧
    carriesRolledBack "error creating squash commit: exit status 1 (changes rolled back)" ∧
    ((updateCmd.RunE emptyMessageWorld "" demoStart).1.log.filter Event.isMutating).length
      = 6 := by
  decide

/-! ## The claims on loading and saving the tracking file -/

theorem Bytes_Load_eq_LoadDocument (j : Json) (os : Os) (fs : Files) (path o : String)
    (w : World) (s : Sys) (hpath : getTrackingPath os = .ok path)
    (hread : os.readError path = none)
    (hw : w.outcome s.log Event.load = .ok o) (hs : s.store = Store.ofFiles j fs path) :
    Bytes.Load j os fs = (LoadDocument w s).2 := by
  unfold Bytes.Load LoadDocument ReadFile
  simp only [hpath, hw, hs, hread, Store.ofFiles]
  cases hf : fs path with
  | none => rfl
  | some data =>
    cases hu : j.Unmarshal data (.ofData { Issues := [] }) with
    | error e => simp [hu]
    | ok d => cases d <;> simp [hu, Store.ofDocument]

theorem Bytes_Save_ok (j : Json) (os : Os) (fs fs' : Files) (t : Document)
    (h : Bytes.Save j os fs t = (fs', none)) :
    ∃ path data : String, getTrackingPath os = .ok path ∧ j.MarshalIndent t = .ok data ∧
      fs' = fun p => if p = path then some data else fs p := by
  unfold Bytes.Save at h
  cases hp : getTrackingPath os with
  | error e => simp [hp] at h
  | ok path =>
    simp only [hp] at h
    cases hd : os.mkdirError (filepathDir path) with
    | some e => simp [hd] at h
    | none =>
      simp only [hd] at h
      cases hm : j.MarshalIndent t with
      | error e => simp [hm] at h
      | ok data =>
        simp only [hm] at h
        cases hw : os.writeError path with
        | some e => simp [hw] at h
        | none =>
          simp only [hw, Prod.mk.injEq, and_true] at h
          exact ⟨path, data, rfl, rfl, h.symm⟩

theorem hexValue_hexDigit (k : Nat) (h : k < 16) : hexValue (hexDigit k) = some k := by
  revert k
  decide

theorem hex4_byte (n : Nat) (h : n < 256) :
    hex4 '0' '0' (hexDigit (n / 16)) (hexDigit (n % 16)) = some n := by
  have h1 : hexValue (hexDigit (n / 16)) = some (n / 16) := hexValue_hexDigit _ (by omega)
  have h2 : hexValue (hexDigit (n % 16)) = some (n % 16) := hexValue_hexDigit _ (by omega)
  have h0 : hexValue '0' = some 0 := by decide
  simp only [hex4, h0, h1, h2]
  congr 1
  omega

theorem scanString_u (a b c d : Char) (rest acc : List Char) (n : Nat)
    (h : hex4 a b c d = some n) (hn : n < 0xD800) :
    scanString ('\\' :: 'u' :: a :: b :: c :: d :: rest) 0 acc
      = scanString rest 0 (Char.ofNat n :: acc) := by
  have h1 : ¬ (0xD800 ≤ n ∧ n < 0xE000) := by omega
  rw [scanString.eq_def]
  simp [h, h1]

theorem scanString_simple (e ch : Char) (rest acc : List Char) (he : e ≠ 'u')
    (h : simpleEscape e = some ch) :
    scanString ('\\' :: e :: rest) 0 acc = scanString rest 0 (ch :: acc) := by
  rw [scanString.eq_def]
  simp [he, h]

theorem scanString_plain (c : Char) (rest acc : List Char) (h1 : c ≠ '"') (h2 : c ≠ '\\')
    (h3 : ¬ c.toNat < 0x20) :
    scanString (c :: rest) 0 acc = scanString rest 0 (c :: acc) := by
  rw [scanString.eq_def]
  simp [h1, h2, h3]

theorem char_eq_of_toNat (c : Char) (n : Nat) (h : c.toNat = n) : c = Char.ofNat n := by
  rw [← h, Char.ofNat_toNat]

theorem scanString_escapeChar (c : Char) (rest acc : List Char) :
    scanString (escapeChar c ++ rest) 0 acc = scanString rest 0 (c :: acc) := by
  unfold escapeChar
  by_cases h1 : c = '"'
  · rw [if_pos h1, h1]
    exact scanString_simple '"' '"' rest acc (by decide) (by decide)
  rw [if_neg h1]
  by_cases h2 : c = '\\'
  · rw [if_pos h2, h2]
    exact scanString_simple '\\' '\\' rest acc (by decide) (by decide)
  rw [if_neg h2]
  by_cases h3 : c.toNat = 8
  · rw [if_pos h3, char_eq_of_toNat c 8 h3]
    exact scanString_simple 'b' (Char.ofNat 8) rest acc (by decide) (by decide)
  rw [if_neg h3]
  by_cases h4 : c.toNat = 12
  · rw [if_pos h4, char_eq_of_toNat c 12 h4]
    exact scanString_simple 'f' (Char.ofNat 12) rest acc (by decide) (by decide)
  rw [if_neg h4]
  by_cases h5 : c = '\n'
  · rw [if_pos h5, h5]
    exact scanString_simple 'n' '\n' rest acc (by decide) (by decide)
  rw [if_neg h5]
  by_cases h6 : c = '\r'
  · rw [if_pos h6, h6]
    exact scanString_simple 'r' '\r' rest acc (by decide) (by decide)
  rw [if_neg h6]
  by_cases h7 : c = '\t'
  · rw [if_pos h7, h7]
    exact scanString_simple 't' '\t' rest acc (by decide) (by decide)
  rw [if_neg h7]
  by_cases h8 : c.toNat < 0x20 ∨ c = '<' ∨ c = '>' ∨ c = '&'
  · rw [if_pos h8]
    have hn : c.toNat < 256 := by
      rcases h8 with h | h | h | h
      · omega
      · rw [h]; decide
      · rw [h]; decide
      · rw [h]; decide
    have := scanString_u '0' '0' (hexDigit (c.toNat / 16)) (hexDigit (c.toNat % 16)) rest acc
      c.toNat (hex4_byte c.toNat hn) (by omega)
    rw [Char.ofNat_toNat] at this
    exact this
  rw [if_neg h8]
  by_cases h9 : c.toNat = 0x2028
  · rw [if_pos h9, char_eq_of_toNat c 0x2028 h9]
    exact scanString_u '2' '0' '2' '8' rest acc 0x2028 (by decide) (by decide)
  rw [if_neg h9]
  by_cases h10 : c.toNat = 0x2029
  · rw [if_pos h10, char_eq_of_toNat c 0x2029 h10]
    exact scanString_u '2' '0' '2' '9' rest acc 0x2029 (by decide) (by decide)
  rw [if_neg h10]
  push_neg at h8
  exact scanString_plain c rest acc h1 h2 (by omega)

theorem scanString_escape (cs rest acc : List Char) :
    scanString (escape cs ++ '"' :: rest) 0 acc = some (⟨acc.reverse ++ cs⟩, rest) := by
  induction cs generalizing acc with
  | nil =>
    rw [scanString.eq_def]
    simp [escape]
  | cons c cs ih =>
    simp only [escape, List.append_assoc]
    rw [scanString_escapeChar, ih]
    simp

theorem skipSpace_indent (n : Nat) (x : List Char) : skipSpace (indent n ++ x) = skipSpace x := by
  unfold indent
  induction (2 * n) with
  | zero => rfl
  | succ k ih =>
    simp only [List.replicate_succ, List.cons_append, skipSpace, List.dropWhile_cons]
    simp only [skipSpace] at ih
    rw [ih]
    simp [isJsonSpace]

theorem skipSpace_nl_indent (n : Nat) (x : List Char) :
    skipSpace ('\n' :: indent n ++ x) = skipSpace x := by
  have : skipSpace ('\n' :: indent n ++ x) = skipSpace (indent n ++ x) := by
    simp [skipSpace, isJsonSpace]
  rw [this, skipSpace_indent]

theorem skipSpace_space (x : List Char) : skipSpace (' ' :: x) = skipSpace x := by
  simp [skipSpace, isJsonSpace]

theorem skipSpace_cons (c : Char) (x : List Char) (h : isJsonSpace c = false) :
    skipSpace (c :: x) = c :: x := by
  simp [skipSpace, h]

theorem skipSpace_quote (s : String) (x : List Char) :
    skipSpace (quote s ++ x) = quote s ++ x := by
  simp [quote, skipSpace, isJsonSpace]

theorem parseValue_congr (fuel depth : Nat) (x y : List Char) (h : skipSpace x = skipSpace y) :
    parseValue fuel depth x = parseValue fuel depth y := by
  cases fuel with
  | zero => simp [parseValue]
  | succ f => rw [parseValue, parseValue, h]

theorem parseElements_congr (fuel depth : Nat) (x y : List Char) (acc : List JValue)
    (h : skipSpace x = skipSpace y) :
    parseElements fuel depth x acc = parseElements fuel depth y acc := by
  cases fuel with
  | zero => simp [parseElements]
  | succ f => rw [parseElements, parseElements, parseValue_congr f depth x y h]

theorem parseMembers_congr (fuel depth : Nat) (x y : List Char) (acc : List (String × JValue))
    (h : skipSpace x = skipSpace y) :
    parseMembers fuel depth x acc = parseMembers fuel depth y acc := by
  cases fuel with
  | zero => simp [parseMembers]
  | succ f => rw [parseMembers, parseMembers, h]

theorem parseValue_string (fuel depth : Nat) (s : String) (rest : List Char) :
    parseValue (fuel + 1) depth (quote s ++ rest) = some (.string s, rest) := by
  rw [parseValue, skipSpace_quote]
  simp [quote, scanString_escape]

theorem parseValue_nl_indent (fuel depth n : Nat) (x : List Char) :
    parseValue fuel depth ('\n' :: indent n ++ x) = parseValue fuel depth x :=
  parseValue_congr fuel depth _ _ (skipSpace_nl_indent n x)

theorem parseValue_space (fuel depth : Nat) (x : List Char) :
    parseValue fuel depth (' ' :: x) = parseValue fuel depth x :=
  parseValue_congr fuel depth _ _ (skipSpace_space x)

theorem parseElements_encodeElements (n depth : Nat) (l : List String) :
    ∀ (s : String) (fuel : Nat) (acc : List JValue) (rest : List Char),
    l.length + 2 ≤ fuel →
    parseElements fuel depth (encodeElements n (s :: l) ++ rest) acc
      = some (.array (acc.reverse ++ (s :: l).map JValue.string), rest) := by
  induction l with
  | nil =>
    intro s fuel acc rest hf
    obtain ⟨f, rfl⟩ : ∃ f, fuel = f + 2 := ⟨fuel - 2, by omega⟩
    have e1 : encodeElements n [s] ++ rest
        = '\n' :: indent (n + 1) ++ (quote s ++ ('\n' :: indent n ++ (']' :: rest))) := by
      simp [encodeElements]
    rw [e1, parseElements, parseValue_nl_indent, parseValue_string]
    simp only []
    rw [skipSpace_nl_indent, skipSpace_cons ']' rest (by decide)]
    simp
  | cons s2 l ih =>
    intro s fuel acc rest hf
    obtain ⟨f, rfl⟩ : ∃ f, fuel = f + 2 := ⟨fuel - 2, by omega⟩
    have e1 : encodeElements n (s :: s2 :: l) ++ rest
        = '\n' :: indent (n + 1) ++ (quote s ++ (',' :: (encodeElements n (s2 :: l) ++ rest))) := by
      simp [encodeElements]
    rw [e1, parseElements, parseValue_nl_indent, parseValue_string]
    simp only []
    rw [skipSpace_cons ',' _ (by decide)]
    simp only [↓reduceIte]
    rw [ih s2 (f + 1) (JValue.string s :: acc) rest (by simp at hf ⊢; omega)]
    simp

theorem skipSpace_encodeElements (n : Nat) (s : String) (l : List String) (rest : List Char) :
    ∃ t : List Char, skipSpace (encodeElements n (s :: l) ++ rest) = '"' :: t := by
  cases l with
  | nil =>
    refine ⟨escape s.data ++ ('"' :: '\n' :: (indent n ++ ']' :: rest)), ?_⟩
    have e1 : encodeElements n [s] ++ rest
        = '\n' :: indent (n + 1) ++ (quote s ++ ('\n' :: indent n ++ (']' :: rest))) := by
      simp [encodeElements]
    rw [e1, skipSpace_nl_indent, skipSpace_quote]
    simp [quote]
  | cons s2 l =>
    refine ⟨escape s.data ++ ('"' :: ',' :: (encodeElements n (s2 :: l) ++ rest)), ?_⟩
    have e1 : encodeElements n (s :: s2 :: l) ++ rest
        = '\n' :: indent (n + 1) ++ (quote s ++ (',' :: (encodeElements n (s2 :: l) ++ rest))) := by
      simp [encodeElements]
    rw [e1, skipSpace_nl_indent, skipSpace_quote]
    simp [quote]

theorem parseValue_encodeStrings (n depth fuel : Nat) (l : List String) (rest : List Char)
    (hd : depth < maxNestingDepth) (hf : l.length + 2 ≤ fuel) :
    parseValue fuel depth (encodeStrings n l ++ rest) = some (.array (l.map JValue.string), rest) := by
  obtain ⟨f, rfl⟩ : ∃ f, fuel = f + 1 := ⟨fuel - 1, by omega⟩
  have hd' : ¬ maxNestingDepth ≤ depth := by omega
  cases l with
  | nil =>
    have e1 : encodeStrings n [] ++ rest = '[' :: ']' :: rest := by simp [encodeStrings]
    rw [e1, parseValue, skipSpace_cons '[' _ (by decide)]
    simp only [hd']
    rw [skipSpace_cons ']' _ (by decide)]
    simp
  | cons s l =>
    have e1 : encodeStrings n (s :: l) ++ rest = '[' :: (encodeElements n (s :: l) ++ rest) := by
      simp [encodeStrings]
    obtain ⟨t, ht⟩ := skipSpace_encodeElements n s l rest
    rw [e1, parseValue, skipSpace_cons '[' _ (by decide)]
    simp only [hd']
    rw [ht]
    simp only [↓reduceIte]
    have := parseElements_encodeElements n (depth + 1) l s f [] rest (by simp at hf ⊢; omega)
    simpa using this

theorem parseMembers_comma (f depth n : Nat) (name : String) (x tail tail' : List Char)
    (v : JValue) (acc : List (String × JValue))
    (hv : parseValue f depth x = some (v, tail)) (ht : skipSpace tail = ',' :: tail') :
    parseMembers (f + 1) depth ('\n' :: indent n ++ (quote name ++ (':' :: x))) acc
      = parseMembers f depth tail' ((name, v) :: acc) := by
  rw [parseMembers, skipSpace_nl_indent, skipSpace_quote]
  simp only [quote, List.cons_append, List.append_assoc, List.nil_append, ↓reduceIte,
    scanString_escape, List.reverse_nil]
  rw [skipSpace_cons ':' _ (by decide)]
  simp only [↓reduceIte, hv, ht]

theorem parseMembers_close (f depth n : Nat) (name : String) (x tail tail' : List Char)
    (v : JValue) (acc : List (String × JValue))
    (hv : parseValue f depth x = some (v, tail)) (ht : skipSpace tail = '}' :: tail') :
    parseMembers (f + 1) depth ('\n' :: indent n ++ (quote name ++ (':' :: x))) acc
      = some (.object ((name, v) :: acc).reverse, tail') := by
  rw [parseMembers, skipSpace_nl_indent, skipSpace_quote]
  simp only [quote, List.cons_append, List.append_assoc, List.nil_append, ↓reduceIte,
    scanString_escape, List.reverse_nil]
  rw [skipSpace_cons ':' _ (by decide)]
  simp only [↓reduceIte, hv, ht]
  simp

theorem parseValue_object (f depth : Nat) (x t : List Char) (c1 : Char)
    (hd : depth < maxNestingDepth) (hx : skipSpace x = c1 :: t) (hc : c1 ≠ '}') :
    parseValue (f + 1) depth ('{' :: x) = parseMembers f (depth + 1) x [] := by
  have hd' : ¬ maxNestingDepth ≤ depth := by omega
  rw [parseValue, skipSpace_cons '{' _ (by decide)]
  simp [hd', hx, hc]

theorem skipSpace_nl_indent_quote (n : Nat) (s : String) (x : List Char) :
    skipSpace ('\n' :: indent n ++ (quote s ++ x)) = '"' :: (escape s.data ++ ('"' :: x)) := by
  rw [skipSpace_nl_indent, skipSpace_quote]
  simp [quote]

theorem parseMembers_string_comma (f depth n : Nat) (name value : String) (tail : List Char)
    (acc : List (String × JValue)) :
    parseMembers (f + 2) depth
        ('\n' :: indent n ++ (quote name ++ (':' :: ' ' :: (quote value ++ (',' :: tail))))) acc
      = parseMembers (f + 1) depth tail ((name, .string value) :: acc) :=
  parseMembers_comma (f + 1) depth n name _ _ _ _ acc
    (by rw [parseValue_space]; exact parseValue_string f depth value (',' :: tail))
    (skipSpace_cons ',' _ (by decide))

theorem parseMembers_strings_close (f depth n m k : Nat) (name : String) (l : List String)
    (rest : List Char) (acc : List (String × JValue)) (hd : depth < maxNestingDepth)
    (hf : l.length + 2 ≤ f) :
    parseMembers (f + 1) depth
        ('\n' :: indent n ++ (quote name ++
          (':' :: ' ' :: (encodeStrings m l ++ ('\n' :: indent k ++ ('}' :: rest)))))) acc
      = some (.object ((name, .array (l.map JValue.string)) :: acc).reverse, rest) :=
  parseMembers_close f depth n name _ _ _ _ acc
    (by rw [parseValue_space]; exact parseValue_encodeStrings m depth f l _ hd hf)
    (by rw [skipSpace_nl_indent, skipSpace_cons '}' _ (by decide)])

theorem parseValue_encodeIssueTracking (n depth fuel : Nat) (e : IssueTracking)
    (rest : List Char) (hd : depth + 1 < maxNestingDepth)
    (hf : e.MergedCommits.length + 6 ≤ fuel) :
    parseValue fuel depth (encodeIssueTracking n e ++ rest) = some (issueTrackingValue e, rest) := by
  obtain ⟨f, rfl⟩ : ∃ f, fuel = f + 4 := ⟨fuel - 4, by omega⟩
  have e1 : encodeIssueTracking n e ++ rest
      = '{' :: ('\n' :: indent (n + 1) ++ (quote "fork_point" ++ (':' :: ' ' :: (quote e.ForkPoint ++
        (',' :: ('\n' :: indent (n + 1) ++ (quote "last_merged_commit" ++ (':' :: ' ' ::
          (quote e.LastMergedCommit ++
        (',' :: ('\n' :: indent (n + 1) ++ (quote "merged_commits" ++ (':' :: ' ' ::
          (encodeStrings (n + 1) e.MergedCommits ++
        ('\n' :: indent n ++ ('}' :: rest)))))))))))))))) := by
    simp [encodeIssueTracking]
  rw [e1, parseValue_object (f + 3) depth _ _ '"' (by omega)
    (skipSpace_nl_indent_quote (n + 1) "fork_point" _) (by decide)]
  rw [parseMembers_string_comma, parseMembers_string_comma,
    parseMembers_strings_close f (depth + 1) _ _ _ _ _ _ _ hd (by omega)]
  simp [issueTrackingValue]

theorem parseMembers_encodeMembers (n depth : Nat) (es : List (String × IssueTracking)) :
    ∀ (p : String × IssueTracking) (fuel : Nat) (acc : List (String × JValue))
      (rest : List Char),
    needMembers (p :: es) ≤ fuel → depth + 1 < maxNestingDepth →
    parseMembers fuel depth (encodeMembers n (p :: es) ++ rest) acc
      = some (.object (acc.reverse ++ (p :: es).map (fun p => (p.1, issueTrackingValue p.2))),
          rest) := by
  induction es with
  | nil =>
    intro p fuel acc rest hf hd
    obtain ⟨k, e⟩ := p
    obtain ⟨f, rfl⟩ : ∃ f, fuel = f + 1 := ⟨fuel - 1, by simp [needMembers] at hf; omega⟩
    have e1 : encodeMembers n [(k, e)] ++ rest
        = '\n' :: indent (n + 1) ++ (quote k ++ (':' :: (' ' :: (encodeIssueTracking (n + 1) e ++
            ('\n' :: indent n ++ ('}' :: rest)))))) := by
      simp [encodeMembers]
    rw [e1, parseMembers_close f depth (n + 1) k _ _ rest (issueTrackingValue e) acc
      (by rw [parseValue_space]
          exact parseValue_encodeIssueTracking (n + 1) depth f e _ hd
            (by simp [needMembers] at hf; omega))
      (by rw [skipSpace_nl_indent, skipSpace_cons '}' _ (by decide)])]
    simp
  | cons p2 es ih =>
    intro p fuel acc rest hf hd
    obtain ⟨k, e⟩ := p
    obtain ⟨f, rfl⟩ : ∃ f, fuel = f + 1 := ⟨fuel - 1, by simp [needMembers] at hf; omega⟩
    have e1 : encodeMembers n ((k, e) :: p2 :: es) ++ rest
        = '\n' :: indent (n + 1) ++ (quote k ++ (':' :: (' ' :: (encodeIssueTracking (n + 1) e ++
            (',' :: (encodeMembers n (p2 :: es) ++ rest)))))) := by
      simp [encodeMembers]
    rw [e1, parseMembers_comma f depth (n + 1) k _ _ _ (issueTrackingValue e) acc
      (by rw [parseValue_space]
          exact parseValue_encodeIssueTracking (n + 1) depth f e _ hd
            (by simp [needMembers] at hf; omega))
      (skipSpace_cons ',' _ (by decide))]
    rw [ih p2 f _ rest (by simp [needMembers] at hf ⊢; omega) hd]
    simp

theorem skipSpace_encodeMembers (n : Nat) (p : String × IssueTracking)
    (es : List (String × IssueTracking)) (rest : List Char) :
    ∃ t : List Char, skipSpace (encodeMembers n (p :: es) ++ rest) = '"' :: t := by
  obtain ⟨k, e⟩ := p
  cases es with
  | nil =>
    have e1 : encodeMembers n [(k, e)] ++ rest
        = '\n' :: indent (n + 1) ++ (quote k ++ (':' :: (' ' :: (encodeIssueTracking (n + 1) e ++
            ('\n' :: indent n ++ ('}' :: rest)))))) := by
      simp [encodeMembers]
    exact ⟨_, by rw [e1, skipSpace_nl_indent_quote]⟩
  | cons p2 es =>
    have e1 : encodeMembers n ((k, e) :: p2 :: es) ++ rest
        = '\n' :: indent (n + 1) ++ (quote k ++ (':' :: (' ' :: (encodeIssueTracking (n + 1) e ++
            (',' :: (encodeMembers n (p2 :: es) ++ rest)))))) := by
      simp [encodeMembers]
    exact ⟨_, by rw [e1, skipSpace_nl_indent_quote]⟩

theorem parseValue_encodeEntries (n depth fuel : Nat) (es : List (String × IssueTracking))
    (rest : List Char) (hd : depth + 2 < maxNestingDepth) (hf : needMembers es + 1 ≤ fuel) :
    parseValue fuel depth (encodeEntries n es ++ rest) = some (issuesValue es, rest) := by
  obtain ⟨f, rfl⟩ : ∃ f, fuel = f + 1 := ⟨fuel - 1, by omega⟩
  cases es with
  | nil =>
    have hd' : ¬ maxNestingDepth ≤ depth := by omega
    have e1 : encodeEntries n [] ++ rest = '{' :: '}' :: rest := by simp [encodeEntries]
    rw [e1, parseValue, skipSpace_cons '{' _ (by decide)]
    simp only [hd']
    rw [skipSpace_cons '}' _ (by decide)]
    simp [issuesValue]
  | cons p es =>
    have e1 : encodeEntries n (p :: es) ++ rest = '{' :: (encodeMembers n (p :: es) ++ rest) := by
      simp [encodeEntries]
    obtain ⟨t, ht⟩ := skipSpace_encodeMembers n p es rest
    rw [e1, parseValue_object f depth _ t '"' (by omega) ht (by decide),
      parseMembers_encodeMembers n (depth + 1) es p f [] rest (by omega) (by omega)]
    simp [issuesValue]

theorem length_encodeElements (n : Nat) (l : List String) :
    l.length ≤ (encodeElements n l).length := by
  induction l with
  | nil => simp
  | cons s l ih =>
    cases l with
    | nil => simp [encodeElements]
    | cons s2 l =>
      simp only [encodeElements, List.length_cons, List.length_append] at ih ⊢
      omega

theorem length_encodeIssueTracking (n : Nat) (e : IssueTracking) :
    e.MergedCommits.length + 7 ≤ (encodeIssueTracking n e).length := by
  have h : e.MergedCommits.length ≤ (encodeStrings (n + 1) e.MergedCommits).length := by
    cases hl : e.MergedCommits with
    | nil => simp
    | cons s l =>
      have := length_encodeElements (n + 1) (s :: l)
      simp only [encodeStrings, List.length_cons] at this ⊢
      omega
  simp only [encodeIssueTracking, List.length_cons, List.length_append]
  omega

theorem length_encodeMembers (n : Nat) (es : List (String × IssueTracking)) :
    needMembers es ≤ (encodeMembers n es).length := by
  induction es with
  | nil => simp [needMembers]
  | cons p es ih =>
    obtain ⟨k, e⟩ := p
    have he := length_encodeIssueTracking (n + 1) e
    cases es with
    | nil =>
      simp only [encodeMembers, needMembers, List.length_cons, List.length_append]
      omega
    | cons p2 es =>
      simp only [encodeMembers, needMembers, List.length_cons, List.length_append] at ih ⊢
      omega

theorem length_encodeEntries (n : Nat) (es : List (String × IssueTracking)) :
    needMembers es ≤ (encodeEntries n es).length := by
  cases es with
  | nil => simp [needMembers]
  | cons p es =>
    have := length_encodeMembers n (p :: es)
    simp only [encodeEntries, List.length_cons]
    omega

theorem parseValue_null (f depth : Nat) (rest : List Char) :
    parseValue (f + 1) depth ('n' :: 'u' :: 'l' :: 'l' :: rest) = some (.null, rest) := by
  rw [parseValue, skipSpace_cons 'n' _ (by decide)]
  simp [scanWord]

theorem parseJson_MarshalIndent (t : Document) :
    parseJson (MarshalIndent t).data = some (documentValue t) := by
  unfold parseJson
  cases t with
  | nilIssues =>
    have e1 : (MarshalIndent .nilIssues).data
        = '{' :: ('\n' :: indent 1 ++ (quote "issues" ++ (':' :: (' ' ::
            ('n' :: 'u' :: 'l' :: 'l' :: ['\n', '}']))))) := by
      simp [MarshalIndent]
    have hlen : 1 ≤ (MarshalIndent .nilIssues).data.length := by
      rw [e1]
      simp
    obtain ⟨f, hf⟩ : ∃ f, 2 * (MarshalIndent .nilIssues).data.length + 2 = f + 3 :=
      ⟨2 * (MarshalIndent .nilIssues).data.length - 1, by omega⟩
    rw [hf, e1, parseValue_object (f + 2) 0 _ _ '"' (by decide)
      (skipSpace_nl_indent_quote 1 "issues" _) (by decide),
      parseMembers_close (f + 1) 1 1 "issues" _ ['\n', '}'] [] .null []
        (by rw [parseValue_space]; exact parseValue_null f 1 _) (by decide)]
    simp [documentValue, skipSpace]
  | ofData d =>
    have e1 : (MarshalIndent (.ofData d)).data
        = '{' :: ('\n' :: indent 1 ++ (quote "issues" ++ (':' :: (' ' ::
            (encodeEntries 1 (sortedEntries d.Issues) ++ ['\n', '}']))))) := by
      simp [MarshalIndent, encodeIssues]
    have hlen : needMembers (sortedEntries d.Issues) + 3
        ≤ 2 * (MarshalIndent (.ofData d)).data.length + 2 := by
      have := length_encodeEntries 1 (sortedEntries d.Issues)
      rw [e1]
      simp only [List.length_cons, List.length_append]
      omega
    obtain ⟨f, hf⟩ : ∃ f, 2 * (MarshalIndent (.ofData d)).data.length + 2 = f + 2 :=
      ⟨2 * (MarshalIndent (.ofData d)).data.length, by omega⟩
    rw [hf] at hlen
    rw [hf, e1, parseValue_object (f + 1) 0 _ _ '"' (by decide)
      (skipSpace_nl_indent_quote 1 "issues" _) (by decide),
      parseMembers_close f 1 1 "issues" _ ['\n', '}'] []
        (issuesValue (sortedEntries d.Issues)) []
        (by rw [parseValue_space]
            exact parseValue_encodeEntries 1 1 f _ _ (by decide) (by omega))
        (by decide)]
    simp [documentValue, skipSpace]

theorem decodeStrings_map (l : List String) : decodeStrings (l.map JValue.string) = .ok l := by
  induction l with
  | nil => rfl
  | cons s l ih => simp [decodeStrings, ih]

theorem decodeIssueTracking_value (e : IssueTracking) :
    decodeIssueTracking
        [("fork_point", .string e.ForkPoint),
         ("last_merged_commit", .string e.LastMergedCommit),
         ("merged_commits", .array (e.MergedCommits.map JValue.string))]
        { ForkPoint := "", LastMergedCommit := "", MergedCommits := [] }
      = .ok e := by
  have h1 : fieldIs "fork_point" "fork_point" = true := by decide
  have h2 : fieldIs "last_merged_commit" "fork_point" = false := by decide
  have h3 : fieldIs "last_merged_commit" "last_merged_commit" = true := by decide
  have h4 : fieldIs "merged_commits" "fork_point" = false := by decide
  have h5 : fieldIs "merged_commits" "last_merged_commit" = false := by decide
  have h6 : fieldIs "merged_commits" "merged_commits" = true := by decide
  simp [decodeIssueTracking, decodeString, decodeStrings_map, h1, h2, h3, h4, h5, h6]

theorem decodeIssues_values (es : List (String × IssueTracking)) :
    ∀ m : List (String × IssueTracking),
    decodeIssues (es.map (fun p => (p.1, issueTrackingValue p.2))) m
      = .ok (es.foldl (fun m p => mapSet p.1 p.2 m) m) := by
  induction es with
  | nil => intro m; rfl
  | cons p es ih =>
    intro m
    simp only [List.map_cons, List.foldl_cons, decodeIssues, issueTrackingValue,
      decodeIssueTracking_value]
    exact ih _

theorem mapSet_of_not_mem {V : Type} (k : String) (v : V) (m : List (String × V))
    (h : k ∉ m.map Prod.fst) : mapSet k v m = m ++ [(k, v)] := by
  induction m with
  | nil => rfl
  | cons p m ih =>
    obtain ⟨k', v'⟩ := p
    simp only [List.map_cons, List.mem_cons, not_or] at h
    simp only [mapSet, List.cons_append]
    rw [if_neg (fun hk => h.1 hk.symm), ih h.2]

theorem foldl_mapSet_nodup {V : Type} (es : List (String × V)) :
    ∀ m : List (String × V), ((m ++ es).map Prod.fst).Nodup →
    es.foldl (fun m p => mapSet p.1 p.2 m) m = m ++ es := by
  induction es with
  | nil => intro m _; simp
  | cons p es ih =>
    intro m h
    have hp : p.1 ∉ m.map Prod.fst := by
      simp only [List.map_append, List.map_cons] at h
      have := (List.nodup_append.mp h).2.2
      intro hm
      exact this hm (List.mem_cons_self _ _)
    simp only [List.foldl_cons]
    rw [mapSet_of_not_mem p.1 p.2 m hp, ih (m ++ [(p.1, p.2)]) (by simpa using h)]
    simp

theorem lookup_isSome_of_mem {V : Type} (m : List (String × V)) (k : String)
    (h : k ∈ m.map Prod.fst) : ∃ e, m.lookup k = some e := by
  induction m with
  | nil => simp at h
  | cons p m ih =>
    obtain ⟨k', v'⟩ := p
    by_cases hk : k = k'
    · exact ⟨v', by simp [List.lookup, hk]⟩
    · simp only [List.map_cons, List.mem_cons, hk, false_or] at h
      obtain ⟨e, he⟩ := ih h
      refine ⟨e, ?_⟩
      simp only [List.lookup]
      have : (k == k') = false := by simpa using hk
      rw [this]
      exact he

theorem lookup_none_of_not_mem {V : Type} (m : List (String × V)) (k : String)
    (h : k ∉ m.map Prod.fst) : m.lookup k = none := by
  induction m with
  | nil => rfl
  | cons p m ih =>
    obtain ⟨k', v'⟩ := p
    simp only [List.map_cons, List.mem_cons, not_or] at h
    simp only [List.lookup]
    have : (k == k') = false := by simpa using h.1
    rw [this]
    exact ih h.2

theorem mem_sortedKeys (m : List (String × IssueTracking)) (k : String) :
    k ∈ sortedKeys m ↔ k ∈ m.map Prod.fst := by
  unfold sortedKeys
  rw [(List.perm_insertionSort _ _).mem_iff, List.mem_dedup]

theorem nodup_sortedKeys (m : List (String × IssueTracking)) : (sortedKeys m).Nodup := by
  unfold sortedKeys
  rw [(List.perm_insertionSort _ _).nodup_iff]
  exact List.nodup_dedup _

theorem keys_filterMap_lookup (m : List (String × IssueTracking)) (ks : List String)
    (h : ∀ k ∈ ks, k ∈ m.map Prod.fst) :
    (ks.filterMap (fun k => (m.lookup k).map (fun e => (k, e)))).map Prod.fst = ks := by
  induction ks with
  | nil => rfl
  | cons k ks ih =>
    obtain ⟨e, he⟩ := lookup_isSome_of_mem m k (h k (List.mem_cons_self _ _))
    rw [List.filterMap_cons_some (by rw [he]; rfl), List.map_cons,
      ih (fun k' hk' => h k' (List.mem_cons_of_mem _ hk'))]

theorem keys_sortedEntries (m : List (String × IssueTracking)) :
    (sortedEntries m).map Prod.fst = sortedKeys m :=
  keys_filterMap_lookup m (sortedKeys m) (fun k hk => (mem_sortedKeys m k).mp hk)

theorem lookup_filterMap_lookup (m : List (String × IssueTracking)) (ks : List String)
    (k : String) (hks : ks.Nodup) (hk : k ∈ ks) :
    (ks.filterMap (fun k => (m.lookup k).map (fun e => (k, e)))).lookup k = m.lookup k := by
  induction ks with
  | nil => simp at hk
  | cons k0 ks ih =>
    have hnd := List.nodup_cons.mp hks
    by_cases h0 : k = k0
    · subst h0
      cases he : m.lookup k with
      | none =>
        rw [List.filterMap_cons_none (by rw [he]; rfl)]
        apply lookup_none_of_not_mem
        intro hmem
        simp only [List.mem_map, List.mem_filterMap, Option.map_eq_some'] at hmem
        obtain ⟨⟨k1, e1⟩, ⟨k2, hk2, e2, _, heq⟩, hfst⟩ := hmem
        simp only [Prod.mk.injEq] at heq
        simp only at hfst
        rw [← hfst, ← heq.1] at hnd
        exact hnd.1 hk2
      | some e =>
        rw [List.filterMap_cons_some (by rw [he]; rfl)]
        simp [List.lookup]
    · have hk' : k ∈ ks := by
        rcases List.mem_cons.mp hk with h | h
        · exact absurd h h0
        · exact h
      have hne : (k == k0) = false := by simpa using h0
      cases he : m.lookup k0 with
      | none =>
        rw [List.filterMap_cons_none (by rw [he]; rfl)]
        exact ih hnd.2 hk'
      | some e =>
        rw [List.filterMap_cons_some (by rw [he]; rfl)]
        simp only [List.lookup, hne]
        exact ih hnd.2 hk'

theorem lookup_sortedEntries (m : List (String × IssueTracking)) (k : String) :
    (sortedEntries m).lookup k = m.lookup k := by
  by_cases hk : k ∈ sortedKeys m
  · exact lookup_filterMap_lookup m (sortedKeys m) k (nodup_sortedKeys m) hk
  · rw [lookup_none_of_not_mem m k (fun h => hk ((mem_sortedKeys m k).mpr h))]
    apply lookup_none_of_not_mem
    rw [keys_sortedEntries]
    exact hk

theorem Unmarshal_MarshalIndent (t : Document) :
    Unmarshal (MarshalIndent t) (.ofData { Issues := [] }) = .ok t.inOutputOrder := by
  have hf : fieldIs "issues" "issues" = true := by decide
  unfold Unmarshal
  rw [parseJson_MarshalIndent]
  cases t with
  | nilIssues =>
    simp [documentValue, decodeTrackingData, hf, Document.inOutputOrder]
  | ofData d =>
    have hn : ((([] : List (String × IssueTracking)) ++ sortedEntries d.Issues).map
        Prod.fst).Nodup := by
      rw [List.nil_append, keys_sortedEntries]
      exact nodup_sortedKeys _
    simp only [documentValue, decodeTrackingData, hf, if_true, issuesValue,
      Document.entries]
    rw [decodeIssues_values, foldl_mapSet_nodup _ _ hn]
    simp [decodeTrackingData, Document.inOutputOrder]

theorem lookup_self_of_nodup {V : Type} (m : List (String × V))
    (h : (m.map Prod.fst).Nodup) : ∀ p ∈ m, m.lookup p.1 = some p.2 := by
  induction m with
  | nil => intro p hp; simp at hp
  | cons q m ih =>
    obtain ⟨k, v⟩ := q
    simp only [List.map_cons, List.nodup_cons] at h
    intro p hp
    rcases List.mem_cons.mp hp with hq | hq
    · subst hq
      simp [List.lookup]
    · have hne : p.1 ≠ k := by
        intro hk
        exact h.1 (hk ▸ List.mem_map_of_mem Prod.fst hq)
      have hb : (p.1 == k) = false := by simpa using hne
      simp only [List.lookup, hb]
      exact ih h.2 p hq

theorem filterMap_lookup_keys (m : List (String × IssueTracking)) :
    ∀ m' : List (String × IssueTracking), (∀ p ∈ m', m.lookup p.1 = some p.2) →
    (m'.map Prod.fst).filterMap (fun k => (m.lookup k).map (fun e => (k, e))) = m' := by
  intro m'
  induction m' with
  | nil => intro _; rfl
  | cons p m' ih =>
    intro h
    have hp := h p (List.mem_cons_self _ _)
    rw [List.map_cons, List.filterMap_cons_some (by rw [hp]; rfl),
      ih (fun q hq => h q (List.mem_cons_of_mem _ hq))]

theorem sortedEntries_eq_self (m : List (String × IssueTracking))
    (h : (m.map Prod.fst).Pairwise (fun a b => keyLe a.data b.data = true ∧ a ≠ b)) :
    sortedEntries m = m := by
  have hnd : (m.map Prod.fst).Nodup := h.imp (fun hab => hab.2)
  have hs : (m.map Prod.fst).Sorted (fun a b => keyLe a.data b.data = true) :=
    h.imp (fun hab => hab.1)
  have hk : sortedKeys m = m.map Prod.fst := by
    unfold sortedKeys
    rw [hnd.dedup, hs.insertionSort_eq]
  unfold sortedEntries
  rw [hk]
  exact filterMap_lookup_keys m m (lookup_self_of_nodup m hnd)

theorem Bytes_Load_after_Save (os : Os) (fs fs' : Files) (t : Document)
    (hsave : Bytes.Save encodingJson os fs t = (fs', none))
    (hread : ∀ path : String, getTrackingPath os = .ok path → os.readError path = none) :
    Bytes.Load encodingJson os fs' = .ok t.inOutputOrder ∧
    ∃ path : String, getTrackingPath os = .ok path ∧
      fs' path = some (MarshalIndent t) ∧ ∀ p : String, p ≠ path → fs' p = fs p := by
  obtain ⟨path, data, hp, hm, rfl⟩ := Bytes_Save_ok encodingJson os fs fs' t hsave
  have hd : data = MarshalIndent t := by
    have h' : (Except.ok (MarshalIndent t) : Except String String) = .ok data := hm
    exact (Except.ok.inj h').symm
  subst hd
  refine ⟨?_, path, hp, by simp, fun p hne => by simp [hne]⟩
  unfold Bytes.Load ReadFile
  have hu : encodingJson.Unmarshal (MarshalIndent t) (.ofData { Issues := [] })
      = .ok t.inOutputOrder := Unmarshal_MarshalIndent t
  simp [hp, hread path hp, hu]

/-- C18: for every tracking document `d` and every prior content of the file system,
when `Save` of `d` succeeds and reading the tracking file does not fail, `Load`
returns without error the document that has, for every issue, the entry that `d`
has for it and no other entry: the entries of `d`, every key once, in the order of
the keys. It is `d` itself when the entries of `d` are listed in that order. The
tracking file then holds exactly the encoding of `d`, whatever it held before, and
no other file is changed. -/
theorem C18_save_then_load_round_trip (os : Os) (fs fs' : Files) (d : TrackingData)
    (hsave : Bytes.Save encodingJson os fs (.ofData d) = (fs', none))
    (hread : ∀ path : String, getTrackingPath os = .ok path → os.readError path = none) :
    Bytes.Load encodingJson os fs' = .ok (.ofData { Issues := sortedEntries d.Issues }) ∧
    (∀ i : String, (sortedEntries d.Issues).lookup i = d.Issues.lookup i) ∧
    (∀ i : String,
      TrackingData.GetIssueTracking { Issues := sortedEntries d.Issues } i
        = d.GetIssueTracking i) ∧
    ((d.Issues.map Prod.fst).Pairwise (fun a b => keyLe a.data b.data = true ∧ a ≠ b) →
      Bytes.Load encodingJson os fs' = .ok (.ofData d)) ∧
    ∃ path : String, getTrackingPath os = .ok path ∧
      fs' path = some (MarshalIndent (.ofData d)) ∧ ∀ p : String, p ≠ path → fs' p = fs p := by
  obtain ⟨hload, hfile⟩ := Bytes_Load_after_Save os fs fs' (.ofData d) hsave hread
  refine ⟨hload, lookup_sortedEntries d.Issues, ?_, ?_, hfile⟩
  · intro i
    simp [TrackingData.GetIssueTracking, lookup_sortedEntries]
  · intro hsorted
    rw [hload]
    simp [Document.inOutputOrder, sortedEntries_eq_self d.Issues hsorted]

set_option maxRecDepth 100000 in
/-- Witness of C18: `demoDoc` is saved over a tracking file that holds the encoding of
`mergedDoc` and loaded again; the file then holds the encoding of `demoDoc`. -/
theorem C18_save_then_load_round_trip_witness :
    demoFiles "/repo/.mob/tracking.json" = some mergedDocText ∧
    Bytes.Load encodingJson demoOs
      (fun p => if p = "/repo/.mob/tracking.json" then some (MarshalIndent (.ofData demoDoc))
        else demoFiles p)
      = .ok (.ofData demoDoc) ∧
    MarshalIndent (.ofData demoDoc) = demoDocText :=
  ⟨rfl,
   (C18_save_then_load_round_trip demoOs demoFiles
    (fun p => if p = "/repo/.mob/tracking.json" then some (MarshalIndent (.ofData demoDoc))
      else demoFiles p) demoDoc rfl (fun _ _ => rfl)).2.2.2.1 (by decide),
   by decide⟩

/-- C19, counterexample: `/repo/.mob` is a regular file, so the tracking file
`/repo/.mob/tracking.json` does not exist, and reading it fails with an error for
which `os.IsNotExist` does not hold. `Load` returns that error and no document. -/
theorem C19_absent_file_read_error_counterexample :
    getTrackingPath notDirOs = .ok "/repo/.mob/tracking.json" ∧
    notDirFiles "/repo/.mob/tracking.json" = none ∧
    ReadFile notDirOs notDirFiles "/repo/.mob/tracking.json"
      = .failed "open /repo/.mob/tracking.json: not a directory" ∧
    Bytes.Load encodingJson notDirOs notDirFiles
      = .error "open /repo/.mob/tracking.json: not a directory" := by
  refine ⟨rfl, by decide, by decide, rfl⟩

/-- C19, amended: when the path of the tracking file is known, `Load` returns the
document without entries and no error if reading the file reports that it does not
exist; it returns the error of the read and no document if reading fails in another
way, whether or not the file exists; it returns the document the content decodes to
and no error if the file is read and its content decodes; it returns the decoder's
error and no document if the content does not decode. Whenever `Load` returns an
error, it is the error of `os.Getwd`, the error of the read, or the decoder's error
on the content read. -/
theorem C19_Load_results (j : Json) (os : Os) (fs : Files) :
    (∀ path : String, getTrackingPath os = .ok path →
      os.readError path = none → fs path = none →
      Bytes.Load j os fs = .ok (.ofData { Issues := [] })) ∧
    (∀ path err : String, getTrackingPath os = .ok path →
      os.readError path = some err → Bytes.Load j os fs = .error err) ∧
    (∀ (path data : String) (d : Document), getTrackingPath os = .ok path →
      os.readError path = none → fs path = some data →
      j.Unmarshal data (.ofData { Issues := [] }) = .ok d → Bytes.Load j os fs = .ok d) ∧
    (∀ path data err : String, getTrackingPath os = .ok path →
      os.readError path = none → fs path = some data →
      j.Unmarshal data (.ofData { Issues := [] }) = .error err →
      Bytes.Load j os fs = .error err) ∧
    (∀ err : String, Bytes.Load j os fs = .error err →
      os.Getwd = .error err ∨
      ∃ path : String, getTrackingPath os = .ok path ∧
        (os.readError path = some err ∨
         ∃ data : String, os.readError path = none ∧ fs path = some data ∧
           j.Unmarshal data (.ofData { Issues := [] }) = .error err)) := by
  refine ⟨?_, ?_, ?_, ?_, ?_⟩
  · intro path hp hr hf
    simp [Bytes.Load, ReadFile, hp, hf, hr]
  · intro path err hp hr
    simp [Bytes.Load, ReadFile, hp, hr]
  · intro path data d hp hr hf hu
    simp [Bytes.Load, ReadFile, hp, hf, hr, hu]
  · intro path data err hp hr hf hu
    simp [Bytes.Load, ReadFile, hp, hf, hr, hu]
  · intro err h
    unfold Bytes.Load getTrackingPath at h
    cases hg : os.Getwd with
    | error e =>
      simp only [hg, Except.error.injEq] at h
      exact Or.inl (by rw [h])
    | ok cwd =>
      right
      simp only [hg, ReadFile] at h
      refine ⟨filepathJoin [cwd, trackingDir, trackingFile], by simp [getTrackingPath, hg], ?_⟩
      cases hr : os.readError (filepathJoin [cwd, trackingDir, trackingFile]) with
      | some e =>
        simp only [hr, Except.error.injEq] at h
        exact Or.inl (by rw [h])
      | none =>
        simp only [hr] at h
        cases hf : fs (filepathJoin [cwd, trackingDir, trackingFile]) with
        | none => simp [hf] at h
        | some data =>
          simp only [hf] at h
          cases hu : j.Unmarshal data (.ofData { Issues := [] }) with
          | error e =>
            simp only [hu, Except.error.injEq] at h
            exact Or.inr ⟨data, rfl, rfl, by rw [hu, h]⟩
          | ok d => simp [hu] at h

set_option maxRecDepth 100000 in
/-- Witness of C19 (amended): no tracking file, a read that fails although there is no
tracking file, a tracking file that holds the encoding of `mergedDoc`, and a
tracking file whose content is not JSON. -/
theorem C19_Load_results_witness :
    Bytes.Load encodingJson demoOs (fun _ => none) = .ok (.ofData { Issues := [] }) ∧
    Bytes.Load encodingJson notDirOs notDirFiles
      = .error "open /repo/.mob/tracking.json: not a directory" ∧
    Bytes.Load encodingJson demoOs demoFiles = .ok (.ofData mergedDoc) ∧
    Bytes.Load encodingJson demoOs brokenFiles = .error "invalid JSON" :=
  ⟨(C19_Load_results encodingJson demoOs (fun _ => none)).1 "/repo/.mob/tracking.json"
    rfl rfl rfl,
   (C19_Load_results encodingJson notDirOs notDirFiles).2.1 "/repo/.mob/tracking.json"
    "open /repo/.mob/tracking.json: not a directory" rfl rfl,
   (C19_Load_results encodingJson demoOs demoFiles).2.2.1 "/repo/.mob/tracking.json"
    mergedDocText (.ofData mergedDoc) rfl rfl rfl rfl,
   (C19_Load_results encodingJson demoOs brokenFiles).2.2.2.1 "/repo/.mob/tracking.json"
    "not json" "invalid JSON" rfl rfl rfl rfl⟩

/-! ## The claims on the review model -/

theorem toggle_allChecked {V : Type} (m : ReviewModel V) :
    m.toggle.allChecked = m.toggle.areAllChecked := rfl

theorem toggle_checklistItems {V : Type} (m : ReviewModel V) :
    m.toggle.checklistItems = m.checklistItems := rfl

theorem StepOf_same {V : Type} (m m' : ReviewModel V) (c : Cmd)
    (h1 : m'.checked = m.checked) (h2 : m'.allChecked = m.allChecked)
    (h3 : m'.checklistItems = m.checklistItems) : m.StepOf (m', c) :=
  Or.inr ⟨h1, h2, h3⟩

theorem Update_StepOf {V : Type} (lib : UiLib V) (m : ReviewModel V) (msg : Msg) :
    m.StepOf (ReviewModel.Update lib m msg) := by
  cases msg with
  | WindowSizeMsg W H =>
    simp only [ReviewModel.Update]
    by_cases h1 : lib.scaleWidth W < MinSidePanelWidth <;>
    by_cases h2 : lib.scaleWidth W > MaxSidePanelWidth <;>
    by_cases h3 : MinSidePanelWidth > MaxSidePanelWidth <;>
    cases h4 : m.ready <;>
    simp [h1, h2, h3, h4, ReviewModel.StepOf]
  | recommendationsMsg recs err =>
    cases err <;> exact Or.inr ⟨rfl, rfl, rfl⟩
  | other id => exact Or.inr ⟨rfl, rfl, rfl⟩
  | KeyMsg key =>
    simp only [ReviewModel.Update]
    by_cases hm : m.showModal = true
    · rw [if_pos hm]
      by_cases hk : key = "enter" ∨ key = "esc" ∨ key = "q"
      · rw [if_pos hk]; exact Or.inr ⟨rfl, rfl, rfl⟩
      · rw [if_neg hk]; exact Or.inr ⟨rfl, rfl, rfl⟩
    rw [if_neg hm]
    by_cases h1 : key = "ctrl+c"
    · rw [if_pos h1]; exact Or.inr ⟨rfl, rfl, rfl⟩
    rw [if_neg h1]
    by_cases h2 : key = "q"
    · rw [if_pos h2]
      by_cases hp : m.focusedPanel ≠ "recommendations"
      · rw [if_pos hp]; exact Or.inr ⟨rfl, rfl, rfl⟩
      · rw [if_neg hp]; exact Or.inr ⟨rfl, rfl, rfl⟩
    rw [if_neg h2]
    by_cases h3 : key = "tab"
    · rw [if_pos h3]
      by_cases hp1 : m.focusedPanel = "checklist"
      · rw [if_pos hp1]; exact Or.inr ⟨rfl, rfl, rfl⟩
      rw [if_neg hp1]
      by_cases hp2 : m.focusedPanel = "diff"
      · rw [if_pos hp2]; exact Or.inr ⟨rfl, rfl, rfl⟩
      rw [if_neg hp2]
      by_cases hp3 : m.focusedPanel = "recommendations"
      · rw [if_pos hp3]; exact Or.inr ⟨rfl, rfl, rfl⟩
      · rw [if_neg hp3]; exact Or.inr ⟨rfl, rfl, rfl⟩
    rw [if_neg h3]
    by_cases h4 : key = "up" ∨ key = "k"
    · rw [if_pos h4]
      by_cases hp1 : m.focusedPanel = "checklist"
      · rw [if_pos hp1]
        by_cases hc : m.cursor > 0
        · rw [if_pos hc]; exact Or.inr ⟨rfl, rfl, rfl⟩
        · rw [if_neg hc]; exact Or.inr ⟨rfl, rfl, rfl⟩
      rw [if_neg hp1]
      by_cases hp2 : m.focusedPanel = "recommendations"
      · rw [if_pos hp2]
        by_cases hc : m.recsCursor > 0
        · rw [if_pos hc]; exact Or.inr ⟨rfl, rfl, rfl⟩
        · rw [if_neg hc]; exact Or.inr ⟨rfl, rfl, rfl⟩
      rw [if_neg hp2]
      by_cases hp3 : m.focusedPanel = "diff"
      · rw [if_pos hp3]; exact Or.inr ⟨rfl, rfl, rfl⟩
      · rw [if_neg hp3]; exact Or.inr ⟨rfl, rfl, rfl⟩
    rw [if_neg h4]
    by_cases h5 : key = "down" ∨ key = "j"
    · rw [if_pos h5]
      by_cases hp1 : m.focusedPanel = "checklist"
      · rw [if_pos hp1]
        by_cases hc : m.cursor < (m.checklistItems.length : Int) - 1
        · rw [if_pos hc]; exact Or.inr ⟨rfl, rfl, rfl⟩
        · rw [if_neg hc]; exact Or.inr ⟨rfl, rfl, rfl⟩
      rw [if_neg hp1]
      by_cases hp2 : m.focusedPanel = "recommendations"
      · rw [if_pos hp2]
        by_cases hc : m.recsCursor < (m.recommendations.length : Int) - 1
        · rw [if_pos hc]; exact Or.inr ⟨rfl, rfl, rfl⟩
        · rw [if_neg hc]; exact Or.inr ⟨rfl, rfl, rfl⟩
      rw [if_neg hp2]
      by_cases hp3 : m.focusedPanel = "diff"
      · rw [if_pos hp3]; exact Or.inr ⟨rfl, rfl, rfl⟩
      · rw [if_neg hp3]; exact Or.inr ⟨rfl, rfl, rfl⟩
    rw [if_neg h5]
    by_cases h6 : key = "enter"
    · rw [if_pos h6]
      by_cases hp1 : m.focusedPanel = "checklist"
      · rw [if_pos hp1]; exact Or.inl rfl
      rw [if_neg hp1]
      by_cases hp2 : m.focusedPanel = "recommendations"
      · rw [if_pos hp2]
        by_cases hc : m.recommendations.length > 0 ∧
            m.recsCursor < (m.recommendations.length : Int)
        · rw [if_pos hc]
          cases m.recommendations.get? m.recsCursor.toNat <;> exact Or.inr ⟨rfl, rfl, rfl⟩
        · rw [if_neg hc]; exact Or.inr ⟨rfl, rfl, rfl⟩
      · rw [if_neg hp2]; exact Or.inr ⟨rfl, rfl, rfl⟩
    rw [if_neg h6]
    by_cases h7 : key = " "
    · rw [if_pos h7]
      by_cases hp1 : m.focusedPanel = "checklist"
      · rw [if_pos hp1]; exact Or.inl rfl
      · rw [if_neg hp1]; exact Or.inr ⟨rfl, rfl, rfl⟩
    rw [if_neg h7]
    by_cases h8 : key = "pgup" ∨ key = "pgdown" ∨ key = "home" ∨ key = "end"
    · rw [if_pos h8]
      by_cases hp1 : m.focusedPanel = "diff"
      · rw [if_pos hp1]; exact Or.inr ⟨rfl, rfl, rfl⟩
      · rw [if_neg hp1]; exact Or.inr ⟨rfl, rfl, rfl⟩
    rw [if_neg h8]
    exact Or.inr ⟨rfl, rfl, rfl⟩

theorem areAllChecked_congr {V : Type} (m m' : ReviewModel V)
    (h1 : m'.checked = m.checked) (h3 : m'.checklistItems = m.checklistItems) :
    m'.areAllChecked = m.areAllChecked := by
  unfold ReviewModel.areAllChecked
  rw [h1, h3]

theorem areAllChecked_iff {V : Type} (m : ReviewModel V) :
    m.areAllChecked = true ↔
      ∀ i : Nat, i < m.checklistItems.length → m.checked (i : Int) = true := by
  simp [ReviewModel.areAllChecked, List.all_eq_true]

theorem FlagAgrees_Update {V : Type} (lib : UiLib V) (m : ReviewModel V) (msg : Msg)
    (h : m.FlagAgrees) :
    (ReviewModel.Update lib m msg).1.FlagAgrees ∧
    (ReviewModel.Update lib m msg).1.checklistItems = m.checklistItems := by
  rcases Update_StepOf lib m msg with ht | ⟨h1, h2, h3⟩
  · rw [ht]
    exact ⟨⟨fun hc => by rw [← toggle_allChecked]; exact hc, fun _ => toggle_allChecked m⟩,
      toggle_checklistItems m⟩
  · have hc := areAllChecked_congr m _ h1 h3
    refine ⟨⟨?_, ?_⟩, h3⟩
    · intro ha
      rw [hc]
      exact h.1 (by rw [← h2]; exact ha)
    · intro hne
      rw [hc, h2]
      exact h.2 (by rw [← h3]; exact hne)

theorem FlagAgrees_run {V : Type} (lib : UiLib V) (msgs : List Msg) (m : ReviewModel V)
    (h : m.FlagAgrees) :
    (ReviewModel.run lib m msgs).FlagAgrees ∧
    (ReviewModel.run lib m msgs).checklistItems = m.checklistItems := by
  induction msgs generalizing m with
  | nil => exact ⟨h, rfl⟩
  | cons msg rest ih =>
    obtain ⟨h1, h2⟩ := FlagAgrees_Update lib m msg h
    obtain ⟨h3, h4⟩ := ih _ h1
    exact ⟨h3, by rw [← h2]; exact h4⟩

theorem FlagAgrees_New {V : Type} (lib : UiLib V) (st : DiffStyles) (diff diffStat issue : String)
    (items : List ui.ChecklistItem) :
    (NewReviewModel lib st diff diffStat issue items).FlagAgrees := by
  constructor
  · intro h
    simp [NewReviewModel] at h
  · intro hne
    obtain ⟨a, rest, rfl⟩ := List.exists_cons_of_ne_nil
      (show items ≠ [] by simpa [NewReviewModel] using hne)
    simp [NewReviewModel, ReviewModel.areAllChecked, List.range_succ]

/-- For every checklist with at least one item and every sequence of messages applied
to a new review model, `IsReviewComplete` is true exactly when every item is
checked; for every checklist, it is true only when every item is checked. -/
theorem IsReviewComplete_after_run {V : Type} (lib : UiLib V) (st : DiffStyles)
    (diff diffStat issue : String) (items : List ui.ChecklistItem) (msgs : List Msg) :
    (ReviewModel.run lib (NewReviewModel lib st diff diffStat issue items) msgs).checklistItems
      = items ∧
    ((ReviewModel.run lib (NewReviewModel lib st diff diffStat issue items)
        msgs).IsReviewComplete = true →
      ∀ i : Nat, i < items.length →
        (ReviewModel.run lib (NewReviewModel lib st diff diffStat issue items) msgs).checked
          (i : Int) = true) ∧
    (items ≠ [] →
      ((ReviewModel.run lib (NewReviewModel lib st diff diffStat issue items)
          msgs).IsReviewComplete = true ↔
        ∀ i : Nat, i < items.length →
          (ReviewModel.run lib (NewReviewModel lib st diff diffStat issue items) msgs).checked
            (i : Int) = true)) := by
  obtain ⟨⟨h1, h2⟩, h3⟩ := FlagAgrees_run lib msgs _ (FlagAgrees_New lib st diff diffStat issue items)
  have h3' : (ReviewModel.run lib (NewReviewModel lib st diff diffStat issue items)
      msgs).checklistItems = items := h3
  refine ⟨h3', ?_, ?_⟩
  · intro hc
    have := (areAllChecked_iff _).mp (h1 hc)
    rw [h3'] at this
    exact this
  · intro hne
    unfold ReviewModel.IsReviewComplete
    rw [h2 (by rw [h3']; exact hne), areAllChecked_iff, h3']

/-- C22, the code at a failing input: for the empty checklist, the new review model
and the model after the key `q` report the review as not complete, although
`areAllChecked` holds: no item is unchecked. -/
theorem C22_empty_checklist_reported_incomplete {V : Type} (lib : UiLib V) (st : DiffStyles)
    (diff diffStat issue : String) :
    (NewReviewModel lib st diff diffStat issue []).IsReviewComplete = false ∧
    (NewReviewModel lib st diff diffStat issue []).areAllChecked = true ∧
    (ReviewModel.run lib (NewReviewModel lib st diff diffStat issue [])
      [Msg.KeyMsg "q"]).IsReviewComplete = false ∧
    (ReviewModel.run lib (NewReviewModel lib st diff diffStat issue [])
      [Msg.KeyMsg "q"]).areAllChecked = true ∧
    ReviewModel.Update lib (NewReviewModel lib st diff diffStat issue []) (Msg.KeyMsg "q")
      = (NewReviewModel lib st diff diffStat issue [], Cmd.Quit) := by
  have hq : ReviewModel.Update lib (NewReviewModel lib st diff diffStat issue [])
      (Msg.KeyMsg "q") = (NewReviewModel lib st diff diffStat issue [], Cmd.Quit) := by
    simp only [ReviewModel.Update]
    rw [if_neg (by simp [NewReviewModel]), if_neg (by decide), if_pos trivial,
      if_pos (by simp [NewReviewModel])]
  refine ⟨rfl, rfl, ?_, ?_, hq⟩
  · simp only [ReviewModel.run, List.foldl, hq]
    rfl
  · simp only [ReviewModel.run, List.foldl, hq]
    rfl

/-! ## The claim on the parsing of the log output -/

theorem printedLines_data_cons (h : String) (t : List String) :
    (printedLines (h :: t)).data = h.data ++ '\n' :: (printedLines t).data := by
  simp [printedLines, String.data_append]

theorem printedLines_data (L : List String) (hne : L ≠ []) :
    (printedLines L).data = joinLines L ++ ['\n'] := by
  induction L with
  | nil => exact absurd rfl hne
  | cons h t ih =>
    rw [printedLines_data_cons]
    cases t with
    | nil => simp [printedLines, joinLines]
    | cons h2 t2 =>
      rw [ih (by simp)]
      simp [joinLines]

theorem IsHash_data_cons (h : String) (hh : IsHash h) :
    ∃ (a : Char) (r : List Char), h.data = a :: r ∧ isSpace a = false := by
  obtain ⟨hne, hsp⟩ := hh
  cases hd : h.data with
  | nil => exact absurd (String.ext hd) hne
  | cons a r => exact ⟨a, r, rfl, hsp a (by rw [hd]; exact List.mem_cons_self _ _)⟩

theorem IsHash_data_reverse_cons (h : String) (hh : IsHash h) :
    ∃ (b : Char) (r : List Char), h.data.reverse = b :: r ∧ isSpace b = false := by
  obtain ⟨a, r, hd, -⟩ := IsHash_data_cons h hh
  cases hr : h.data.reverse with
  | nil =>
    rw [List.reverse_eq_nil_iff] at hr
    rw [hr] at hd
    exact absurd hd (by simp)
  | cons b r' =>
    refine ⟨b, r', rfl, hh.2 b ?_⟩
    have : b ∈ h.data.reverse := by rw [hr]; exact List.mem_cons_self _ _
    exact List.mem_reverse.mp this

theorem joinLines_cons (L : List String) (hne : L ≠ []) (hL : ∀ h ∈ L, IsHash h) :
    ∃ (a : Char) (r : List Char), joinLines L = a :: r ∧ isSpace a = false := by
  cases L with
  | nil => exact absurd rfl hne
  | cons h t =>
    obtain ⟨a, r, hd, ha⟩ := IsHash_data_cons h (hL h (List.mem_cons_self _ _))
    cases t with
    | nil => exact ⟨a, r, by simp [joinLines, hd], ha⟩
    | cons h2 t2 => exact ⟨a, r ++ '\n' :: joinLines (h2 :: t2), by simp [joinLines, hd], ha⟩

theorem joinLines_reverse_cons (L : List String) (hne : L ≠ []) (hL : ∀ h ∈ L, IsHash h) :
    ∃ (b : Char) (r : List Char), (joinLines L).reverse = b :: r ∧ isSpace b = false := by
  induction L with
  | nil => exact absurd rfl hne
  | cons h t ih =>
    cases t with
    | nil =>
      simpa [joinLines] using IsHash_data_reverse_cons h (hL h (List.mem_cons_self _ _))
    | cons h2 t2 =>
      obtain ⟨b, r, hr, hb⟩ := ih (by simp) (fun x hx => hL x (List.mem_cons_of_mem _ hx))
      refine ⟨b, r ++ ('\n' :: h.data.reverse), ?_, hb⟩
      simp [joinLines, hr]

theorem TrimSpace_printedLines (L : List String) (hL : ∀ h ∈ L, IsHash h) :
    TrimSpace (printedLines L) = ⟨joinLines L⟩ := by
  cases L with
  | nil => rfl
  | cons h t =>
    obtain ⟨a, r, hj, ha⟩ := joinLines_cons (h :: t) (by simp) hL
    obtain ⟨b, r', hjr, hb⟩ := joinLines_reverse_cons (h :: t) (by simp) hL
    unfold TrimSpace
    rw [printedLines_data (h :: t) (by simp)]
    have h1 : List.dropWhile isSpace (joinLines (h :: t) ++ ['\n'])
        = joinLines (h :: t) ++ ['\n'] := by
      rw [hj]
      simp [List.dropWhile, ha]
    rw [h1, List.reverse_append, hjr]
    have hnl : isSpace '\n' = true := by decide
    simp only [List.reverse_cons, List.reverse_nil, List.nil_append, List.singleton_append,
      List.dropWhile, hnl, hb]
    have hrev : r'.reverse ++ [b] = joinLines (h :: t) := by
      have := congrArg List.reverse hjr
      simpa using this.symm
    rw [hrev]

theorem splitAux_append (sep : Char) (x rest cur : List Char) (hx : sep ∉ x) :
    splitAux sep (x ++ rest) cur = splitAux sep rest (x.reverse ++ cur) := by
  induction x generalizing cur with
  | nil => rfl
  | cons c x ih =>
    have hc : c ≠ sep := fun e => hx (by rw [e]; exact List.mem_cons_self _ _)
    have hx' : sep ∉ x := fun e => hx (List.mem_cons_of_mem _ e)
    have step : splitAux sep (c :: x ++ rest) cur = splitAux sep (x ++ rest) (c :: cur) := by
      simp [splitAux, hc]
    rw [step, ih (c :: cur) hx']
    simp

theorem IsHash_no_newline (h : String) (hh : IsHash h) : '\n' ∉ h.data := by
  intro hm
  have := hh.2 '\n' hm
  exact absurd this (by decide)

theorem splitAux_joinLines (L : List String) (hne : L ≠ []) (hL : ∀ h ∈ L, IsHash h) :
    splitAux '\n' (joinLines L) [] = L := by
  induction L with
  | nil => exact absurd rfl hne
  | cons h t ih =>
    have hh := IsHash_no_newline h (hL h (List.mem_cons_self _ _))
    cases t with
    | nil =>
      have := splitAux_append '\n' h.data [] [] hh
      simp only [List.append_nil] at this
      simp [joinLines, this, splitAux]
    | cons h2 t2 =>
      have := splitAux_append '\n' h.data ('\n' :: joinLines (h2 :: t2)) [] hh
      simp only [List.append_nil] at this
      simp only [joinLines, this, splitAux, if_true, List.reverse_reverse]
      rw [ih (by simp) (fun x hx => hL x (List.mem_cons_of_mem _ hx))]

/-- C23: for every list `L` of commit hashes (strings that are not empty and have no
white space), when the log command prints the hashes of `L` one per line,
`GetCommitsBetween` returns exactly `L`, in the same order; for `L` empty the output
is empty and the empty list is returned; no element of the result is the empty
string. -/
theorem C23_GetCommitsBetween_parses_lines (w : World) (s : Sys) (base head : String)
    (L : List String) (hL : ∀ h ∈ L, IsHash h)
    (hout : w.outcome s.log (Event.output ["log", "--format=%H", base ++ ".." ++ head])
      = .ok (printedLines L)) :
    GetCommitsBetween w s base head
      = ({ log := s.log ++ [Event.output ["log", "--format=%H", base ++ ".." ++ head]],
           store := s.store }, .ok L) ∧
    "" ∉ L := by
  constructor
  · unfold GetCommitsBetween Output
    simp only [hout, TrimSpace_printedLines L hL]
    cases L with
    | nil => rfl
    | cons h t =>
      obtain ⟨a, r, hj, -⟩ := joinLines_cons (h :: t) (by simp) hL
      have hne : (⟨joinLines (h :: t)⟩ : String) ≠ "" := by
        intro e
        have := congrArg String.data e
        simp [hj] at this
      simp only [hne, if_false, Split, splitAux_joinLines (h :: t) (by simp) hL]
  · intro hm
    exact (hL "" hm).1 rfl

/-- Witness of C23: the log prints `c3`, `c2`, `c1`, one per line. -/
theorem C23_GetCommitsBetween_parses_lines_witness :
    printedLines ["c3", "c2", "c1"] = "c3\nc2\nc1\n" ∧
    GetCommitsBetween firstUpdateWorld
      { log := [Event.output ["rev-parse", "--abbrev-ref", "HEAD"], Event.load],
        store := Store.doc demoDoc } "f0" "wip/7"
      = ({ log := [Event.output ["rev-parse", "--abbrev-ref", "HEAD"], Event.load] ++
             [Event.output ["log", "--format=%H", "f0" ++ ".." ++ "wip/7"]],
           store := Store.doc demoDoc }, .ok ["c3", "c2", "c1"]) :=
  ⟨by decide,
   (C23_GetCommitsBetween_parses_lines firstUpdateWorld
    { log := [Event.output ["rev-parse", "--abbrev-ref", "HEAD"], Event.load],
      store := Store.doc demoDoc } "f0" "wip/7" ["c3", "c2", "c1"]
    (by
      intro h hh
      simp only [List.mem_cons, List.mem_singleton, List.mem_nil_iff, or_false] at hh
      rcases hh with rfl | rfl | rfl <;> exact ⟨by decide, by decide⟩)
    rfl).1⟩

/-! ## The claims on branch naming and on the default checklist -/

theorem HasPrefix_append (p x : String) : HasPrefix (p ++ x) p = true := by
  unfold HasPrefix
  rw [String.data_append]
  exact List.isPrefixOf_iff_prefix.mpr (List.prefix_append _ _)

theorem TrimPrefix_append (p x : String) : TrimPrefix (p ++ x) p = x := by
  unfold TrimPrefix
  rw [if_pos (HasPrefix_append p x)]
  apply String.ext
  simp [String.data_append]

theorem ReplaceAll_not_mem (s : String) (old new : Char) (h : new ≠ old) :
    old ∉ (ReplaceAll s old new).data := by
  unfold ReplaceAll
  simp only [List.mem_map, not_exists, not_and]
  intro c _
  by_cases hc : c = old
  · simp [hc, h]
  · simp [hc]

theorem GetForkPoint_SetForkPoint_self (d : TrackingData) (i c : String) :
    (d.SetForkPoint i c).GetForkPoint i = c := by
  simp [TrackingData.GetForkPoint, GetIssueTracking_SetForkPoint_self]

theorem Save_ok (w : World) (s s' : Sys) (t : TrackingData)
    (h : t.Save w s = (s', none)) :
    s' = { log := s.log ++ [Event.save t], store := Store.doc t } := by
  unfold TrackingData.Save at h
  cases ho : w.outcome s.log (Event.save t) with
  | error e => simp [ho] at h
  | ok o =>
    simp only [ho, Prod.mk.injEq, and_true] at h
    exact h.symm

/-- C21, the code at a failing input: `mob init` with the work argument `task`
followed by a no-break space, in a repository whose tracking file has an entry for
the issue `task`. The identifier is the argument itself, `init` creates the branch
`wip/` followed by it and stores the fork point `f0` under it. The update command
run on that branch reads the branch name without the no-break space: its working
branch is `wip/task`, its issue is `task` and the branch it creates, commits to and
pushes is `pr/task`, not `pr/` followed by the identifier. -/
theorem C21_update_targets_trimmed_name :
    ReplaceAll "task\u00a0" ' ' '-' = "task\u00a0" ∧
    initCmd.Run initWorld noIssues ["task\u00a0"] "" { log := [], store := Store.doc taskDoc }
      = ({ log := [Event.output ["rev-parse", "HEAD"],
                   Event.run ["checkout", "-b", "wip/task\u00a0"], Event.load,
                   Event.save taskSpaceDoc],
           store := Store.doc taskSpaceDoc }, none) ∧
    updateCmd.prepare taskSpaceWorld { log := [], store := Store.doc taskSpaceDoc }
      = ({ log := [Event.output ["rev-parse", "--abbrev-ref", "HEAD"], Event.load,
                   Event.output ["log", "--format=%H", "e0..wip/task"],
                   Event.output ["rev-parse", "--verify", "pr/task"]],
           store := Store.doc taskSpaceDoc },
         .inr { issue := "task", wipBranch := "wip/task", prBranch := "pr/task",
                trackingData := taskSpaceDoc, forkPoint := "e0", allCommits := ["c1"],
                unmergedCommits := ["c1"], prBranchExisted := false,
                prBranchOriginalCommit := "" }) ∧
    (updateCmd.RunE taskSpaceWorld "msg" { log := [], store := Store.doc taskSpaceDoc }).1.log
      = [Event.output ["rev-parse", "--abbrev-ref", "HEAD"], Event.load,
         Event.output ["log", "--format=%H", "e0..wip/task"],
         Event.output ["rev-parse", "--verify", "pr/task"],
         Event.run ["checkout", "e0"], Event.run ["checkout", "-b", "pr/task"],
         Event.run ["merge", "--squash", "-X", "theirs", "wip/task"],
         Event.run ["commit", "-m", "msg"],
         Event.save (taskSpaceDoc.UpdateIssueTracking "task" "c1" ["c1"]),
         Event.run ["push", "-u", "origin", "pr/task"], Event.run ["checkout", "wip/task"]] ∧
    "pr/task" ≠ "pr/" ++ ReplaceAll "task\u00a0" ' ' '-' ∧
    "wip/task" ≠ "wip/" ++ ReplaceAll "task\u00a0" ' ' '-' := by
  decide

/-- C24, the code at a failing input: `mob init` with the work argument `task`
followed by a no-break space, then `mob update` on the branch `init` created with
the tracking file `init` left. `init` stores the fork point `f0` under the argument
itself; `git` prints the name of the branch followed by a line feed, `CurrentBranch`
returns `wip/task`, the update command extracts the identifier `task`, for which
the document saved by `init` has no fork point, and it returns the error of a branch
not created with `mob init`. -/
theorem C24_update_misses_key_stored_by_init :
    initCmd.Run initWorld noIssues ["task\u00a0"] "" demoStart
      = ({ log := [Event.output ["rev-parse", "HEAD"],
                   Event.run ["checkout", "-b", "wip/task\u00a0"], Event.load,
                   Event.save spaceDoc],
           store := Store.doc spaceDoc }, none) ∧
    spaceDoc.GetForkPoint "task\u00a0" = "f0" ∧
    spaceWorld.outcome [] (Event.output ["rev-parse", "--abbrev-ref", "HEAD"])
      = .ok "wip/task\u00a0\n" ∧
    (CurrentBranch spaceWorld { log := [], store := Store.doc spaceDoc }).2 = .ok "wip/task" ∧
    TrimPrefix "wip/task" "wip/" = "task" ∧
    "task" ≠ "task\u00a0" ∧
    spaceDoc.GetForkPoint "task" = "" ∧
    updateCmd.RunE spaceWorld "msg" { log := [], store := Store.doc spaceDoc }
      = ({ log := [Event.output ["rev-parse", "--abbrev-ref", "HEAD"], Event.load],
           store := Store.doc spaceDoc },
         some "no fork point found for this issue. Was this branch created with 'mob init'?") := by
  refine ⟨by decide, by decide, rfl, rfl, by decide, by decide, by decide, by decide⟩

/-- C25, the code at the failing input: without a checklist file `LoadChecklist`
returns a checklist of four items, `CreateDefaultChecklist` saves a checklist of five
items, which is the content it writes when saving succeeds, and the two checklists
differ: the item `lint` is in the second only. -/
theorem C25_default_checklists_differ (y : Yaml) (fs : Files) :
    config.LoadChecklist y demoOs (fun _ => none) = .ok fallbackChecklist ∧
    config.CreateDefaultChecklist y demoOs fs = config.SaveChecklist y demoOs fs createdChecklist ∧
    (∀ data : String, y.Marshal createdChecklist = .ok data →
      (config.CreateDefaultChecklist y demoOs fs).1 "/repo/.mob/checklist.yaml" = some data) ∧
    fallbackChecklist ≠ createdChecklist ∧
    fallbackChecklist.Items.length = 4 ∧ createdChecklist.Items.length = 5 ∧
    { ID := "lint", Description := "No lint errors" } ∈ createdChecklist.Items ∧
    { ID := "lint", Description := "No lint errors" } ∉ fallbackChecklist.Items := by
  refine ⟨rfl, rfl, ?_, by decide, rfl, rfl, by decide, by decide⟩
  intro data hd
  have hp : config.getChecklistPath demoOs = .ok "/repo/.mob/checklist.yaml" := rfl
  have hc : config.CreateDefaultChecklist y demoOs fs
      = config.SaveChecklist y demoOs fs createdChecklist := rfl
  rw [hc]
  unfold config.SaveChecklist
  simp only [hp, hd]
  have hm : demoOs.mkdirError (filepathDir "/repo/.mob/checklist.yaml") = none := rfl
  have hw : demoOs.writeError "/repo/.mob/checklist.yaml" = none := rfl
  simp [hm, hw]

end Mob
